import Mathlib

/-!
# quill-plus: a shallow embedding of `src/quill.cpp`

The interpreter of `quill.cpp` is one class, `Interpreter`, with four fields
(`variables_`, `functions_`, `currentFunction_`, `currentFunctionReturnValue_`)
and a family of mutually recursive member functions that pull
whitespace-delimited tokens out of a `std::istringstream`.

The embedding has three layers.

* `IStream`: the part of `std::istringstream` the program uses (formatted
  extraction of a `std::string` and of a `char`, `peek`, `ignore`, `putback`,
  `std::getline`), with the `eofbit`/`failbit`/`badbit` state and the
  one-character put-back area of a read-only `std::stringbuf`.
* `Arith`: the `double` operations the program uses.  They are a parameter, so
  every general theorem holds for IEEE-754 binary64 as for any other
  interpretation; `exactArith` is the instance used to run the code on
  concrete lines.
* the member functions, as functions of a fuel counter (the program has
  unbounded loops and unbounded recursion), the interpreter state and the
  stream.  An exception is the result `Res.err msg st`, where `st` is the
  interpreter state at the `throw`: the driver `run` catches the exception and
  keeps that state.
-/

namespace Quill

/-- A `std::string`, as its sequence of characters. -/
abbrev Str := List Char

/-! ## `std::istringstream` -/

/-- The predicate `std::isspace` in the "C" locale. -/
def isspace (c : Char) : Bool :=
  c == ' ' || c == '\t' || c == '\n' || c == '\x0b' || c == '\x0c' || c == '\r'

/-- The predicate `isdigit`. -/
def isdigit (c : Char) : Bool :=
  '0'.toNat ≤ c.toNat && c.toNat ≤ '9'.toNat

/-- A `std::istringstream` opened on a string: the characters already read
(`back`, the most recent first), the characters still to read (`rest`) and the
three state bits. -/
structure IStream where
  back : List Char
  rest : List Char
  eof : Bool
  fail : Bool
  bad : Bool
  deriving DecidableEq, Repr

namespace IStream

/-- The stream `std::istringstream iss(s)`. -/
def ofStr (s : Str) : IStream :=
  { back := [], rest := s, eof := false, fail := false, bad := false }

/-- The member `good()`: no state bit is set. -/
def good (s : IStream) : Bool := !s.eof && !s.fail && !s.bad

/-- The conversion `static_cast<bool>(iss)`, that is `!fail()`: neither
`failbit` nor `badbit` is set. -/
def toBool (s : IStream) : Bool := !s.fail && !s.bad

/-- The constructor of `istream::sentry`.  On a stream that is not `good()` it
sets `failbit`.  Otherwise, unless `noskipws`, it skips leading white space and
sets `eofbit | failbit` when that reaches the end.  The Boolean is the value
of the sentry. -/
def sentry (s : IStream) (noskipws : Bool) : IStream × Bool :=
  if s.good then
    if noskipws then (s, true)
    else
      let ws := s.rest.takeWhile isspace
      let r := s.rest.dropWhile isspace
      let s1 := { s with back := ws.reverse ++ s.back, rest := r }
      if r.isEmpty then ({ s1 with eof := true, fail := true }, false)
      else (s1, true)
  else ({ s with fail := true }, false)

/-- The extraction `iss >> str` into a `std::string` that is empty before the
call: the token read (empty when the extraction fails, the string is then
left as it was) and the stream after it. -/
def extract (s : IStream) : Str × IStream :=
  match s.sentry false with
  | (s1, true) =>
    let tok := s1.rest.takeWhile (fun c => !isspace c)
    let r := s1.rest.dropWhile (fun c => !isspace c)
    (tok, { s1 with back := tok.reverse ++ s1.back, rest := r,
                    eof := s1.eof || r.isEmpty, fail := s1.fail || tok.isEmpty })
  | (s1, false) => ([], s1)

/-- The extraction `iss >> c` into a `char`: the character read, `none` when
the extraction fails (the `char` is then left as it was). -/
def extractChar (s : IStream) : Option Char × IStream :=
  match s.sentry false with
  | (s1, true) =>
    match s1.rest with
    | c :: r => (some c, { s1 with back := c :: s1.back, rest := r })
    | [] => (none, { s1 with eof := true, fail := true })
  | (s1, false) => (none, s1)

/-- The member `peek()`: the next character without reading it, `none` for
`EOF`. -/
def peek (s : IStream) : Option Char × IStream :=
  match s.sentry true with
  | (s1, true) =>
    match s1.rest with
    | c :: _ => (some c, s1)
    | [] => (none, { s1 with eof := true })
  | (s1, false) => (none, s1)

/-- The member `ignore()`: reads and drops one character. -/
def ignore (s : IStream) : IStream :=
  match s.sentry true with
  | (s1, true) =>
    match s1.rest with
    | c :: r => { s1 with back := c :: s1.back, rest := r }
    | [] => { s1 with eof := true }
  | (s1, false) => s1

/-- The member `putback(c)`: clears `eofbit`, then steps the read position
back by one if the stream is good and `c` is the character before it; the
buffer of an input-only string stream cannot be written, so any other
put-back sets `badbit`. -/
def putback (s : IStream) (c : Char) : IStream :=
  match ({ s with eof := false } : IStream).sentry true with
  | (s1, true) =>
    match s1.back with
    | b :: bs => if b = c then { s1 with back := bs, rest := b :: s1.rest }
                 else { s1 with bad := true }
    | [] => { s1 with bad := true }
  | (s1, false) => s1

/-- The call `std::getline(iss, line, delim)` into a string that is empty
before the call: the characters up to the delimiter, which is read and
dropped; `failbit` when nothing at all was read. -/
def getline (s : IStream) (delim : Char) : Str × IStream :=
  match s.sentry true with
  | (s1, true) =>
    let line := s1.rest.takeWhile (fun c => c != delim)
    match s1.rest.dropWhile (fun c => c != delim) with
    | d :: r => (line, { s1 with back := d :: (line.reverse ++ s1.back), rest := r })
    | [] => (line, { s1 with back := line.reverse ++ s1.back, rest := [],
                             eof := true, fail := s1.fail || line.isEmpty })
  | (s1, false) => ([], s1)

end IStream

/-! ## `double` -/

/-- The operations on `double` that the interpreter uses. -/
structure Arith (D : Type) where
  /-- The literal `0.0`. -/
  zero : D
  /-- The initial value of `pi`. -/
  pi : D
  /-- The initial value of `e`. -/
  e : D
  add : D → D → D
  sub : D → D → D
  mul : D → D → D
  div : D → D → D
  /-- The comparison `x == 0.0`; `x != 0.0` is its negation. -/
  isZero : D → Bool
  /-- The call `std::stod(token)`; `none` when it throws. -/
  stod : Str → Option D

/-! ## The interpreter state -/

/-- The fields of `Interpreter`.  The two `std::map`s are association lists
searched from the front; `setKey` keeps at most one entry for a key. -/
structure State (D : Type) where
  variables_ : List (Str × D)
  functions_ : List (Str × (List Str × Str))
  currentFunction_ : Str
  currentFunctionReturnValue_ : D
  deriving DecidableEq

/-- The lookup `m.find(k)`. -/
def findKey {β : Type} (m : List (Str × β)) (k : Str) : Option β :=
  match m with
  | [] => none
  | (k1, v) :: t => if k1 = k then some v else findKey t k

/-- The assignment `m[k] = v`: replaces the value of an existing key, adds the
key otherwise. -/
def setKey {β : Type} (m : List (Str × β)) (k : Str) (v : β) : List (Str × β) :=
  match m with
  | [] => [(k, v)]
  | (k1, v1) :: t => if k1 = k then (k1, v) :: t else (k1, v1) :: setKey t k v

/-- The test `m.find(k) != m.end()`. -/
def hasKey {β : Type} (m : List (Str × β)) (k : Str) : Bool :=
  (findKey m k).isSome

/-- The state built by the constructor `Interpreter()`. -/
def initialState {D : Type} (A : Arith D) : State D :=
  { variables_ := [("e".toList, A.e), ("pi".toList, A.pi)]
    functions_ := []
    currentFunction_ := []
    currentFunctionReturnValue_ := A.zero }

/-- The outcome of a member function: it returns `a` in state `st`, or throws
an exception whose `what()` is `msg` in state `st`, or reads an uninitialised
object in state `st`, or is still running when the fuel is spent. -/
inductive Res (σ α : Type) where
  | ok (a : α) (st : σ)
  | err (msg : Str) (st : σ)
  | undef (st : σ)
  | timeout
  deriving DecidableEq

/-- Sequencing: the continuation runs on the value returned and the state
reached; an exception, an undefined read and the end of the fuel pass
through. -/
def Res.bind {σ α β : Type} (r : Res σ α) (k : α → σ → Res σ β) : Res σ β :=
  match r with
  | .ok a st => k a st
  | .err msg st => .err msg st
  | .undef st => .undef st
  | .timeout => .timeout

variable {D : Type}

/-- The loop `while (true) { std::getline(iss, line); if (line == "end") break;
acc += line + '\n'; }` of `handleConditionalStatement` and `handleForLoop`:
it returns the text collected and the stream after the line `end`, and is
still running when the fuel is spent before a line `end` is read. -/
def readUntilEnd {σ : Type} : Nat → σ → IStream → Str → Res σ (Str × IStream)
  | 0, _, _, _ => .timeout
  | n + 1, st, iss, acc =>
    let line := (iss.getline '\n').1
    let iss1 := (iss.getline '\n').2
    if line = "end".toList then .ok (acc, iss1) st
    else readUntilEnd n st iss1 (acc ++ (line ++ ['\n']))

/-- The loop `while (paramsIss >> param) paramList.push_back(param);` of
`handleFunctionDefinition`, run for at most the given number of rounds. -/
def readParams : Nat → IStream → List Str
  | 0, _ => []
  | n + 1, iss =>
    let param := iss.extract.1
    let iss1 := iss.extract.2
    if iss1.toBool then param :: readParams n iss1 else []

/-- The parameter list that `handleFunctionDefinition` builds from the text
before the opening brace.  Every round of the loop reads at least one
character, so `params.length + 1` rounds reach its end. -/
def paramListOf (params : Str) : List Str :=
  readParams (params.length + 1) (IStream.ofStr params)

/-- The character `token[i]` of a `std::string`, which is `'\0'` at
`i == token.size()`. -/
def charAt (token : Str) (i : Nat) : Char := token.getD i '\x00'

/-- The test of line 242, `isdigit(token[0]) || (token[0] == '-' &&
isdigit(token[1]))`. -/
def isNumberToken (token : Str) : Bool :=
  isdigit (charAt token 0) || (charAt token 0 == '-' && isdigit (charAt token 1))

mutual

/-- The member `Interpreter::evaluateStatement` (lines 38-64). -/
def evaluateStatement (A : Arith D) : Nat → State D → Str → Res (State D) Unit
  | 0, _, _ => .timeout
  | n + 1, st, statement =>
    let token := (IStream.ofStr statement).extract.1
    let iss := (IStream.ofStr statement).extract.2
    if token = "var".toList then handleVariableDeclaration A n st iss
    else if hasKey st.variables_ token then handleVariableAssignment A n st iss token
    else if token = "if".toList then handleConditionalStatement A n st iss
    else if token = "for".toList then handleForLoop A n st iss
    else if token = "func".toList then handleFunctionDefinition A n st iss
    else if token = "return".toList then handleFunctionReturn A n st iss
    else .err ("Invalid statement: ".toList ++ statement) st

/-- The member `Interpreter::handleVariableDeclaration` (lines 66-81). -/
def handleVariableDeclaration (A : Arith D) :
    Nat → State D → IStream → Res (State D) Unit
  | 0, _, _ => .timeout
  | n + 1, st, iss =>
    let varName := iss.extract.1
    let iss1 := iss.extract.2
    if hasKey st.variables_ varName then
      .err ("Variable already declared: ".toList ++ varName) st
    else if iss1.peek.1 = some '=' then
      (evaluateExpression A n st iss1.peek.2.ignore).bind fun value st1 =>
        .ok () { st1 with variables_ := setKey st1.variables_ varName value.1 }
    else
      .ok () { st with variables_ := setKey st.variables_ varName A.zero }

/-- The member `Interpreter::handleVariableAssignment` (lines 83-93).  When
the extraction of `equalSign` fails the comparison of line 87 reads an
uninitialised `char`. -/
def handleVariableAssignment (A : Arith D) :
    Nat → State D → IStream → Str → Res (State D) Unit
  | 0, _, _, _ => .timeout
  | n + 1, st, iss, varName =>
    match iss.extractChar.1 with
    | none => .undef st
    | some equalSign =>
      if equalSign ≠ '=' then .err "Invalid assignment syntax".toList st
      else
        (evaluateExpression A n st iss.extractChar.2).bind fun value st1 =>
          .ok () { st1 with variables_ := setKey st1.variables_ varName value.1 }

/-- The member `Interpreter::handleConditionalStatement` (lines 95-120). -/
def handleConditionalStatement (A : Arith D) :
    Nat → State D → IStream → Res (State D) Unit
  | 0, _, _ => .timeout
  | n + 1, st, iss =>
    (evaluateExpression A n st iss).bind fun r st1 =>
      let condition := r.1
      let thenKeyword := r.2.extract.1
      let iss1 := r.2.extract.2
      if thenKeyword ≠ "then".toList then
        .err "Expected 'then' after condition".toList st1
      else if !A.isZero condition then
        let trueBranch := (iss1.getline '\n').1
        evaluateBlock A n st1 trueBranch
      else
        (readUntilEnd n st1 iss1 []).bind fun falseBranch st2 =>
          evaluateBlock A n st2 falseBranch.1

/-- The member `Interpreter::handleForLoop` (lines 122-148), up to the loop
of line 135. -/
def handleForLoop (A : Arith D) : Nat → State D → IStream → Res (State D) Unit
  | 0, _, _ => .timeout
  | n + 1, st, iss =>
    let loopHeader := (iss.getline '\x7b').1
    let iss1 := (iss.getline '\x7b').2
    (evaluateStatement A n st (loopHeader ++ "\x7b".toList)).bind fun _ st1 =>
      (evaluateExpression A n st1 iss1).bind fun r st2 =>
        let condition := r.1
        let doKeyword := r.2.extract.1
        let iss2 := r.2.extract.2
        if doKeyword ≠ "do".toList then
          .err "Expected 'do' after condition".toList st2
        else forLoopWhile A n st2 iss2 condition

/-- The loop `while (condition != 0.0) { ... }` of `handleForLoop`
(lines 135-147). -/
def forLoopWhile (A : Arith D) : Nat → State D → IStream → D → Res (State D) Unit
  | 0, _, _, _ => .timeout
  | n + 1, st, iss, condition =>
    if !A.isZero condition then
      (readUntilEnd n st iss []).bind fun loopBody st0 =>
        (evaluateBlock A n st0 loopBody.1).bind fun _ st1 =>
          (evaluateExpression A n st1 loopBody.2).bind fun r st2 =>
            forLoopWhile A n st2 r.2 r.1
    else .ok () st

/-- The member `Interpreter::handleFunctionDefinition` (lines 150-173). -/
def handleFunctionDefinition (A : Arith D) :
    Nat → State D → IStream → Res (State D) Unit
  | 0, _, _ => .timeout
  | n + 1, st, iss =>
    let funcName := iss.extract.1
    let iss1 := iss.extract.2
    if hasKey st.functions_ funcName then
      .err ("Function already defined: ".toList ++ funcName) st
    else
      let params := (iss1.getline '\x7b').1
      let iss2 := (iss1.getline '\x7b').2
      let paramList := paramListOf params
      let funcBody := (iss2.getline '\n').1
      (evaluateBlock A n st funcBody).bind fun _ st1 =>
        .ok () { st1 with
          functions_ := setKey st1.functions_ funcName (paramList, funcBody) }

/-- The member `Interpreter::handleFunctionReturn` (lines 175-182). -/
def handleFunctionReturn (A : Arith D) : Nat → State D → IStream → Res (State D) Unit
  | 0, _, _ => .timeout
  | n + 1, st, iss =>
    (evaluateExpression A n st iss).bind fun result st1 =>
      if st1.currentFunction_ ≠ [] then
        .ok () { st1 with currentFunctionReturnValue_ := result.1 }
      else .err "'return' statement outside of a function".toList st1

/-- The member `Interpreter::evaluateBlock` (lines 184-190). -/
def evaluateBlock (A : Arith D) : Nat → State D → Str → Res (State D) Unit
  | 0, _, _ => .timeout
  | n + 1, st, block => evaluateBlockLoop A n st (IStream.ofStr block)

/-- The loop `while (std::getline(blockStream, line)) evaluateStatement(line);`
of `evaluateBlock`. -/
def evaluateBlockLoop (A : Arith D) : Nat → State D → IStream → Res (State D) Unit
  | 0, _, _ => .timeout
  | n + 1, st, blockStream =>
    let line := (blockStream.getline '\n').1
    let bs1 := (blockStream.getline '\n').2
    if bs1.toBool then
      (evaluateStatement A n st line).bind fun _ st1 => evaluateBlockLoop A n st1 bs1
    else .ok () st

/-- The member `Interpreter::evaluateExpression` (lines 192-216), up to the
loop of line 197. -/
def evaluateExpression (A : Arith D) :
    Nat → State D → IStream → Res (State D) (D × IStream)
  | 0, _, _ => .timeout
  | n + 1, st, iss =>
    (evaluateTerm A n st iss).bind fun r st1 => evaluateExpressionLoop A n st1 r.2 r.1

/-- The loop `while (iss >> op) { ... }` of `evaluateExpression`
(lines 197-214), entered with the value of `result`. -/
def evaluateExpressionLoop (A : Arith D) :
    Nat → State D → IStream → D → Res (State D) (D × IStream)
  | 0, _, _, _ => .timeout
  | n + 1, st, iss, result =>
    let op := iss.extract.1
    let iss1 := iss.extract.2
    if iss1.toBool then
      if op = "+".toList then
        (evaluateTerm A n st iss1).bind fun t st1 =>
          evaluateExpressionLoop A n st1 t.2 (A.add result t.1)
      else if op = "-".toList then
        (evaluateTerm A n st iss1).bind fun t st1 =>
          evaluateExpressionLoop A n st1 t.2 (A.sub result t.1)
      else if op = "*".toList then
        (evaluateTerm A n st iss1).bind fun t st1 =>
          evaluateExpressionLoop A n st1 t.2 (A.mul result t.1)
      else if op = "/".toList then
        (evaluateTerm A n st iss1).bind fun divisor st1 =>
          if A.isZero divisor.1 then .err "Division by zero".toList st1
          else evaluateExpressionLoop A n st1 divisor.2 (A.div result divisor.1)
      else
        match op.getLast? with
        | some c => .ok (result, iss1.putback c) st
        | none => .undef st
    else .ok (result, iss1) st

/-- The member `Interpreter::evaluateTerm` (lines 218-236), up to the loop of
line 221. -/
def evaluateTerm (A : Arith D) : Nat → State D → IStream → Res (State D) (D × IStream)
  | 0, _, _ => .timeout
  | n + 1, st, iss =>
    (evaluateFactor A n st iss).bind fun r st1 => evaluateTermLoop A n st1 r.2 r.1

/-- The loop `while (iss >> op) { ... }` of `evaluateTerm` (lines 221-234),
entered with the value of `result`. -/
def evaluateTermLoop (A : Arith D) :
    Nat → State D → IStream → D → Res (State D) (D × IStream)
  | 0, _, _, _ => .timeout
  | n + 1, st, iss, result =>
    let op := iss.extract.1
    let iss1 := iss.extract.2
    if iss1.toBool then
      if op = "*".toList then
        (evaluateFactor A n st iss1).bind fun f st1 =>
          evaluateTermLoop A n st1 f.2 (A.mul result f.1)
      else if op = "/".toList then
        (evaluateFactor A n st iss1).bind fun divisor st1 =>
          if A.isZero divisor.1 then .err "Division by zero".toList st1
          else evaluateTermLoop A n st1 divisor.2 (A.div result divisor.1)
      else
        match op.getLast? with
        | some c => .ok (result, iss1.putback c) st
        | none => .undef st
    else .ok (result, iss1) st

/-- The member `Interpreter::evaluateFactor` (lines 238-291).  The structured
binding of line 256 refers to the record stored under `token`; no statement
changes a record once it is in the table while a call of it is running, so
the record is read once. -/
def evaluateFactor (A : Arith D) : Nat → State D → IStream → Res (State D) (D × IStream)
  | 0, _, _ => .timeout
  | n + 1, st, iss =>
    let token := iss.extract.1
    let iss1 := iss.extract.2
    if isNumberToken token then
      match A.stod token with
      | some v => .ok (v, iss1) st
      | none => .err "stod".toList st
    else if token = "(".toList then
      (evaluateExpression A n st iss1).bind fun r st1 =>
        let closingParenthesis := r.2.extract.1
        if closingParenthesis ≠ ")".toList then .err "Expected ')'".toList st1
        else .ok (r.1, r.2.extract.2) st1
    else
      match findKey st.variables_ token with
      | some v => .ok (v, iss1) st
      | none =>
        match findKey st.functions_ token with
        | some fn =>
          let paramList := fn.1
          let funcBody := fn.2
          let prevVariables := st.variables_
          let args := iss1.extract.1
          let iss2 := iss1.extract.2
          if args ≠ "(".toList then
            .err "Expected '(' after function name".toList st
          else
            (bindArguments A n st iss2 paramList).bind fun iss3 st1 =>
              if st1.currentFunction_ ≠ token then
                (evaluateBlock A n
                  { st1 with currentFunction_ := token,
                             currentFunctionReturnValue_ := A.zero } funcBody).bind
                  fun _ st2 =>
                    .ok (st2.currentFunctionReturnValue_, iss3)
                      { st2 with variables_ := prevVariables, currentFunction_ := [] }
              else
                (evaluateBlock A n st1 funcBody).bind fun _ st2 =>
                  .ok (A.zero, iss3)
                    { st2 with variables_ := prevVariables, currentFunction_ := [] }
        | none => .err ("Invalid expression: ".toList ++ token) st

/-- The loop `for (const std::string& param : paramList) { ... }` of
`evaluateFactor` (lines 266-272). -/
def bindArguments (A : Arith D) :
    Nat → State D → IStream → List Str → Res (State D) IStream
  | 0, _, _, _ => .timeout
  | _ + 1, st, iss, [] => .ok iss st
  | n + 1, st, iss, param :: params =>
    (evaluateExpression A n st iss).bind fun argValue st1 =>
      let c := argValue.2.peek.1
      let iss1 := argValue.2.peek.2
      bindArguments A n { st1 with variables_ := setKey st1.variables_ param argValue.1 }
        (if c = some ',' then iss1.ignore else iss1) params

end

/-! ## Observations of an outcome -/

/-- The message of the exception thrown, if one was. -/
def Res.error? {σ α : Type} : Res σ α → Option Str
  | .err msg _ => some msg
  | _ => none

/-- The interpreter state in which the member function stopped. -/
def Res.state? {σ α : Type} : Res σ α → Option σ
  | .ok _ st => some st
  | .err _ st => some st
  | .undef st => some st
  | .timeout => none

/-- The value returned, if the member function returned. -/
def Res.value? {σ α : Type} : Res σ α → Option α
  | .ok a _ => some a
  | _ => none

/-- The first whitespace-delimited token of a line, empty when the line has
none. -/
def firstWord (line : Str) : Str :=
  (line.dropWhile isspace).takeWhile (fun c => !isspace c)

/-- The text between the first character and the last one read, followed by
the text not yet read: what the stream was opened on. -/
def IStream.content (s : IStream) : Str := s.back.reverse ++ s.rest

/-! ## Exact arithmetic, to run the code on concrete lines -/

/-- The number written by a string of decimal digits. -/
def natOfDigits (ds : List Char) : Nat :=
  ds.foldl (fun acc c => 10 * acc + (c.toNat - '0'.toNat)) 0

/-- The value `std::stod` gives a token made of an optional `-`, decimal
digits and, optionally, `.` and more decimal digits (the longest such prefix
of the token is converted).  Exponents and hexadecimal literals are not
read by this instance. -/
def stodExact (token : Str) : Option ℚ :=
  let neg := token.head? == some '-'
  let t := if neg then token.tail else token
  let ip := t.takeWhile isdigit
  let r := t.dropWhile isdigit
  let fp := if r.head? == some '.' then r.tail.takeWhile isdigit else []
  let v : ℚ := (natOfDigits (ip ++ fp) : ℚ) / (10 ^ fp.length : ℕ)
  some (if neg then -v else v)

/-- The rationals as `double`: exact on the small integers of the examples.
`pi` and `e` are the binary64 values nearest to the constants of lines 12
and 13. -/
def exactArith : Arith ℚ :=
  { zero := 0
    pi := 884279719003555 / 281474976710656
    e := 6121026514868073 / 2251799813685248
    add := fun a b => a + b
    sub := fun a b => a - b
    mul := fun a b => a * b
    div := fun a b => a / b
    isZero := fun a => a == 0
    stod := stodExact }

/-! ## The grammar of section 4.2, restricted to numbers and parentheses

`expression := term (('+' | '-') term)*`, `term := factor (('*' | '/')
factor)*`, `factor := number | '(' expression ')'`; the repetitions are
written left-recursively, which is the left-associative reading. -/

mutual

/-- A factor: a number literal or a parenthesised expression. -/
inductive Factor where
  | num (lit : Str)
  | paren (e : Expr)

/-- A term: factors joined by `*` and `/`, grouped to the left. -/
inductive Term where
  | factor (f : Factor)
  | mul (t : Term) (f : Factor)
  | div (t : Term) (f : Factor)

/-- An expression: terms joined by `+` and `-`, grouped to the left. -/
inductive Expr where
  | term (t : Term)
  | add (e : Expr) (t : Term)
  | sub (e : Expr) (t : Term)

end

/-- A non-negative number literal: a token (no white space in it) that begins
with a digit. -/
def isLiteral (lit : Str) : Bool :=
  isdigit (charAt lit 0) && lit.all (fun c => !isspace c)

mutual

/-- Every number of the factor is a non-negative number literal. -/
def Factor.wf : Factor → Bool
  | .num lit => isLiteral lit
  | .paren e => e.wf

/-- Every number of the term is a non-negative number literal. -/
def Term.wf : Term → Bool
  | .factor f => f.wf
  | .mul t f => t.wf && f.wf
  | .div t f => t.wf && f.wf

/-- Every number of the expression is a non-negative number literal. -/
def Expr.wf : Expr → Bool
  | .term t => t.wf
  | .add e t => e.wf && t.wf
  | .sub e t => e.wf && t.wf

end

mutual

/-- The factor written as tokens with `sep` between two tokens. -/
def Factor.text (sep : Str) : Factor → Str
  | .num lit => lit
  | .paren e => '(' :: (sep ++ (e.text sep ++ (sep ++ [')'])))

/-- The term written as tokens with `sep` between two tokens. -/
def Term.text (sep : Str) : Term → Str
  | .factor f => f.text sep
  | .mul t f => t.text sep ++ (sep ++ ('*' :: (sep ++ f.text sep)))
  | .div t f => t.text sep ++ (sep ++ ('/' :: (sep ++ f.text sep)))

/-- The expression written as tokens with `sep` between two tokens. -/
def Expr.text (sep : Str) : Expr → Str
  | .term t => t.text sep
  | .add e t => e.text sep ++ (sep ++ ('+' :: (sep ++ t.text sep)))
  | .sub e t => e.text sep ++ (sep ++ ('-' :: (sep ++ t.text sep)))

end

mutual

/-- The reference value of a factor; `none` when a literal is rejected by
`std::stod` or a divisor is zero. -/
def Factor.value {D : Type} (A : Arith D) : Factor → Option D
  | .num lit => A.stod lit
  | .paren e => e.value A

/-- The reference value of a term: `*` and `/` from left to right. -/
def Term.value {D : Type} (A : Arith D) : Term → Option D
  | .factor f => f.value A
  | .mul t f =>
    match t.value A, f.value A with
    | some a, some b => some (A.mul a b)
    | _, _ => none
  | .div t f =>
    match t.value A, f.value A with
    | some a, some b => if A.isZero b then none else some (A.div a b)
    | _, _ => none

/-- The reference value of an expression: `+` and `-` from left to right, on
terms, so that `*` and `/` bind tighter. -/
def Expr.value {D : Type} (A : Arith D) : Expr → Option D
  | .term t => t.value A
  | .add e t =>
    match e.value A, t.value A with
    | some a, some b => some (A.add a b)
    | _, _ => none
  | .sub e t =>
    match e.value A, t.value A with
    | some a, some b => some (A.sub a b)
    | _, _ => none

end

/-! ## The driver -/

/-- One round of the loop of `run` (lines 20-34) on a line other than `quit`:
the statement is evaluated and an exception is caught, so the state is the
one in which the statement stopped. -/
def runLine (A : Arith D) (fuel : Nat) (st : State D) (line : Str) : State D :=
  match evaluateStatement A fuel st line with
  | .ok _ st1 => st1
  | .err _ st1 => st1
  | .undef st1 => st1
  | .timeout => st

/-- The loop of `run` on the lines given, up to the line `quit`. -/
def run (A : Arith D) (fuel : Nat) : State D → List Str → State D
  | st, [] => st
  | st, line :: lines =>
    if line = "quit".toList then st else run A fuel (runLine A fuel st line) lines

/-! ## States of the examples -/

/-- The state after `var x = 5` in the initial state, as the code leaves it. -/
def stateAfterVarX : State ℚ :=
  { initialState exactArith with
    variables_ := [("e".toList, exactArith.e), ("pi".toList, exactArith.pi), ("x".toList, 0)] }

/-- The state after the initializer `var i = 0` of the loop header. -/
def stateAfterVarI : State ℚ :=
  { initialState exactArith with
    variables_ := [("e".toList, exactArith.e), ("pi".toList, exactArith.pi), ("i".toList, 0)] }

/-! ## Shapes of text -/

/-- White space only. -/
def allSpace (ws : Str) : Prop := ∀ c ∈ ws, isspace c = true

/-- No white space. -/
def noSpace (tok : Str) : Prop := ∀ c ∈ tok, isspace c = false

/-- Empty, or beginning with white space: what may follow a token. -/
def tokenEnd (tail : Str) : Prop := ∀ c ∈ tail.head?, isspace c = true

/-- An outcome is below another when it is the end of the fuel or the same
outcome. -/
def Res.le {σ α : Type} (r r1 : Res σ α) : Prop := r = .timeout ∨ r = r1

/-- All member functions at fuel `n` are below themselves at fuel `n + 1`. -/
def MonoAt (A : Arith D) (n : Nat) : Prop :=
  (∀ st s, (evaluateStatement A n st s).le (evaluateStatement A (n + 1) st s)) ∧
  (∀ st s, (handleVariableDeclaration A n st s).le (handleVariableDeclaration A (n + 1) st s)) ∧
  (∀ st s v, (handleVariableAssignment A n st s v).le
    (handleVariableAssignment A (n + 1) st s v)) ∧
  (∀ st s, (handleConditionalStatement A n st s).le
    (handleConditionalStatement A (n + 1) st s)) ∧
  (∀ st s, (handleForLoop A n st s).le (handleForLoop A (n + 1) st s)) ∧
  (∀ st s c, (forLoopWhile A n st s c).le (forLoopWhile A (n + 1) st s c)) ∧
  (∀ st s, (handleFunctionDefinition A n st s).le (handleFunctionDefinition A (n + 1) st s)) ∧
  (∀ st s, (handleFunctionReturn A n st s).le (handleFunctionReturn A (n + 1) st s)) ∧
  (∀ st s, (evaluateBlock A n st s).le (evaluateBlock A (n + 1) st s)) ∧
  (∀ st s, (evaluateBlockLoop A n st s).le (evaluateBlockLoop A (n + 1) st s)) ∧
  (∀ st s, (evaluateExpression A n st s).le (evaluateExpression A (n + 1) st s)) ∧
  (∀ st s r, (evaluateExpressionLoop A n st s r).le (evaluateExpressionLoop A (n + 1) st s r)) ∧
  (∀ st s, (evaluateTerm A n st s).le (evaluateTerm A (n + 1) st s)) ∧
  (∀ st s r, (evaluateTermLoop A n st s r).le (evaluateTermLoop A (n + 1) st s r)) ∧
  (∀ st s, (evaluateFactor A n st s).le (evaluateFactor A (n + 1) st s)) ∧
  (∀ st s ps, (bindArguments A n st s ps).le (bindArguments A (n + 1) st s ps))

/-- No name of the function table occurs in the text. -/
def noCallIn (fns : List (Str × (List Str × Str))) (text : Str) : Prop :=
  ∀ p ∈ fns, ¬ p.1 <:+: text

/-- The state after the line `var return` in the initial state. -/
def stateReturnDeclared : State ℚ :=
  run exactArith 10 (initialState exactArith) ["var return".toList]

/-- The state after five lines that leave the pending return value `7.0`
with no function active and a function `h` with an empty body defined: `f`
is defined, a call of it throws and leaves it active, `return 7` is accepted,
a second call of `f` returns and clears the active function, `h` is
defined. -/
def statePendingSeven : State ℚ :=
  run exactArith 30 (initialState exactArith)
    ["func f pi \x7b e = 1 / pi".toList, "e = f ( 0 )".toList, "return 7".toList,
     "e = f ( 1 )".toList, "func h \x7b".toList]

/-- The initial state with a function `f` active. -/
def stateActiveF : State ℚ :=
  { initialState exactArith with currentFunction_ := "f".toList }

/-! ## Reading the text of an expression -/

/-- The stream can be read and the text still to read is `r`. -/
def AtRest (s : IStream) (r : Str) : Prop :=
  s.fail = false ∧ s.bad = false ∧ s.rest = r ∧ (s.eof = true → r = [])

/-- Where a loop over operators leaves the stream when `tail` follows what
it has read: failed when `tail` holds no token, and otherwise in front of
the first token of `tail`. -/
def Stopped (s : IStream) (tail : Str) : Prop :=
  (tail.dropWhile isspace = [] → s.toBool = false) ∧
  (tail.dropWhile isspace ≠ [] → AtRest s (tail.dropWhile isspace))

/-- The first token of `tail`, if there is one, is a single character that is
none of `ops`. -/
def follows (ops : List Char) (tail : Str) : Prop :=
  ∀ c r, tail.dropWhile isspace = c :: r → c ∉ ops ∧ tokenEnd r

/-- What `evaluateFactor` does on the text of a factor: with enough fuel it
returns the reference value in an unchanged state and has read the text. -/
def FactorOK (A : Arith D) (sep : Str) (f : Factor) : Prop :=
  ∀ v, f.value A = some v → ∃ N, ∀ n, N ≤ n → ∀ (st : State D) (s : IStream) (r tail : Str),
    AtRest s r → r.dropWhile isspace = f.text sep ++ tail → tokenEnd tail →
    ∃ s1, evaluateFactor A n st s = .ok (v, s1) st ∧ AtRest s1 tail

/-- What `evaluateTerm` does on the text of a term: with enough fuel it
reaches its loop with the reference value, having read the text. -/
def TermOK (A : Arith D) (sep : Str) (t : Term) : Prop :=
  ∀ v, t.value A = some v → ∃ N k, ∀ n, N ≤ n →
    ∀ (st : State D) (s : IStream) (r tail : Str),
    AtRest s r → r.dropWhile isspace = t.text sep ++ tail → tokenEnd tail →
    ∃ s1, AtRest s1 tail ∧ evaluateTerm A (n + k) st s = evaluateTermLoop A n st s1 v

/-- What `evaluateExpression` does on the text of an expression: with enough
fuel it reaches its loop with the reference value, having read the text. -/
def ExprOK (A : Arith D) (sep : Str) (e : Expr) : Prop :=
  ∀ v, e.value A = some v → ∃ N k, ∀ n, N ≤ n →
    ∀ (st : State D) (s : IStream) (r tail : Str),
    AtRest s r → r.dropWhile isspace = e.text sep ++ tail → tokenEnd tail →
    follows ['*', '/'] tail →
    ∃ s1, Stopped s1 tail ∧
      evaluateExpression A (n + k) st s = evaluateExpressionLoop A n st s1 v

/-- The expression `2 + 3 * 4`. -/
def exampleSum : Expr :=
  .add (.term (.factor (.num "2".toList))) (.mul (.factor (.num "3".toList)) (.num "4".toList))

/-- The expression `10 - 2 - 3`. -/
def exampleDifference : Expr :=
  .sub (.sub (.term (.factor (.num "10".toList))) (.factor (.num "2".toList)))
    (.factor (.num "3".toList))

/-- The expression `( 2 + 3 ) * 4`. -/
def exampleProduct : Expr :=
  .term (.mul (.factor (.paren
    (.add (.term (.factor (.num "2".toList))) (.factor (.num "3".toList)))))
    (.num "4".toList))

/-- The initial state with `add` in the function table, as the line
`func add a b { return a + b` is meant to store it. -/
def stateWithAdd : State ℚ :=
  { initialState exactArith with
    functions_ := [("add".toList, (["a".toList, "b".toList], " return a + b".toList))] }

/-- The state of the examples with `add` defined and a variable `a`. -/
def stateWithAddAndA : State ℚ :=
  { stateWithAdd with
    variables_ := [("a".toList, 9), ("e".toList, exactArith.e), ("pi".toList, exactArith.pi)] }

/-- The state after five lines that leave `g` defined as a function and
declared as a variable: `h` is defined, a call of it throws and leaves it
active, `g` with the body ` return 7` is then accepted, and `g` is declared
and assigned `3.0`. -/
def stateVariableG : State ℚ :=
  run exactArith 40 (initialState exactArith)
    ["func h \x7b var z".toList, "e = h (".toList, "func g \x7b return 7".toList,
     "var g".toList, "g = 3".toList]

/-- The state after two more lines: `f` with the body ` return g ( )` is
accepted, and the call of `f` in `e = f ( )` returns and leaves no function
active. -/
def stateShadowedG : State ℚ :=
  run exactArith 40 stateVariableG
    ["func f \x7b return g ( )".toList, "e = f ( )".toList]

/-- The state in which the body ` func f { var q` stops in the initial state:
the inner definition has stored `f`. -/
def stateInnerF : State ℚ :=
  { initialState exactArith with
    variables_ := [("e".toList, exactArith.e), ("pi".toList, exactArith.pi), ("q".toList, 0)]
    functions_ := [("f".toList, ([], " var q".toList))] }

/-- The state after the line `func f { func f { var q` in the initial state:
the outer definition has stored `f` again. -/
def stateOuterF : State ℚ :=
  { stateInnerF with functions_ := [("f".toList, ([], " func f \x7b var q".toList))] }

/-- The value `std::stod` gives a token in an arithmetic whose `stod` throws
`std::out_of_range` on a magnitude of `2 ^ 1024` or more, where binary64
overflows. -/
def stodRanged (token : Str) : Option ℚ :=
  (stodExact token).bind fun v =>
    if v.num.natAbs < 2 ^ 1024 * v.den then some v else none

/-- Exact arithmetic with the overflow of `std::stod`. -/
def rangedArith : Arith ℚ := { exactArith with stod := stodRanged }

/-- The literal `1` followed by 400 zeros. -/
def hugeLiteral : Str := '1' :: List.replicate 400 '0'

/-- The state after four lines that leave `f` defined and active: `g` is
defined, a call of it throws and leaves it active, `f` with the body
` return 1 / pi` is then accepted, and the call `f ( 0 )` throws "Division by
zero" and leaves `f` active, `pi` bound to `0.0` and the pending return value
`0.0`. -/
def stateRecursion : State ℚ :=
  run exactArith 40 (initialState exactArith)
    ["func g \x7b var z".toList, "e = g (".toList, "func f pi \x7b return 1 / pi".toList,
     "e = f ( 0 )".toList]

/-- The state `stateRecursion` once the argument of `f ( 1 )` is bound. -/
def stateRecursionBound : State ℚ :=
  { stateRecursion with variables_ := setKey stateRecursion.variables_ "pi".toList 1 }

/-- Every state in which the outcome stopped is `st`. -/
def Res.stopsIn {σ α : Type} (r : Res σ α) (st : σ) : Prop :=
  ∀ st1, r.state? = some st1 → st1 = st

/-- The state after `func g {` and `func f pi { e = g ( / pi` in the initial
state: no function is active, `g` has an empty body and the body of `f` calls
`g` and then divides by the parameter. -/
def stateTwoFunctions : State ℚ :=
  run exactArith 40 (initialState exactArith)
    ["func g \x7b".toList, "func f pi \x7b e = g ( / pi".toList]

/-- The state after the line `func f { var z` in the initial state. -/
def stateWithVarZ : State ℚ :=
  run exactArith 40 (initialState exactArith) ["func f \x7b var z".toList]

/-- The name `funcName` that `handleFunctionDefinition` reads from a line
whose first token has been read by `evaluateStatement`. -/
def definitionName (line : Str) : Str := (IStream.ofStr line).extract.2.extract.1

/-- The text `funcBody` that `handleFunctionDefinition` reads from such a
line: what follows the first opening brace after the name. -/
def definitionBody (line : Str) : Str :=
  (((IStream.ofStr line).extract.2.extract.2.getline '\x7b').2.getline '\n').1

/-- The state after the line `func h {` in the initial state. -/
def stateWithH : State ℚ :=
  run exactArith 40 (initialState exactArith) ["func h \x7b".toList]

/-! ## Properties of the stream operations -/



theorem takeWhile_space_append {ws r : Str} (hws : allSpace ws)
    (hr : ∀ c ∈ r.head?, isspace c = false) :
    (ws ++ r).takeWhile isspace = ws ∧ (ws ++ r).dropWhile isspace = r := by
  induction ws with
  | nil =>
    cases r with
    | nil => simp
    | cons c r => 
      have : isspace c = false := hr c (by simp)
      simp [List.takeWhile, List.dropWhile, this]
  | cons a ws ih =>
    have ha : isspace a = true := hws a (by simp)
    have := ih (fun c hc => hws c (by simp [hc]))
    simp [List.takeWhile, List.dropWhile, ha, this]

theorem takeWhile_token_append {tok tail : Str} (htok : noSpace tok) (htail : tokenEnd tail) :
    (tok ++ tail).takeWhile (fun c => !isspace c) = tok ∧
    (tok ++ tail).dropWhile (fun c => !isspace c) = tail := by
  induction tok with
  | nil =>
    cases tail with
    | nil => simp
    | cons c r => 
      have : isspace c = true := htail c (by simp)
      simp [List.takeWhile, List.dropWhile, this]
  | cons a ws ih =>
    have ha : isspace a = false := htok a (by simp)
    have := ih (fun c hc => htok c (by simp [hc]))
    simp [List.takeWhile, List.dropWhile, ha, this]

theorem extract_token (s : IStream) (ws tok tail : Str) (hg : s.good = true)
    (hr : s.rest = ws ++ (tok ++ tail)) (hws : allSpace ws) (hne : tok ≠ [])
    (htok : noSpace tok) (htail : tokenEnd tail) :
    s.extract = (tok, { back := tok.reverse ++ (ws.reverse ++ s.back), rest := tail,
                        eof := tail.isEmpty, fail := false, bad := false }) := by
  obtain ⟨a, tok', rfl⟩ := List.exists_cons_of_ne_nil hne
  have ha : isspace a = false := htok a (by simp)
  have h1 := takeWhile_space_append (r := (a :: tok') ++ tail) hws (by simp [ha])
  have h2 := takeWhile_token_append htok htail
  simp only [IStream.good, Bool.and_eq_true, Bool.not_eq_true'] at hg
  obtain ⟨⟨he, hf⟩, hb⟩ := hg
  simp only [List.cons_append] at h1 h2 hr
  simp only [IStream.extract, IStream.sentry, IStream.good, he, hf, hb, hr, h1.1, h1.2]
  simp [h2.1, h2.2, ha]

theorem extract_ofStr_fst (line : Str) : (IStream.ofStr line).extract.1 = firstWord line := by
  unfold IStream.extract IStream.sentry firstWord
  simp only [IStream.ofStr, IStream.good]
  by_cases h : (List.dropWhile isspace line).isEmpty = true
  · simp [h]
    simp at h
    rw [List.dropWhile_eq_nil_iff.2 h]; simp
  · simp [h]

/-! ## More fuel does not change an outcome -/

set_option linter.unusedTactic false
set_option linter.unreachableTactic false

theorem Res.le_refl {σ α : Type} (r : Res σ α) : r.le r := Or.inr rfl

theorem Res.timeout_le {σ α : Type} (r : Res σ α) : Res.le .timeout r := Or.inl rfl

theorem Res.bind_le {σ α β : Type} {r r1 : Res σ α} {k k1 : α → σ → Res σ β}
    (h : r.le r1) (hk : ∀ a st, (k a st).le (k1 a st)) : (r.bind k).le (r1.bind k1) := by
  rcases h with h | h
  · subst h; exact Or.inl rfl
  · subst h
    cases r with
    | ok a st => exact hk a st
    | err msg st => exact Or.inr rfl
    | undef st => exact Or.inr rfl
    | timeout => exact Or.inl rfl

theorem Res.ite_le {σ α : Type} {c : Prop} [Decidable c] {a b a1 b1 : Res σ α}
    (ha : a.le a1) (hb : b.le b1) : (if c then a else b).le (if c then a1 else b1) := by
  split
  · exact ha
  · exact hb

theorem readUntilEnd_le {σ : Type} (n : Nat) (st : σ) (iss : IStream) (acc : Str) :
    (readUntilEnd n st iss acc).le (readUntilEnd (n + 1) st iss acc) := by
  induction n generalizing iss acc with
  | zero => exact Res.timeout_le _
  | succ n ih =>
    rw [readUntilEnd, readUntilEnd.eq_def (n + 1 + 1)]
    simp only
    exact Res.ite_le (Res.le_refl _) (ih _ _)

theorem monoAt_zero (A : Arith D) : MonoAt A 0 := by
  refine ⟨?_, ?_, ?_, ?_, ?_, ?_, ?_, ?_, ?_, ?_, ?_, ?_, ?_, ?_, ?_, ?_⟩ <;> intros <;>
    exact Or.inl (by first | rw [evaluateStatement] | rw [handleVariableDeclaration] | rw [handleVariableAssignment] | rw [handleConditionalStatement] | rw [handleForLoop] | rw [forLoopWhile] | rw [handleFunctionDefinition] | rw [handleFunctionReturn] | rw [evaluateBlock] | rw [evaluateBlockLoop] | rw [evaluateExpression] | rw [evaluateExpressionLoop] | rw [evaluateTerm] | rw [evaluateTermLoop] | rw [evaluateFactor] | rw [bindArguments])

theorem monoAt_succ (A : Arith D) (n : Nat) (ih : MonoAt A n) : MonoAt A (n + 1) := by
  obtain ⟨hS, hVD, hVA, hC, hF, hFW, hFD, hFR, hB, hBL, hE, hEL, hT, hTL, hFa, hBA⟩ := ih
  refine ⟨?_, ?_, ?_, ?_, ?_, ?_, ?_, ?_, ?_, ?_, ?_, ?_, ?_, ?_, ?_, ?_⟩
  · intro st s
    rw [evaluateStatement, evaluateStatement.eq_def A (n + 1 + 1)]
    simp only
    repeat' first
      | with_reducible exact Res.le_refl _
      | with_reducible exact hS _ _ | with_reducible exact hVD _ _
      | with_reducible exact hVA _ _ _ | with_reducible exact hC _ _
      | with_reducible exact hF _ _ | with_reducible exact hFW _ _ _
      | with_reducible exact hFD _ _ | with_reducible exact hFR _ _
      | with_reducible exact hB _ _ | with_reducible exact hBL _ _
      | with_reducible exact hE _ _ | with_reducible exact hEL _ _ _
      | with_reducible exact hT _ _ | with_reducible exact hTL _ _ _
      | with_reducible exact hFa _ _ | with_reducible exact hBA _ _ _
      | with_reducible exact readUntilEnd_le _ _ _ _
      | with_reducible apply Res.ite_le
      | with_reducible apply Res.bind_le
      | intro _ _
      | split
  · intro st s
    rw [handleVariableDeclaration, handleVariableDeclaration.eq_def A (n + 1 + 1)]
    simp only
    repeat' first
      | with_reducible exact Res.le_refl _
      | with_reducible exact hS _ _ | with_reducible exact hVD _ _
      | with_reducible exact hVA _ _ _ | with_reducible exact hC _ _
      | with_reducible exact hF _ _ | with_reducible exact hFW _ _ _
      | with_reducible exact hFD _ _ | with_reducible exact hFR _ _
      | with_reducible exact hB _ _ | with_reducible exact hBL _ _
      | with_reducible exact hE _ _ | with_reducible exact hEL _ _ _
      | with_reducible exact hT _ _ | with_reducible exact hTL _ _ _
      | with_reducible exact hFa _ _ | with_reducible exact hBA _ _ _
      | with_reducible exact readUntilEnd_le _ _ _ _
      | with_reducible apply Res.ite_le
      | with_reducible apply Res.bind_le
      | intro _ _
      | split
  · intro st s v
    rw [handleVariableAssignment, handleVariableAssignment.eq_def A (n + 1 + 1)]
    simp only
    repeat' first
      | with_reducible exact Res.le_refl _
      | with_reducible exact hS _ _ | with_reducible exact hVD _ _
      | with_reducible exact hVA _ _ _ | with_reducible exact hC _ _
      | with_reducible exact hF _ _ | with_reducible exact hFW _ _ _
      | with_reducible exact hFD _ _ | with_reducible exact hFR _ _
      | with_reducible exact hB _ _ | with_reducible exact hBL _ _
      | with_reducible exact hE _ _ | with_reducible exact hEL _ _ _
      | with_reducible exact hT _ _ | with_reducible exact hTL _ _ _
      | with_reducible exact hFa _ _ | with_reducible exact hBA _ _ _
      | with_reducible exact readUntilEnd_le _ _ _ _
      | with_reducible apply Res.ite_le
      | with_reducible apply Res.bind_le
      | intro _ _
      | split
  · intro st s
    rw [handleConditionalStatement, handleConditionalStatement.eq_def A (n + 1 + 1)]
    simp only
    repeat' first
      | with_reducible exact Res.le_refl _
      | with_reducible exact hS _ _ | with_reducible exact hVD _ _
      | with_reducible exact hVA _ _ _ | with_reducible exact hC _ _
      | with_reducible exact hF _ _ | with_reducible exact hFW _ _ _
      | with_reducible exact hFD _ _ | with_reducible exact hFR _ _
      | with_reducible exact hB _ _ | with_reducible exact hBL _ _
      | with_reducible exact hE _ _ | with_reducible exact hEL _ _ _
      | with_reducible exact hT _ _ | with_reducible exact hTL _ _ _
      | with_reducible exact hFa _ _ | with_reducible exact hBA _ _ _
      | with_reducible exact readUntilEnd_le _ _ _ _
      | with_reducible apply Res.ite_le
      | with_reducible apply Res.bind_le
      | intro _ _
      | split
  · intro st s
    rw [handleForLoop, handleForLoop.eq_def A (n + 1 + 1)]
    simp only
    repeat' first
      | with_reducible exact Res.le_refl _
      | with_reducible exact hS _ _ | with_reducible exact hVD _ _
      | with_reducible exact hVA _ _ _ | with_reducible exact hC _ _
      | with_reducible exact hF _ _ | with_reducible exact hFW _ _ _
      | with_reducible exact hFD _ _ | with_reducible exact hFR _ _
      | with_reducible exact hB _ _ | with_reducible exact hBL _ _
      | with_reducible exact hE _ _ | with_reducible exact hEL _ _ _
      | with_reducible exact hT _ _ | with_reducible exact hTL _ _ _
      | with_reducible exact hFa _ _ | with_reducible exact hBA _ _ _
      | with_reducible exact readUntilEnd_le _ _ _ _
      | with_reducible apply Res.ite_le
      | with_reducible apply Res.bind_le
      | intro _ _
      | split
  · intro st s c
    rw [forLoopWhile, forLoopWhile.eq_def A (n + 1 + 1)]
    simp only
    repeat' first
      | with_reducible exact Res.le_refl _
      | with_reducible exact hS _ _ | with_reducible exact hVD _ _
      | with_reducible exact hVA _ _ _ | with_reducible exact hC _ _
      | with_reducible exact hF _ _ | with_reducible exact hFW _ _ _
      | with_reducible exact hFD _ _ | with_reducible exact hFR _ _
      | with_reducible exact hB _ _ | with_reducible exact hBL _ _
      | with_reducible exact hE _ _ | with_reducible exact hEL _ _ _
      | with_reducible exact hT _ _ | with_reducible exact hTL _ _ _
      | with_reducible exact hFa _ _ | with_reducible exact hBA _ _ _
      | with_reducible exact readUntilEnd_le _ _ _ _
      | with_reducible apply Res.ite_le
      | with_reducible apply Res.bind_le
      | intro _ _
      | split
  · intro st s
    rw [handleFunctionDefinition, handleFunctionDefinition.eq_def A (n + 1 + 1)]
    simp only
    repeat' first
      | with_reducible exact Res.le_refl _
      | with_reducible exact hS _ _ | with_reducible exact hVD _ _
      | with_reducible exact hVA _ _ _ | with_reducible exact hC _ _
      | with_reducible exact hF _ _ | with_reducible exact hFW _ _ _
      | with_reducible exact hFD _ _ | with_reducible exact hFR _ _
      | with_reducible exact hB _ _ | with_reducible exact hBL _ _
      | with_reducible exact hE _ _ | with_reducible exact hEL _ _ _
      | with_reducible exact hT _ _ | with_reducible exact hTL _ _ _
      | with_reducible exact hFa _ _ | with_reducible exact hBA _ _ _
      | with_reducible exact readUntilEnd_le _ _ _ _
      | with_reducible apply Res.ite_le
      | with_reducible apply Res.bind_le
      | intro _ _
      | split
  · intro st s
    rw [handleFunctionReturn, handleFunctionReturn.eq_def A (n + 1 + 1)]
    simp only
    repeat' first
      | with_reducible exact Res.le_refl _
      | with_reducible exact hS _ _ | with_reducible exact hVD _ _
      | with_reducible exact hVA _ _ _ | with_reducible exact hC _ _
      | with_reducible exact hF _ _ | with_reducible exact hFW _ _ _
      | with_reducible exact hFD _ _ | with_reducible exact hFR _ _
      | with_reducible exact hB _ _ | with_reducible exact hBL _ _
      | with_reducible exact hE _ _ | with_reducible exact hEL _ _ _
      | with_reducible exact hT _ _ | with_reducible exact hTL _ _ _
      | with_reducible exact hFa _ _ | with_reducible exact hBA _ _ _
      | with_reducible exact readUntilEnd_le _ _ _ _
      | with_reducible apply Res.ite_le
      | with_reducible apply Res.bind_le
      | intro _ _
      | split
  · intro st s
    rw [evaluateBlock, evaluateBlock.eq_def A (n + 1 + 1)]
    simp only
    repeat' first
      | with_reducible exact Res.le_refl _
      | with_reducible exact hS _ _ | with_reducible exact hVD _ _
      | with_reducible exact hVA _ _ _ | with_reducible exact hC _ _
      | with_reducible exact hF _ _ | with_reducible exact hFW _ _ _
      | with_reducible exact hFD _ _ | with_reducible exact hFR _ _
      | with_reducible exact hB _ _ | with_reducible exact hBL _ _
      | with_reducible exact hE _ _ | with_reducible exact hEL _ _ _
      | with_reducible exact hT _ _ | with_reducible exact hTL _ _ _
      | with_reducible exact hFa _ _ | with_reducible exact hBA _ _ _
      | with_reducible exact readUntilEnd_le _ _ _ _
      | with_reducible apply Res.ite_le
      | with_reducible apply Res.bind_le
      | intro _ _
      | split
  · intro st s
    rw [evaluateBlockLoop, evaluateBlockLoop.eq_def A (n + 1 + 1)]
    simp only
    repeat' first
      | with_reducible exact Res.le_refl _
      | with_reducible exact hS _ _ | with_reducible exact hVD _ _
      | with_reducible exact hVA _ _ _ | with_reducible exact hC _ _
      | with_reducible exact hF _ _ | with_reducible exact hFW _ _ _
      | with_reducible exact hFD _ _ | with_reducible exact hFR _ _
      | with_reducible exact hB _ _ | with_reducible exact hBL _ _
      | with_reducible exact hE _ _ | with_reducible exact hEL _ _ _
      | with_reducible exact hT _ _ | with_reducible exact hTL _ _ _
      | with_reducible exact hFa _ _ | with_reducible exact hBA _ _ _
      | with_reducible exact readUntilEnd_le _ _ _ _
      | with_reducible apply Res.ite_le
      | with_reducible apply Res.bind_le
      | intro _ _
      | split
  · intro st s
    rw [evaluateExpression, evaluateExpression.eq_def A (n + 1 + 1)]
    simp only
    repeat' first
      | with_reducible exact Res.le_refl _
      | with_reducible exact hS _ _ | with_reducible exact hVD _ _
      | with_reducible exact hVA _ _ _ | with_reducible exact hC _ _
      | with_reducible exact hF _ _ | with_reducible exact hFW _ _ _
      | with_reducible exact hFD _ _ | with_reducible exact hFR _ _
      | with_reducible exact hB _ _ | with_reducible exact hBL _ _
      | with_reducible exact hE _ _ | with_reducible exact hEL _ _ _
      | with_reducible exact hT _ _ | with_reducible exact hTL _ _ _
      | with_reducible exact hFa _ _ | with_reducible exact hBA _ _ _
      | with_reducible exact readUntilEnd_le _ _ _ _
      | with_reducible apply Res.ite_le
      | with_reducible apply Res.bind_le
      | intro _ _
      | split
  · intro st s r
    rw [evaluateExpressionLoop, evaluateExpressionLoop.eq_def A (n + 1 + 1)]
    simp only
    repeat' first
      | with_reducible exact Res.le_refl _
      | with_reducible exact hS _ _ | with_reducible exact hVD _ _
      | with_reducible exact hVA _ _ _ | with_reducible exact hC _ _
      | with_reducible exact hF _ _ | with_reducible exact hFW _ _ _
      | with_reducible exact hFD _ _ | with_reducible exact hFR _ _
      | with_reducible exact hB _ _ | with_reducible exact hBL _ _
      | with_reducible exact hE _ _ | with_reducible exact hEL _ _ _
      | with_reducible exact hT _ _ | with_reducible exact hTL _ _ _
      | with_reducible exact hFa _ _ | with_reducible exact hBA _ _ _
      | with_reducible exact readUntilEnd_le _ _ _ _
      | with_reducible apply Res.ite_le
      | with_reducible apply Res.bind_le
      | intro _ _
      | split
  · intro st s
    rw [evaluateTerm, evaluateTerm.eq_def A (n + 1 + 1)]
    simp only
    repeat' first
      | with_reducible exact Res.le_refl _
      | with_reducible exact hS _ _ | with_reducible exact hVD _ _
      | with_reducible exact hVA _ _ _ | with_reducible exact hC _ _
      | with_reducible exact hF _ _ | with_reducible exact hFW _ _ _
      | with_reducible exact hFD _ _ | with_reducible exact hFR _ _
      | with_reducible exact hB _ _ | with_reducible exact hBL _ _
      | with_reducible exact hE _ _ | with_reducible exact hEL _ _ _
      | with_reducible exact hT _ _ | with_reducible exact hTL _ _ _
      | with_reducible exact hFa _ _ | with_reducible exact hBA _ _ _
      | with_reducible exact readUntilEnd_le _ _ _ _
      | with_reducible apply Res.ite_le
      | with_reducible apply Res.bind_le
      | intro _ _
      | split
  · intro st s r
    rw [evaluateTermLoop, evaluateTermLoop.eq_def A (n + 1 + 1)]
    simp only
    repeat' first
      | with_reducible exact Res.le_refl _
      | with_reducible exact hS _ _ | with_reducible exact hVD _ _
      | with_reducible exact hVA _ _ _ | with_reducible exact hC _ _
      | with_reducible exact hF _ _ | with_reducible exact hFW _ _ _
      | with_reducible exact hFD _ _ | with_reducible exact hFR _ _
      | with_reducible exact hB _ _ | with_reducible exact hBL _ _
      | with_reducible exact hE _ _ | with_reducible exact hEL _ _ _
      | with_reducible exact hT _ _ | with_reducible exact hTL _ _ _
      | with_reducible exact hFa _ _ | with_reducible exact hBA _ _ _
      | with_reducible exact readUntilEnd_le _ _ _ _
      | with_reducible apply Res.ite_le
      | with_reducible apply Res.bind_le
      | intro _ _
      | split
  · intro st s
    rw [evaluateFactor, evaluateFactor.eq_def A (n + 1 + 1)]
    simp only
    repeat' first
      | with_reducible exact Res.le_refl _
      | with_reducible exact hS _ _ | with_reducible exact hVD _ _
      | with_reducible exact hVA _ _ _ | with_reducible exact hC _ _
      | with_reducible exact hF _ _ | with_reducible exact hFW _ _ _
      | with_reducible exact hFD _ _ | with_reducible exact hFR _ _
      | with_reducible exact hB _ _ | with_reducible exact hBL _ _
      | with_reducible exact hE _ _ | with_reducible exact hEL _ _ _
      | with_reducible exact hT _ _ | with_reducible exact hTL _ _ _
      | with_reducible exact hFa _ _ | with_reducible exact hBA _ _ _
      | with_reducible exact readUntilEnd_le _ _ _ _
      | with_reducible apply Res.ite_le
      | with_reducible apply Res.bind_le
      | intro _ _
      | split
  · intro st s ps
    cases ps with
    | nil => rw [bindArguments, bindArguments]; exact Res.le_refl _
    | cons p ps =>
      rw [bindArguments, bindArguments.eq_def A (n + 1 + 1)]
      simp only
      exact Res.bind_le (hE _ _) (fun _ _ => hBA _ _ _)

theorem monoAt (A : Arith D) (n : Nat) : MonoAt A n := by
  induction n with
  | zero => exact monoAt_zero A
  | succ n ih => exact monoAt_succ A n ih

theorem Res.le_chain {σ α : Type} (f : Nat → Res σ α) (h : ∀ n, (f n).le (f (n + 1)))
    {n m : Nat} (hnm : n ≤ m) (hne : f n ≠ .timeout) : f m = f n := by
  induction m with
  | zero =>
    have : n = 0 := by omega
    subst this; rfl
  | succ m ih =>
    by_cases hm : n = m + 1
    · subst hm; rfl
    · have e := ih (by omega)
      rcases h m with h1 | h1
      · rw [e] at h1; exact absurd h1 hne
      · rw [← h1, e]

theorem evaluateStatement_mono (A : Arith D) {n m : Nat} {st : State D} {s : Str}
    {r : Res (State D) Unit} (h : evaluateStatement A n st s = r) (hr : r ≠ .timeout)
    (hnm : n ≤ m) : evaluateStatement A m st s = r := by
  have := Res.le_chain (fun k => evaluateStatement A k st s)
    (fun k => (monoAt A k).1 st s) hnm (by simpa [h] using hr)
  simpa [h] using this

theorem handleVariableDeclaration_mono (A : Arith D) {n m : Nat} {st : State D} {s : IStream}
    {r : Res (State D) Unit} (h : handleVariableDeclaration A n st s = r) (hr : r ≠ .timeout)
    (hnm : n ≤ m) : handleVariableDeclaration A m st s = r := by
  have := Res.le_chain (fun k => handleVariableDeclaration A k st s)
    (fun k => (monoAt A k).2.1 st s) hnm (by simpa [h] using hr)
  simpa [h] using this

theorem handleFunctionReturn_mono (A : Arith D) {n m : Nat} {st : State D} {s : IStream}
    {r : Res (State D) Unit} (h : handleFunctionReturn A n st s = r) (hr : r ≠ .timeout)
    (hnm : n ≤ m) : handleFunctionReturn A m st s = r := by
  have := Res.le_chain (fun k => handleFunctionReturn A k st s)
    (fun k => (monoAt A k).2.2.2.2.2.2.2.1 st s) hnm (by simpa [h] using hr)
  simpa [h] using this

theorem handleFunctionDefinition_mono (A : Arith D) {n m : Nat} {st : State D} {s : IStream}
    {r : Res (State D) Unit} (h : handleFunctionDefinition A n st s = r) (hr : r ≠ .timeout)
    (hnm : n ≤ m) : handleFunctionDefinition A m st s = r := by
  have := Res.le_chain (fun k => handleFunctionDefinition A k st s)
    (fun k => (monoAt A k).2.2.2.2.2.2.1 st s) hnm (by simpa [h] using hr)
  simpa [h] using this

theorem evaluateBlock_mono (A : Arith D) {n m : Nat} {st : State D} {s : Str}
    {r : Res (State D) Unit} (h : evaluateBlock A n st s = r) (hr : r ≠ .timeout)
    (hnm : n ≤ m) : evaluateBlock A m st s = r := by
  have := Res.le_chain (fun k => evaluateBlock A k st s)
    (fun k => (monoAt A k).2.2.2.2.2.2.2.2.1 st s) hnm (by simpa [h] using hr)
  simpa [h] using this

theorem evaluateBlockLoop_mono (A : Arith D) {n m : Nat} {st : State D} {s : IStream}
    {r : Res (State D) Unit} (h : evaluateBlockLoop A n st s = r) (hr : r ≠ .timeout)
    (hnm : n ≤ m) : evaluateBlockLoop A m st s = r := by
  have := Res.le_chain (fun k => evaluateBlockLoop A k st s)
    (fun k => (monoAt A k).2.2.2.2.2.2.2.2.2.1 st s) hnm (by simpa [h] using hr)
  simpa [h] using this

theorem evaluateExpression_mono (A : Arith D) {n m : Nat} {st : State D} {s : IStream}
    {r : Res (State D) (D × IStream)} (h : evaluateExpression A n st s = r) (hr : r ≠ .timeout)
    (hnm : n ≤ m) : evaluateExpression A m st s = r := by
  have := Res.le_chain (fun k => evaluateExpression A k st s)
    (fun k => (monoAt A k).2.2.2.2.2.2.2.2.2.2.1 st s) hnm (by simpa [h] using hr)
  simpa [h] using this

theorem evaluateExpressionLoop_mono (A : Arith D) {n m : Nat} {st : State D} {s : IStream} {v : D}
    {r : Res (State D) (D × IStream)} (h : evaluateExpressionLoop A n st s v = r) (hr : r ≠ .timeout)
    (hnm : n ≤ m) : evaluateExpressionLoop A m st s v = r := by
  have := Res.le_chain (fun k => evaluateExpressionLoop A k st s v)
    (fun k => (monoAt A k).2.2.2.2.2.2.2.2.2.2.2.1 st s v) hnm (by simpa [h] using hr)
  simpa [h] using this

theorem evaluateTerm_mono (A : Arith D) {n m : Nat} {st : State D} {s : IStream}
    {r : Res (State D) (D × IStream)} (h : evaluateTerm A n st s = r) (hr : r ≠ .timeout)
    (hnm : n ≤ m) : evaluateTerm A m st s = r := by
  have := Res.le_chain (fun k => evaluateTerm A k st s)
    (fun k => (monoAt A k).2.2.2.2.2.2.2.2.2.2.2.2.1 st s) hnm (by simpa [h] using hr)
  simpa [h] using this

theorem evaluateTermLoop_mono (A : Arith D) {n m : Nat} {st : State D} {s : IStream} {v : D}
    {r : Res (State D) (D × IStream)} (h : evaluateTermLoop A n st s v = r) (hr : r ≠ .timeout)
    (hnm : n ≤ m) : evaluateTermLoop A m st s v = r := by
  have := Res.le_chain (fun k => evaluateTermLoop A k st s v)
    (fun k => (monoAt A k).2.2.2.2.2.2.2.2.2.2.2.2.2.1 st s v) hnm (by simpa [h] using hr)
  simpa [h] using this

theorem evaluateFactor_mono (A : Arith D) {n m : Nat} {st : State D} {s : IStream}
    {r : Res (State D) (D × IStream)} (h : evaluateFactor A n st s = r) (hr : r ≠ .timeout)
    (hnm : n ≤ m) : evaluateFactor A m st s = r := by
  have := Res.le_chain (fun k => evaluateFactor A k st s)
    (fun k => (monoAt A k).2.2.2.2.2.2.2.2.2.2.2.2.2.2.1 st s) hnm (by simpa [h] using hr)
  simpa [h] using this

theorem bindArguments_mono (A : Arith D) {n m : Nat} {st : State D} {s : IStream} {ps : List Str}
    {r : Res (State D) IStream} (h : bindArguments A n st s ps = r) (hr : r ≠ .timeout)
    (hnm : n ≤ m) : bindArguments A m st s ps = r := by
  have := Res.le_chain (fun k => bindArguments A k st s ps)
    (fun k => (monoAt A k).2.2.2.2.2.2.2.2.2.2.2.2.2.2.2 st s ps) hnm (by simpa [h] using hr)
  simpa [h] using this

/-! ## What an extraction reads -/

theorem extract_cases (s : IStream) :
    (s.extract.1 = [] ∧ s.extract.2.toBool = false) ∨
    (∃ ws tok r, s.rest = ws ++ (tok ++ r) ∧ tok ≠ [] ∧ s.good = true ∧
      s.extract = (tok, { back := tok.reverse ++ (ws.reverse ++ s.back), rest := r,
                          eof := r.isEmpty, fail := false, bad := false })) := by
  by_cases hg : s.good = true
  · by_cases hr : (List.dropWhile isspace s.rest).isEmpty = true
    · left
      simp [IStream.extract, IStream.sentry, hg, hr, IStream.toBool]
    · right
      refine ⟨s.rest.takeWhile isspace,
        (s.rest.dropWhile isspace).takeWhile (fun c => !isspace c),
        (s.rest.dropWhile isspace).dropWhile (fun c => !isspace c), ?_, ?_, hg, ?_⟩
      · simp
      · cases hd : List.dropWhile isspace s.rest with
        | nil => simp [hd] at hr
        | cons a l =>
          have := List.head_dropWhile_not isspace s.rest (by simp [hd])
          simp [hd] at this
          simp [List.takeWhile, this]
      · have hg1 := hg
        simp only [IStream.good, Bool.and_eq_true, Bool.not_eq_true'] at hg1
        simp only [IStream.extract, IStream.sentry, hg, hr, if_true]
        simp only [Bool.false_eq_true, if_false, hg1.1.1, hg1.1.2, hg1.2, Bool.false_or]
        congr 2
        cases hd : List.dropWhile isspace s.rest with
        | nil => simp [hd] at hr
        | cons a l =>
          have := List.head_dropWhile_not isspace s.rest (by simp [hd])
          simp [hd] at this
          simp [List.takeWhile, this]
  · left
    simp [IStream.extract, IStream.sentry, hg, IStream.toBool]

theorem extract_rest_suffix (s : IStream) : s.extract.2.rest <:+ s.rest := by
  rcases extract_cases s with h | ⟨ws, tok, r, hr, _, _, he⟩
  · unfold IStream.extract IStream.sentry
    by_cases hg : s.good = true
    · by_cases hr : (List.dropWhile isspace s.rest).isEmpty = true
      · simp only [hg, hr, if_true]
        simp only [Bool.false_eq_true, if_false]
        exact List.dropWhile_suffix _
      · simp only [hg, hr, if_true]
        simp only [Bool.false_eq_true, if_false]
        exact (List.dropWhile_suffix _).trans (List.dropWhile_suffix _)
    · simp [hg]
  · rw [he, hr]
    exact ⟨ws ++ tok, by simp⟩

theorem extract_token_within (s : IStream) : s.extract.1 <:+: s.rest := by
  rcases extract_cases s with h | ⟨ws, tok, r, hr, _, _, he⟩
  · rw [h.1]; exact List.nil_infix
  · rw [he, hr]
    exact ⟨ws, r, by simp⟩

theorem extract_putback_rest (s : IStream) (c : Char) (h : s.extract.1.getLast? = some c) :
    (s.extract.2.putback c).rest <:+ s.rest ∧ (s.extract.2.putback c).toBool = true := by
  rcases extract_cases s with h1 | ⟨ws, tok, r, hr, hne, _, he⟩
  · rw [h1.1] at h; simp at h
  · rw [he] at h ⊢
    simp only at h
    obtain ⟨l, rfl⟩ : ∃ l, tok = l ++ [c] := by
      have := List.dropLast_append_getLast? c h
      exact ⟨tok.dropLast, this.symm⟩
    simp [IStream.putback, IStream.sentry, IStream.good, hr, IStream.toBool]
    exact ⟨ws ++ l, by simp⟩

theorem Res.bind_eq_ok {σ α β : Type} {r : Res σ α} {k : α → σ → Res σ β} {b : β} {st : σ}
    (h : r.bind k = .ok b st) : ∃ a st1, r = .ok a st1 ∧ k a st1 = .ok b st := by
  cases r with
  | ok a st1 => exact ⟨a, st1, rfl, h⟩
  | err msg st1 => simp [Res.bind] at h
  | undef st1 => simp [Res.bind] at h
  | timeout => simp [Res.bind] at h

theorem extract_toBool_of_ne_nil (s : IStream) (h : s.extract.1 ≠ []) :
    s.extract.2.toBool = true := by
  unfold IStream.extract IStream.sentry at h ⊢
  by_cases hg : s.good = true
  · simp only [hg, if_true] at h ⊢
    by_cases hr : (List.dropWhile isspace s.rest).isEmpty = true
    · simp [hr] at h
    · simp only [hr] at h ⊢
      simp only [IStream.good, Bool.and_eq_true, Bool.not_eq_true'] at hg
      simp only [Bool.false_eq_true, if_false] at h ⊢
      simp [IStream.toBool, hg.1.2, hg.2] 
      simpa using h
  · simp [hg] at h

/-! ## Expressions and the interpreter state -/

theorem findKey_mem {β : Type} {m : List (Str × β)} {k : Str} {v : β}
    (h : findKey m k = some v) : (k, v) ∈ m := by
  induction m with
  | nil => simp [findKey] at h
  | cons p t ih =>
    obtain ⟨k1, v1⟩ := p
    simp only [findKey] at h
    split at h
    · rename_i hk
      simp only [Option.some.injEq] at h
      subst hk; subst h; simp
    · exact List.mem_cons_of_mem _ (ih h)

theorem noCallIn_suffix {fns : List (Str × (List Str × Str))} {t t1 : Str}
    (h : noCallIn fns t) (hs : t1 <:+ t) : noCallIn fns t1 :=
  fun p hp hin => h p hp (hin.trans hs.isInfix)

theorem Res.ok_inj {σ α : Type} {a b : α} {s t : σ} (h : (Res.ok a s : Res σ α) = .ok b t) :
    a = b ∧ s = t := by
  injection h with h1 h2; exact ⟨h1, h2⟩

/-- While no function is active, an expression that is evaluated without
error leaves no function active. -/
theorem no_active_after (A : Arith D) (n : Nat) :
    (∀ st s v s1 st1, st.currentFunction_ = [] →
      evaluateExpression A n st s = .ok (v, s1) st1 → st1.currentFunction_ = []) ∧
    (∀ st s r v s1 st1, st.currentFunction_ = [] →
      evaluateExpressionLoop A n st s r = .ok (v, s1) st1 → st1.currentFunction_ = []) ∧
    (∀ st s v s1 st1, st.currentFunction_ = [] →
      evaluateTerm A n st s = .ok (v, s1) st1 → st1.currentFunction_ = []) ∧
    (∀ st s r v s1 st1, st.currentFunction_ = [] →
      evaluateTermLoop A n st s r = .ok (v, s1) st1 → st1.currentFunction_ = []) ∧
    (∀ st s v s1 st1, st.currentFunction_ = [] →
      evaluateFactor A n st s = .ok (v, s1) st1 → st1.currentFunction_ = []) := by
  induction n with
  | zero =>
    refine ⟨?_, ?_, ?_, ?_, ?_⟩ <;> intros <;> rename_i h <;>
      first
        | (rw [evaluateExpression] at h; exact absurd h (by simp))
        | (rw [evaluateExpressionLoop] at h; exact absurd h (by simp))
        | (rw [evaluateTerm] at h; exact absurd h (by simp))
        | (rw [evaluateTermLoop] at h; exact absurd h (by simp))
        | (rw [evaluateFactor] at h; exact absurd h (by simp))
  | succ n ih =>
    obtain ⟨hE, hEL, hT, hTL, hF⟩ := ih
    refine ⟨?_, ?_, ?_, ?_, ?_⟩
    · intro st s v s1 st1 hc h
      rw [evaluateExpression] at h
      obtain ⟨r, st2, h1, h2⟩ := Res.bind_eq_ok h
      exact hEL _ _ _ _ _ _ (hT _ _ _ _ _ hc h1) h2
    · intro st s r v s1 st1 hc h
      rw [evaluateExpressionLoop] at h
      try simp only at h
      split at h
      · split at h
        · obtain ⟨t, st2, h1, h2⟩ := Res.bind_eq_ok h
          exact hEL _ _ _ _ _ _ (hT _ _ _ _ _ hc h1) h2
        · split at h
          · obtain ⟨t, st2, h1, h2⟩ := Res.bind_eq_ok h
            exact hEL _ _ _ _ _ _ (hT _ _ _ _ _ hc h1) h2
          · split at h
            · obtain ⟨t, st2, h1, h2⟩ := Res.bind_eq_ok h
              exact hEL _ _ _ _ _ _ (hT _ _ _ _ _ hc h1) h2
            · split at h
              · obtain ⟨t, st2, h1, h2⟩ := Res.bind_eq_ok h
                split at h2
                · exact absurd h2 (by simp)
                · exact hEL _ _ _ _ _ _ (hT _ _ _ _ _ hc h1) h2
              · split at h
                · rw [← (Res.ok_inj h).2]; exact hc
                · exact absurd h (by simp)
      · rw [← (Res.ok_inj h).2]; exact hc
    · intro st s v s1 st1 hc h
      rw [evaluateTerm] at h
      obtain ⟨r, st2, h1, h2⟩ := Res.bind_eq_ok h
      exact hTL _ _ _ _ _ _ (hF _ _ _ _ _ hc h1) h2
    · intro st s r v s1 st1 hc h
      rw [evaluateTermLoop] at h
      try simp only at h
      split at h
      · split at h
        · obtain ⟨t, st2, h1, h2⟩ := Res.bind_eq_ok h
          exact hTL _ _ _ _ _ _ (hF _ _ _ _ _ hc h1) h2
        · split at h
          · obtain ⟨t, st2, h1, h2⟩ := Res.bind_eq_ok h
            split at h2
            · exact absurd h2 (by simp)
            · exact hTL _ _ _ _ _ _ (hF _ _ _ _ _ hc h1) h2
          · split at h
            · rw [← (Res.ok_inj h).2]; exact hc
            · exact absurd h (by simp)
      · rw [← (Res.ok_inj h).2]; exact hc
    · intro st s v s1 st1 hc h
      rw [evaluateFactor] at h
      try simp only at h
      split at h
      · split at h
        · rw [← (Res.ok_inj h).2]; exact hc
        · exact absurd h (by simp)
      · split at h
        · obtain ⟨t, st2, h1, h2⟩ := Res.bind_eq_ok h
          split at h2
          · exact absurd h2 (by simp)
          · rw [← (Res.ok_inj h2).2]; exact hE _ _ _ _ _ hc h1
        · split at h
          · rw [← (Res.ok_inj h).2]; exact hc
          · split at h
            · split at h
              · exact absurd h (by simp)
              · obtain ⟨t, st2, h1, h2⟩ := Res.bind_eq_ok h
                split at h2
                · obtain ⟨u, st3, h3, h4⟩ := Res.bind_eq_ok h2
                  rw [← (Res.ok_inj h4).2]
                · obtain ⟨u, st3, h3, h4⟩ := Res.bind_eq_ok h2
                  rw [← (Res.ok_inj h4).2]
            · exact absurd h (by simp)

/-- An expression in which no function name occurs is evaluated without any
change of the interpreter state, and reads on in the text it was given. -/
theorem no_call_state (A : Arith D) (n : Nat) :
    (∀ st s v s1 st1, noCallIn st.functions_ s.rest →
      evaluateExpression A n st s = .ok (v, s1) st1 → st1 = st ∧ s1.rest <:+ s.rest) ∧
    (∀ st s r v s1 st1, noCallIn st.functions_ s.rest →
      evaluateExpressionLoop A n st s r = .ok (v, s1) st1 → st1 = st ∧ s1.rest <:+ s.rest) ∧
    (∀ st s v s1 st1, noCallIn st.functions_ s.rest →
      evaluateTerm A n st s = .ok (v, s1) st1 → st1 = st ∧ s1.rest <:+ s.rest) ∧
    (∀ st s r v s1 st1, noCallIn st.functions_ s.rest →
      evaluateTermLoop A n st s r = .ok (v, s1) st1 → st1 = st ∧ s1.rest <:+ s.rest) ∧
    (∀ st s v s1 st1, noCallIn st.functions_ s.rest →
      evaluateFactor A n st s = .ok (v, s1) st1 → st1 = st ∧ s1.rest <:+ s.rest) := by
  induction n with
  | zero =>
    refine ⟨?_, ?_, ?_, ?_, ?_⟩ <;> intros <;> rename_i h <;>
      first
        | (rw [evaluateExpression] at h; exact absurd h (by simp))
        | (rw [evaluateExpressionLoop] at h; exact absurd h (by simp))
        | (rw [evaluateTerm] at h; exact absurd h (by simp))
        | (rw [evaluateTermLoop] at h; exact absurd h (by simp))
        | (rw [evaluateFactor] at h; exact absurd h (by simp))
  | succ n ih =>
    obtain ⟨hE, hEL, hT, hTL, hF⟩ := ih
    -- a sub-evaluation followed by the rest of a loop
    have stepE : ∀ (st : State D) (s s0 : IStream) (t : D × IStream) (st2 : State D) (x v : D)
        (s1 : IStream) (st1 : State D), noCallIn st.functions_ s.rest → s0.rest <:+ s.rest →
        evaluateTerm A n st s0 = .ok t st2 →
        evaluateExpressionLoop A n st2 t.2 x = .ok (v, s1) st1 →
        st1 = st ∧ s1.rest <:+ s.rest := by
      intro st s s0 t st2 x v s1 st1 hc hs h1 h2
      obtain ⟨e1, e2⟩ := hT _ _ _ _ _ (noCallIn_suffix hc hs) h1
      subst e1
      obtain ⟨e3, e4⟩ := hEL _ _ _ _ _ _ (noCallIn_suffix hc (e2.trans hs)) h2
      exact ⟨e3, e4.trans (e2.trans hs)⟩
    have stepT : ∀ (st : State D) (s s0 : IStream) (t : D × IStream) (st2 : State D) (x v : D)
        (s1 : IStream) (st1 : State D), noCallIn st.functions_ s.rest → s0.rest <:+ s.rest →
        evaluateFactor A n st s0 = .ok t st2 →
        evaluateTermLoop A n st2 t.2 x = .ok (v, s1) st1 →
        st1 = st ∧ s1.rest <:+ s.rest := by
      intro st s s0 t st2 x v s1 st1 hc hs h1 h2
      obtain ⟨e1, e2⟩ := hF _ _ _ _ _ (noCallIn_suffix hc hs) h1
      subst e1
      obtain ⟨e3, e4⟩ := hTL _ _ _ _ _ _ (noCallIn_suffix hc (e2.trans hs)) h2
      exact ⟨e3, e4.trans (e2.trans hs)⟩
    refine ⟨?_, ?_, ?_, ?_, ?_⟩
    · intro st s v s1 st1 hc h
      rw [evaluateExpression] at h
      obtain ⟨r, st2, h1, h2⟩ := Res.bind_eq_ok h
      exact stepE st s s r st2 _ v s1 st1 hc (List.suffix_refl _) h1 h2
    · intro st s r v s1 st1 hc h
      have hx := extract_rest_suffix s
      rw [evaluateExpressionLoop] at h
      try simp only at h
      split at h
      · split at h
        · obtain ⟨t, st2, h1, h2⟩ := Res.bind_eq_ok h
          exact stepE st s _ t st2 _ v s1 st1 hc hx h1 h2
        · split at h
          · obtain ⟨t, st2, h1, h2⟩ := Res.bind_eq_ok h
            exact stepE st s _ t st2 _ v s1 st1 hc hx h1 h2
          · split at h
            · obtain ⟨t, st2, h1, h2⟩ := Res.bind_eq_ok h
              exact stepE st s _ t st2 _ v s1 st1 hc hx h1 h2
            · split at h
              · obtain ⟨t, st2, h1, h2⟩ := Res.bind_eq_ok h
                split at h2
                · exact absurd h2 (by simp)
                · exact stepE st s _ t st2 _ v s1 st1 hc hx h1 h2
              · split at h
                · rename_i c hl
                  obtain ⟨e1, e2⟩ := Res.ok_inj h
                  rw [← e2, ← (Prod.mk.inj e1).2]
                  exact ⟨rfl, (extract_putback_rest s c hl).1⟩
                · exact absurd h (by simp)
      · obtain ⟨e1, e2⟩ := Res.ok_inj h
        rw [← e2, ← (Prod.mk.inj e1).2]
        exact ⟨rfl, hx⟩
    · intro st s v s1 st1 hc h
      rw [evaluateTerm] at h
      obtain ⟨r, st2, h1, h2⟩ := Res.bind_eq_ok h
      exact stepT st s s r st2 _ v s1 st1 hc (List.suffix_refl _) h1 h2
    · intro st s r v s1 st1 hc h
      have hx := extract_rest_suffix s
      rw [evaluateTermLoop] at h
      try simp only at h
      split at h
      · split at h
        · obtain ⟨t, st2, h1, h2⟩ := Res.bind_eq_ok h
          exact stepT st s _ t st2 _ v s1 st1 hc hx h1 h2
        · split at h
          · obtain ⟨t, st2, h1, h2⟩ := Res.bind_eq_ok h
            split at h2
            · exact absurd h2 (by simp)
            · exact stepT st s _ t st2 _ v s1 st1 hc hx h1 h2
          · split at h
            · rename_i c hl
              obtain ⟨e1, e2⟩ := Res.ok_inj h
              rw [← e2, ← (Prod.mk.inj e1).2]
              exact ⟨rfl, (extract_putback_rest s c hl).1⟩
            · exact absurd h (by simp)
      · obtain ⟨e1, e2⟩ := Res.ok_inj h
        rw [← e2, ← (Prod.mk.inj e1).2]
        exact ⟨rfl, hx⟩
    · intro st s v s1 st1 hc h
      have hx := extract_rest_suffix s
      rw [evaluateFactor] at h
      try simp only at h
      split at h
      · split at h
        · obtain ⟨e1, e2⟩ := Res.ok_inj h
          rw [← e2, ← (Prod.mk.inj e1).2]
          exact ⟨rfl, hx⟩
        · exact absurd h (by simp)
      · split at h
        · obtain ⟨t, st2, h1, h2⟩ := Res.bind_eq_ok h
          obtain ⟨e3, e4⟩ := hE _ _ _ _ _ (noCallIn_suffix hc hx) h1
          split at h2
          · exact absurd h2 (by simp)
          · obtain ⟨e1, e2⟩ := Res.ok_inj h2
            rw [← e2, ← (Prod.mk.inj e1).2]
            exact ⟨e3, (extract_rest_suffix _).trans (e4.trans hx)⟩
        · split at h
          · obtain ⟨e1, e2⟩ := Res.ok_inj h
            rw [← e2, ← (Prod.mk.inj e1).2]
            exact ⟨rfl, hx⟩
          · split at h
            · rename_i fn hfn
              exact absurd (extract_token_within s) (hc _ (findKey_mem hfn))
            · exact absurd h (by simp)

theorem return_dispatch (A : Arith D) (n : Nat) (st : State D) (ws E : Str)
    (hws : allSpace ws) (hE : tokenEnd E)
    (hnv : hasKey st.variables_ "return".toList = false) :
    (IStream.ofStr (ws ++ ("return".toList ++ E))).extract.2.rest = E ∧
    evaluateStatement A (n + 1) st (ws ++ ("return".toList ++ E))
      = handleFunctionReturn A n st (IStream.ofStr (ws ++ ("return".toList ++ E))).extract.2 := by
  have h1 := extract_token (IStream.ofStr (ws ++ ("return".toList ++ E)))
    ws "return".toList E rfl rfl hws (by decide) (by unfold noSpace; decide) hE
  refine ⟨by rw [h1], ?_⟩
  rw [evaluateStatement]
  simp only [h1, hnv]
  rw [if_neg (by decide), if_neg (by decide), if_neg (by decide), if_neg (by decide),
    if_neg (by decide), if_pos trivial]

/-! ## The evaluators on the text of an expression -/

theorem head_dropWhile_space {r : Str} {c : Char} {t : Str}
    (h : r.dropWhile isspace = c :: t) : isspace c = false := by
  have := List.head_dropWhile_not isspace r (by simp [h])
  simpa [h] using this

theorem dropWhile_sep_cons {sep : Str} (hsep : allSpace sep) (c : Char) (t : Str)
    (hc : isspace c = false) : (sep ++ c :: t).dropWhile isspace = c :: t :=
  (takeWhile_space_append (r := c :: t) hsep (by simp [hc])).2

theorem tokenEnd_sep {sep : Str} (hsep : allSpace sep) (hne : sep ≠ []) (t : Str) :
    tokenEnd (sep ++ t) := by
  obtain ⟨a, l, rfl⟩ := List.exists_cons_of_ne_nil hne
  intro c hc
  simp at hc
  subst hc
  exact hsep _ (by simp)

theorem extract_atRest {s : IStream} {r k t : Str} (h : AtRest s r)
    (hr : r.dropWhile isspace = k ++ t) (hne : k ≠ []) (htok : noSpace k)
    (htail : tokenEnd t) :
    s.extract.1 = k ∧ s.extract.2.toBool = true ∧ AtRest s.extract.2 t ∧
      ∀ c, k.getLast? = some c → AtRest (s.extract.2.putback c) (c :: t) := by
  obtain ⟨hf, hb, hrest, heof⟩ := h
  have hsplit : s.rest = r.takeWhile isspace ++ (k ++ t) := by
    rw [← hr, List.takeWhile_append_dropWhile, hrest]
  have hws : allSpace (r.takeWhile isspace) := fun c hc => (List.mem_takeWhile_imp hc)
  have hrne : r ≠ [] := by
    intro h0
    rw [h0] at hr
    simp at hr
    exact hne hr.1
  have he : s.eof = false := by
    cases h1 : s.eof with
    | false => rfl
    | true => exact absurd (heof h1) hrne
  have hg : s.good = true := by simp [IStream.good, he, hf, hb]
  have hx := extract_token s _ k t hg hsplit hws hne htok htail
  rw [hx]
  refine ⟨rfl, by simp [IStream.toBool], ⟨rfl, rfl, rfl, by simp⟩, ?_⟩
  intro c hc
  obtain ⟨l, rfl⟩ : ∃ l, k = l ++ [c] := ⟨k.dropLast, (List.dropLast_append_getLast? c hc).symm⟩
  simp [IStream.putback, IStream.sentry, IStream.good, AtRest]

theorem extract_fails {s : IStream} {r : Str}
    (h : s.toBool = false ∨ (AtRest s r ∧ r.dropWhile isspace = [])) :
    s.extract.2.toBool = false := by
  by_cases hg : s.good = true
  · by_cases hx : (List.dropWhile isspace s.rest).isEmpty = true
    · simp [IStream.extract, IStream.sentry, hg, hx, IStream.toBool]
    · exfalso
      simp only [IStream.good, Bool.and_eq_true, Bool.not_eq_true'] at hg
      rcases h with h | ⟨⟨-, -, hrest, -⟩, hd⟩
      · simp [IStream.toBool, hg.1.2, hg.2] at h
      · rw [hrest, hd] at hx
        exact hx rfl
  · simp [IStream.extract, IStream.sentry, hg, IStream.toBool]

theorem evaluateTermLoop_exit (A : Arith D) (n : Nat) (st : State D) {s : IStream}
    {tail : Str} (x : D) (hs : AtRest s tail) (hf : follows ['*', '/'] tail) :
    ∃ s1, evaluateTermLoop A (n + 1) st s x = .ok (x, s1) st ∧ Stopped s1 tail := by
  rw [evaluateTermLoop]
  cases hd : tail.dropWhile isspace with
  | nil =>
    have h1 := extract_fails (Or.inr ⟨hs, hd⟩)
    refine ⟨s.extract.2, by simp [h1], fun _ => h1, fun h => absurd hd h⟩
  | cons c r =>
    obtain ⟨hc, hr⟩ := hf c r hd
    have hsp := head_dropWhile_space hd
    obtain ⟨e1, e2, -, e4⟩ := extract_atRest (k := [c]) hs hd (by simp)
      (by intro a ha; simp at ha; subst ha; exact hsp) hr
    have h1 : ¬ ([c] = "*".toList) := by
      intro h; simp at h; subst h; simp at hc
    have h2 : ¬ ([c] = "/".toList) := by
      intro h; simp at h; subst h; simp at hc
    refine ⟨s.extract.2.putback c, ?_, fun h => absurd hd (by simp [h]),
      fun _ => by rw [hd]; exact e4 c (by simp)⟩
    simp only [e2, e1, if_true]
    rw [if_neg h1, if_neg h2]
    simp

theorem evaluateExpressionLoop_exit (A : Arith D) (n : Nat) (st : State D) {s : IStream}
    {tail : Str} (x : D) (hs : Stopped s tail) (hf : follows ['+', '-', '*', '/'] tail) :
    ∃ s1, evaluateExpressionLoop A (n + 1) st s x = .ok (x, s1) st ∧ Stopped s1 tail := by
  rw [evaluateExpressionLoop]
  cases hd : tail.dropWhile isspace with
  | nil =>
    have h1 := extract_fails (r := tail) (Or.inl (hs.1 hd))
    refine ⟨s.extract.2, by simp [h1], fun _ => h1, fun h => absurd hd h⟩
  | cons c r =>
    obtain ⟨hc, hr⟩ := hf c r hd
    have hsp := head_dropWhile_space hd
    have hs1 : AtRest s (c :: r) := by
      have := hs.2 (by simp [hd])
      rwa [hd] at this
    obtain ⟨e1, e2, -, e4⟩ := extract_atRest (k := [c]) (t := r) hs1
      (by simp [List.dropWhile, hsp]) (by simp)
      (by intro a ha; simp at ha; subst ha; exact hsp) hr
    have h1 : ¬ ([c] = "+".toList) := by
      intro h; simp at h; subst h; simp at hc
    have h2 : ¬ ([c] = "-".toList) := by
      intro h; simp at h; subst h; simp at hc
    have h3 : ¬ ([c] = "*".toList) := by
      intro h; simp at h; subst h; simp at hc
    have h4 : ¬ ([c] = "/".toList) := by
      intro h; simp at h; subst h; simp at hc
    refine ⟨s.extract.2.putback c, ?_, fun h => absurd hd (by simp [h]),
      fun _ => by rw [hd]; exact e4 c (by simp)⟩
    simp only [e2, e1, if_true]
    rw [if_neg h1, if_neg h2, if_neg h3, if_neg h4]
    simp

/-- The loop of `evaluateTerm` in front of ` * f` or ` / f`. -/
theorem evaluateTermLoop_step (A : Arith D) (n : Nat) (st : State D) {s : IStream}
    {r t : Str} (x : D) (c : Char) (hs : AtRest s r) (hr : r.dropWhile isspace = c :: t)
    (ht : tokenEnd t) :
    AtRest s.extract.2 t ∧
    (c = '*' → evaluateTermLoop A (n + 1) st s x
      = (evaluateFactor A n st s.extract.2).bind fun f st1 =>
          evaluateTermLoop A n st1 f.2 (A.mul x f.1)) ∧
    (c = '/' → evaluateTermLoop A (n + 1) st s x
      = (evaluateFactor A n st s.extract.2).bind fun divisor st1 =>
          if A.isZero divisor.1 then .err "Division by zero".toList st1
          else evaluateTermLoop A n st1 divisor.2 (A.div x divisor.1)) := by
  have hsp := head_dropWhile_space hr
  obtain ⟨e1, e2, e3, -⟩ := extract_atRest (k := [c]) hs hr (by simp)
    (by intro a ha; simp at ha; subst ha; exact hsp) ht
  refine ⟨e3, ?_, ?_⟩
  · intro hc
    subst hc
    rw [evaluateTermLoop]
    simp only [e2, e1, if_true]
    rw [if_pos (by decide)]
  · intro hc
    subst hc
    rw [evaluateTermLoop]
    simp only [e2, e1, if_true]
    rw [if_neg (by decide), if_pos (by decide)]

/-- The loop of `evaluateExpression` in front of ` + t` or ` - t`. -/
theorem evaluateExpressionLoop_step (A : Arith D) (n : Nat) (st : State D) {s : IStream}
    {tail t : Str} (x : D) (c : Char) (hs : Stopped s tail)
    (hr : tail.dropWhile isspace = c :: t) (ht : tokenEnd t) :
    AtRest s.extract.2 t ∧
    (c = '+' → evaluateExpressionLoop A (n + 1) st s x
      = (evaluateTerm A n st s.extract.2).bind fun u st1 =>
          evaluateExpressionLoop A n st1 u.2 (A.add x u.1)) ∧
    (c = '-' → evaluateExpressionLoop A (n + 1) st s x
      = (evaluateTerm A n st s.extract.2).bind fun u st1 =>
          evaluateExpressionLoop A n st1 u.2 (A.sub x u.1)) := by
  have hsp := head_dropWhile_space hr
  have hs1 : AtRest s (c :: t) := by
    have := hs.2 (by simp [hr])
    rwa [hr] at this
  obtain ⟨e1, e2, e3, -⟩ := extract_atRest (k := [c]) (t := t) hs1
    (by simp [List.dropWhile, hsp]) (by simp)
    (by intro a ha; simp at ha; subst ha; exact hsp) ht
  refine ⟨e3, ?_, ?_⟩
  · intro hc
    subst hc
    rw [evaluateExpressionLoop]
    simp only [e2, e1, if_true]
    rw [if_pos (by decide)]
  · intro hc
    subst hc
    rw [evaluateExpressionLoop]
    simp only [e2, e1, if_true]
    rw [if_neg (by decide), if_pos (by decide)]

theorem isLiteral_cons {lit : Str} (h : isLiteral lit = true) :
    ∃ c t, lit = c :: t ∧ isspace c = false ∧ noSpace lit ∧ isNumberToken lit = true := by
  simp only [isLiteral, Bool.and_eq_true, List.all_eq_true] at h
  obtain ⟨h1, h2⟩ := h
  cases lit with
  | nil => simp [charAt, isdigit] at h1
  | cons c t =>
    refine ⟨c, t, rfl, by simpa using h2 c (by simp), fun a ha => by simpa using h2 a ha, ?_⟩
    simp [isNumberToken, h1]

mutual

theorem factor_text_head (sep : Str) :
    ∀ f : Factor, f.wf = true → ∃ c t, f.text sep = c :: t ∧ isspace c = false
  | .num lit, h => by
    obtain ⟨c, t, h1, h2, -, -⟩ := isLiteral_cons (by simpa [Factor.wf] using h)
    exact ⟨c, t, by simp [Factor.text, h1], h2⟩
  | .paren e, _ => ⟨'(', sep ++ (e.text sep ++ (sep ++ [')'])), by simp [Factor.text], by decide⟩

theorem term_text_head (sep : Str) :
    ∀ t : Term, t.wf = true → ∃ c r, t.text sep = c :: r ∧ isspace c = false
  | .factor f, h => by
    simpa [Term.text] using factor_text_head sep f (by simpa [Term.wf] using h)
  | .mul t f, h => by
    obtain ⟨c, r, h1, h2⟩ := term_text_head sep t (by simp [Term.wf] at h; exact h.1)
    exact ⟨c, r ++ (sep ++ '*' :: (sep ++ Factor.text sep f)), by simp [Term.text, h1], h2⟩
  | .div t f, h => by
    obtain ⟨c, r, h1, h2⟩ := term_text_head sep t (by simp [Term.wf] at h; exact h.1)
    exact ⟨c, r ++ (sep ++ '/' :: (sep ++ Factor.text sep f)), by simp [Term.text, h1], h2⟩

end

theorem expr_text_head (sep : Str) :
    ∀ e : Expr, e.wf = true → ∃ c r, e.text sep = c :: r ∧ isspace c = false
  | .term t, h => by
    simpa [Expr.text] using term_text_head sep t (by simpa [Expr.wf] using h)
  | .add e t, h => by
    obtain ⟨c, r, h1, h2⟩ := expr_text_head sep e (by simp [Expr.wf] at h; exact h.1)
    exact ⟨c, r ++ (sep ++ '+' :: (sep ++ Term.text sep t)), by simp [Expr.text, h1], h2⟩
  | .sub e t, h => by
    obtain ⟨c, r, h1, h2⟩ := expr_text_head sep e (by simp [Expr.wf] at h; exact h.1)
    exact ⟨c, r ++ (sep ++ '-' :: (sep ++ Term.text sep t)), by simp [Expr.text, h1], h2⟩

theorem dropWhile_sep_text {sep txt : Str} (tail : Str) (hsep : allSpace sep)
    (h : ∃ c t, txt = c :: t ∧ isspace c = false) :
    (sep ++ (txt ++ tail)).dropWhile isspace = txt ++ tail := by
  obtain ⟨c, t, rfl, hc⟩ := h
  exact dropWhile_sep_cons hsep c (t ++ tail) hc

theorem follows_sep_cons {ops : List Char} {sep : Str} (hsep : allSpace sep) (c : Char)
    (t : Str) (hc : isspace c = false) (hops : c ∉ ops) (ht : tokenEnd t) :
    follows ops (sep ++ c :: t) := by
  intro a r h
  rw [dropWhile_sep_cons hsep c t hc] at h
  obtain ⟨rfl, rfl⟩ := List.cons.inj h
  exact ⟨hops, ht⟩

theorem follows_weaken {ops ops1 : List Char} {tail : Str} (h : follows ops tail)
    (hsub : ∀ c ∈ ops1, c ∈ ops) : follows ops1 tail :=
  fun c r hr => ⟨fun hc => (h c r hr).1 (hsub c hc), (h c r hr).2⟩

theorem term_full {A : Arith D} {sep : Str} {t : Term} (hT : TermOK A sep t) {v : D}
    (hv : t.value A = some v) :
    ∃ N, ∀ n, N ≤ n → ∀ (st : State D) (s : IStream) (r tail : Str),
      AtRest s r → r.dropWhile isspace = t.text sep ++ tail → tokenEnd tail →
      follows ['*', '/'] tail →
      ∃ s1, evaluateTerm A n st s = .ok (v, s1) st ∧ Stopped s1 tail := by
  obtain ⟨N, k, h⟩ := hT v hv
  refine ⟨N + k + 1, ?_⟩
  intro n hn st s r tail hs hr ht hf
  obtain ⟨m, rfl⟩ : ∃ m, n = (N + m + 1) + k := ⟨n - (N + k + 1), by omega⟩
  obtain ⟨s1, hs1, e⟩ := h (N + m + 1) (by omega) st s r tail hs hr ht
  rw [e]
  exact evaluateTermLoop_exit A (N + m) st v hs1 hf

theorem expr_full {A : Arith D} {sep : Str} {e : Expr} (hE : ExprOK A sep e) {v : D}
    (hv : e.value A = some v) :
    ∃ N, ∀ n, N ≤ n → ∀ (st : State D) (s : IStream) (r tail : Str),
      AtRest s r → r.dropWhile isspace = e.text sep ++ tail → tokenEnd tail →
      follows ['+', '-', '*', '/'] tail →
      ∃ s1, evaluateExpression A n st s = .ok (v, s1) st ∧ Stopped s1 tail := by
  obtain ⟨N, k, h⟩ := hE v hv
  refine ⟨N + k + 1, ?_⟩
  intro n hn st s r tail hs hr ht hf
  obtain ⟨m, rfl⟩ : ∃ m, n = (N + m + 1) + k := ⟨n - (N + k + 1), by omega⟩
  obtain ⟨s1, hs1, e1⟩ := h (N + m + 1) (by omega) st s r tail hs hr ht
    (follows_weaken hf (by intro c hc; simp at hc ⊢; tauto))
  rw [e1]
  exact evaluateExpressionLoop_exit A (N + m) st v hs1 hf

theorem factor_num_ok (A : Arith D) (sep lit : Str) (hw : isLiteral lit = true) :
    FactorOK A sep (.num lit) := by
  intro v hv
  refine ⟨1, ?_⟩
  intro n hn st s r tail hs hr ht
  obtain ⟨m, rfl⟩ : ∃ m, n = m + 1 := ⟨n - 1, by omega⟩
  obtain ⟨c, t, h1, h2, h3, h4⟩ := isLiteral_cons hw
  obtain ⟨e1, -, e3, -⟩ := extract_atRest (k := lit) hs (by simpa [Factor.text] using hr)
    (by rw [h1]; simp) h3 ht
  refine ⟨s.extract.2, ?_, e3⟩
  rw [evaluateFactor]
  simp only [e1, h4, if_true]
  simp only [Factor.value] at hv
  rw [hv]

theorem factor_paren_ok (A : Arith D) (sep : Str) (hsep : allSpace sep) (hne : sep ≠ [])
    (e : Expr) (hw : e.wf = true) (hE : ExprOK A sep e) : FactorOK A sep (.paren e) := by
  intro v hv
  simp only [Factor.value] at hv
  obtain ⟨N, h⟩ := expr_full hE hv
  refine ⟨N + 1, ?_⟩
  intro n hn st s r tail hs hr ht
  obtain ⟨m, rfl⟩ : ∃ m, n = m + 1 := ⟨n - 1, by omega⟩
  have hr1 : r.dropWhile isspace = ['('] ++ (sep ++ (e.text sep ++ (sep ++ ')' :: tail))) := by
    simpa [Factor.text] using hr
  obtain ⟨e1, -, e3, -⟩ := extract_atRest (k := ['(']) hs hr1 (by simp)
    (by unfold noSpace; decide) (tokenEnd_sep hsep hne _)
  obtain ⟨s3, h3, hs3⟩ := h m (by omega) st s.extract.2 _ (sep ++ ')' :: tail) e3
    (dropWhile_sep_text _ hsep (expr_text_head sep e hw)) (tokenEnd_sep hsep hne _)
    (follows_sep_cons hsep ')' tail (by decide) (by decide) ht)
  have hd : (sep ++ ')' :: tail).dropWhile isspace = [')'] ++ tail :=
    dropWhile_sep_cons hsep ')' tail (by decide)
  have hs4 : AtRest s3 ([')'] ++ tail) := by
    have := hs3.2 (by rw [hd]; simp)
    rwa [hd] at this
  obtain ⟨f1, -, f3, -⟩ := extract_atRest (k := [')']) (t := tail) hs4
    (by
      have : isspace ')' = false := by decide
      simp [List.dropWhile, this]) (by simp) (by unfold noSpace; decide) ht
  refine ⟨s3.extract.2, ?_, f3⟩
  rw [evaluateFactor]
  simp only [e1]
  rw [if_neg (by decide), if_pos (by decide), h3]
  simp [Res.bind, f1]

theorem term_factor_ok (A : Arith D) (sep : Str) (f : Factor) (hF : FactorOK A sep f) :
    TermOK A sep (.factor f) := by
  intro v hv
  simp only [Term.value] at hv
  obtain ⟨N, h⟩ := hF v hv
  refine ⟨N, 1, ?_⟩
  intro n hn st s r tail hs hr ht
  obtain ⟨s1, h1, hs1⟩ := h n hn st s r tail hs (by simpa [Term.text] using hr) ht
  refine ⟨s1, hs1, ?_⟩
  rw [evaluateTerm, h1]
  rfl

theorem term_mul_ok (A : Arith D) (sep : Str) (hsep : allSpace sep) (hne : sep ≠ [])
    (t : Term) (f : Factor) (hw : f.wf = true) (hT : TermOK A sep t)
    (hF : FactorOK A sep f) : TermOK A sep (.mul t f) := by
  intro v hv
  simp only [Term.value] at hv
  cases ha : t.value A with
  | none => simp [ha] at hv
  | some a =>
    cases hb : f.value A with
    | none => simp [ha, hb] at hv
    | some b =>
      simp only [ha, hb, Option.some.injEq] at hv
      subst hv
      obtain ⟨Nt, kt, ht⟩ := hT a ha
      obtain ⟨Nf, hf⟩ := hF b hb
      refine ⟨max Nt Nf, kt + 1, ?_⟩
      intro n hn st s r tail hs hr htail
      have hr1 : r.dropWhile isspace
          = t.text sep ++ (sep ++ '*' :: (sep ++ (f.text sep ++ tail))) := by
        simpa [Term.text] using hr
      obtain ⟨s1, hs1, e1⟩ := ht (n + 1) (by omega) st s r _ hs hr1 (tokenEnd_sep hsep hne _)
      obtain ⟨g1, g2, -⟩ := evaluateTermLoop_step A n st a '*' hs1
        (dropWhile_sep_cons hsep '*' _ (by decide)) (tokenEnd_sep hsep hne _)
      obtain ⟨s3, h3, hs3⟩ := hf n (by omega) st s1.extract.2 _ tail g1
        (dropWhile_sep_text tail hsep (factor_text_head sep f hw)) htail
      refine ⟨s3, hs3, ?_⟩
      have e : n + (kt + 1) = (n + 1) + kt := by omega
      rw [e, e1, g2 rfl, h3]
      rfl

theorem term_div_ok (A : Arith D) (sep : Str) (hsep : allSpace sep) (hne : sep ≠ [])
    (t : Term) (f : Factor) (hw : f.wf = true) (hT : TermOK A sep t)
    (hF : FactorOK A sep f) : TermOK A sep (.div t f) := by
  intro v hv
  simp only [Term.value] at hv
  cases ha : t.value A with
  | none => simp [ha] at hv
  | some a =>
    cases hb : f.value A with
    | none => simp [ha, hb] at hv
    | some b =>
      simp only [ha, hb] at hv
      cases hz : A.isZero b with
      | true => simp [hz] at hv
      | false =>
        simp only [hz, Bool.false_eq_true, if_false, Option.some.injEq] at hv
        subst hv
        obtain ⟨Nt, kt, ht⟩ := hT a ha
        obtain ⟨Nf, hf⟩ := hF b hb
        refine ⟨max Nt Nf, kt + 1, ?_⟩
        intro n hn st s r tail hs hr htail
        have hr1 : r.dropWhile isspace
            = t.text sep ++ (sep ++ '/' :: (sep ++ (f.text sep ++ tail))) := by
          simpa [Term.text] using hr
        obtain ⟨s1, hs1, e1⟩ := ht (n + 1) (by omega) st s r _ hs hr1
          (tokenEnd_sep hsep hne _)
        obtain ⟨g1, -, g2⟩ := evaluateTermLoop_step A n st a '/' hs1
          (dropWhile_sep_cons hsep '/' _ (by decide)) (tokenEnd_sep hsep hne _)
        obtain ⟨s3, h3, hs3⟩ := hf n (by omega) st s1.extract.2 _ tail g1
          (dropWhile_sep_text tail hsep (factor_text_head sep f hw)) htail
        refine ⟨s3, hs3, ?_⟩
        have e : n + (kt + 1) = (n + 1) + kt := by omega
        rw [e, e1, g2 rfl, h3]
        simp [Res.bind, hz]

theorem expr_term_ok (A : Arith D) (sep : Str) (t : Term) (hT : TermOK A sep t) :
    ExprOK A sep (.term t) := by
  intro v hv
  simp only [Expr.value] at hv
  obtain ⟨N, h⟩ := term_full hT hv
  refine ⟨N, 1, ?_⟩
  intro n hn st s r tail hs hr ht hf
  obtain ⟨s1, h1, hs1⟩ := h n hn st s r tail hs (by simpa [Expr.text] using hr) ht hf
  refine ⟨s1, hs1, ?_⟩
  rw [evaluateExpression, h1]
  rfl

theorem expr_add_ok (A : Arith D) (sep : Str) (hsep : allSpace sep) (hne : sep ≠ [])
    (e : Expr) (t : Term) (hw : t.wf = true) (hE : ExprOK A sep e)
    (hT : TermOK A sep t) : ExprOK A sep (.add e t) := by
  intro v hv
  simp only [Expr.value] at hv
  cases ha : e.value A with
  | none => simp [ha] at hv
  | some a =>
    cases hb : t.value A with
    | none => simp [ha, hb] at hv
    | some b =>
      simp only [ha, hb, Option.some.injEq] at hv
      subst hv
      obtain ⟨Ne, ke, he⟩ := hE a ha
      obtain ⟨Nt, ht⟩ := term_full hT hb
      refine ⟨max Ne Nt, ke + 1, ?_⟩
      intro n hn st s r tail hs hr htail hf
      have hr1 : r.dropWhile isspace
          = e.text sep ++ (sep ++ '+' :: (sep ++ (t.text sep ++ tail))) := by
        simpa [Expr.text] using hr
      obtain ⟨s1, hs1, e1⟩ := he (n + 1) (by omega) st s r _ hs hr1 (tokenEnd_sep hsep hne _)
        (follows_sep_cons hsep '+' _ (by decide) (by decide) (tokenEnd_sep hsep hne _))
      obtain ⟨g1, g2, -⟩ := evaluateExpressionLoop_step A n st a '+' hs1
        (dropWhile_sep_cons hsep '+' _ (by decide)) (tokenEnd_sep hsep hne _)
      obtain ⟨s3, h3, hs3⟩ := ht n (by omega) st s1.extract.2 _ tail g1
        (dropWhile_sep_text tail hsep (term_text_head sep t hw)) htail hf
      refine ⟨s3, hs3, ?_⟩
      have e : n + (ke + 1) = (n + 1) + ke := by omega
      rw [e, e1, g2 rfl, h3]
      rfl

theorem expr_sub_ok (A : Arith D) (sep : Str) (hsep : allSpace sep) (hne : sep ≠ [])
    (e : Expr) (t : Term) (hw : t.wf = true) (hE : ExprOK A sep e)
    (hT : TermOK A sep t) : ExprOK A sep (.sub e t) := by
  intro v hv
  simp only [Expr.value] at hv
  cases ha : e.value A with
  | none => simp [ha] at hv
  | some a =>
    cases hb : t.value A with
    | none => simp [ha, hb] at hv
    | some b =>
      simp only [ha, hb, Option.some.injEq] at hv
      subst hv
      obtain ⟨Ne, ke, he⟩ := hE a ha
      obtain ⟨Nt, ht⟩ := term_full hT hb
      refine ⟨max Ne Nt, ke + 1, ?_⟩
      intro n hn st s r tail hs hr htail hf
      have hr1 : r.dropWhile isspace
          = e.text sep ++ (sep ++ '-' :: (sep ++ (t.text sep ++ tail))) := by
        simpa [Expr.text] using hr
      obtain ⟨s1, hs1, e1⟩ := he (n + 1) (by omega) st s r _ hs hr1 (tokenEnd_sep hsep hne _)
        (follows_sep_cons hsep '-' _ (by decide) (by decide) (tokenEnd_sep hsep hne _))
      obtain ⟨g1, -, g2⟩ := evaluateExpressionLoop_step A n st a '-' hs1
        (dropWhile_sep_cons hsep '-' _ (by decide)) (tokenEnd_sep hsep hne _)
      obtain ⟨s3, h3, hs3⟩ := ht n (by omega) st s1.extract.2 _ tail g1
        (dropWhile_sep_text tail hsep (term_text_head sep t hw)) htail hf
      refine ⟨s3, hs3, ?_⟩
      have e : n + (ke + 1) = (n + 1) + ke := by omega
      rw [e, e1, g2 rfl, h3]
      rfl

mutual

theorem factor_ok (A : Arith D) (sep : Str) (hsep : allSpace sep) (hne : sep ≠ []) :
    ∀ f : Factor, f.wf = true → FactorOK A sep f
  | .num lit, hw => factor_num_ok A sep lit (by simpa [Factor.wf] using hw)
  | .paren e, hw =>
    factor_paren_ok A sep hsep hne e (by simpa [Factor.wf] using hw)
      (expr_ok A sep hsep hne e (by simpa [Factor.wf] using hw))

theorem term_ok (A : Arith D) (sep : Str) (hsep : allSpace sep) (hne : sep ≠ []) :
    ∀ t : Term, t.wf = true → TermOK A sep t
  | .factor f, hw =>
    term_factor_ok A sep f (factor_ok A sep hsep hne f (by simpa [Term.wf] using hw))
  | .mul t f, hw =>
    have h : t.wf = true ∧ f.wf = true := by simpa [Term.wf] using hw
    term_mul_ok A sep hsep hne t f h.2 (term_ok A sep hsep hne t h.1)
      (factor_ok A sep hsep hne f h.2)
  | .div t f, hw =>
    have h : t.wf = true ∧ f.wf = true := by simpa [Term.wf] using hw
    term_div_ok A sep hsep hne t f h.2 (term_ok A sep hsep hne t h.1)
      (factor_ok A sep hsep hne f h.2)

theorem expr_ok (A : Arith D) (sep : Str) (hsep : allSpace sep) (hne : sep ≠ []) :
    ∀ e : Expr, e.wf = true → ExprOK A sep e
  | .term t, hw =>
    expr_term_ok A sep t (term_ok A sep hsep hne t (by simpa [Expr.wf] using hw))
  | .add e t, hw =>
    have h : e.wf = true ∧ t.wf = true := by simpa [Expr.wf] using hw
    expr_add_ok A sep hsep hne e t h.2 (expr_ok A sep hsep hne e h.1)
      (term_ok A sep hsep hne t h.2)
  | .sub e t, hw =>
    have h : e.wf = true ∧ t.wf = true := by simpa [Expr.wf] using hw
    expr_sub_ok A sep hsep hne e t h.2 (expr_ok A sep hsep hne e h.1)
      (term_ok A sep hsep hne t h.2)

end

/-! ## What follows an expression, and what a call restores -/

theorem extract_cases_full (s : IStream) :
    (s.extract.1 = [] ∧ s.extract.2.toBool = false) ∨
    (∃ ws tok r, s.rest = ws ++ (tok ++ r) ∧ tok ≠ [] ∧ s.good = true ∧
      allSpace ws ∧ noSpace tok ∧ tokenEnd r ∧
      s.extract = (tok, { back := tok.reverse ++ (ws.reverse ++ s.back), rest := r,
                          eof := r.isEmpty, fail := false, bad := false })) := by
  by_cases hg : s.good = true
  · by_cases hr : (List.dropWhile isspace s.rest).isEmpty = true
    · left
      simp [IStream.extract, IStream.sentry, hg, hr, IStream.toBool]
    · right
      have hne : (s.rest.dropWhile isspace).takeWhile (fun c => !isspace c) ≠ [] := by
        cases hd : List.dropWhile isspace s.rest with
        | nil => simp [hd] at hr
        | cons a l =>
          have := List.head_dropWhile_not isspace s.rest (by simp [hd])
          simp [hd] at this
          simp [List.takeWhile, this]
      have hws : allSpace (s.rest.takeWhile isspace) := fun c hc => List.mem_takeWhile_imp hc
      have htok : noSpace ((s.rest.dropWhile isspace).takeWhile (fun c => !isspace c)) := by
        intro c hc
        simpa using List.mem_takeWhile_imp hc
      have hend : tokenEnd ((s.rest.dropWhile isspace).dropWhile (fun c => !isspace c)) := by
        intro c hc
        cases hd : (s.rest.dropWhile isspace).dropWhile (fun c => !isspace c) with
        | nil => simp [hd] at hc
        | cons a l =>
          have := List.head_dropWhile_not (fun c => !isspace c) (s.rest.dropWhile isspace)
            (by simp [hd])
          simp [hd] at this hc
          rw [← hc]; exact this
      have hsplit : s.rest = s.rest.takeWhile isspace ++
          ((s.rest.dropWhile isspace).takeWhile (fun c => !isspace c) ++
            (s.rest.dropWhile isspace).dropWhile (fun c => !isspace c)) := by simp
      exact ⟨_, _, _, hsplit, hne, hg, hws, htok, hend,
        extract_token s _ _ _ hg hsplit hws hne htok hend⟩
  · left
    simp [IStream.extract, IStream.sentry, hg, IStream.toBool]

theorem extract_of_not_toBool (s : IStream) (h : s.toBool = false) : s.extract.1 = [] := by
  have hg : s.good = false := by
    simp only [IStream.toBool, Bool.and_eq_false_iff, Bool.not_eq_false'] at h
    simp only [IStream.good, Bool.and_eq_false_iff, Bool.not_eq_false']
    rcases h with h | h
    · exact Or.inl (Or.inr h)
    · exact Or.inr h
  simp [IStream.extract, IStream.sentry, hg]

/-- After a token has been read and its last character put back, the next
token read is that one character. -/
theorem putback_then_extract (s : IStream) (c : Char) (h : s.extract.1.getLast? = some c) :
    (s.extract.2.putback c).extract.1 = [c] := by
  rcases extract_cases_full s with h1 | ⟨ws, tok, r, hr, hne, hg, hws, htok, hend, he⟩
  · rw [h1.1] at h; simp at h
  · rw [he] at h ⊢
    simp only at h
    obtain ⟨l, rfl⟩ : ∃ l, tok = l ++ [c] := ⟨tok.dropLast, (List.dropLast_append_getLast? c h).symm⟩
    have hc : isspace c = false := htok c (by simp)
    have hp : ({ back := (l ++ [c]).reverse ++ (ws.reverse ++ s.back), rest := r,
                 eof := r.isEmpty, fail := false, bad := false } : IStream).putback c
        = { back := l.reverse ++ (ws.reverse ++ s.back), rest := c :: r, eof := false,
            fail := false, bad := false } := by
      simp [IStream.putback, IStream.sentry, IStream.good]
    rw [hp]
    have := extract_token
      { back := l.reverse ++ (ws.reverse ++ s.back), rest := c :: r, eof := false,
        fail := false, bad := false } [] [c] r rfl rfl (by intro a ha; simp at ha) (by simp)
      (by intro a ha; simp at ha; subst ha; exact hc) hend
    rw [this]

/-- The token read after the loop of `evaluateExpression` has returned has at
most one character. -/
theorem token_after_expressionLoop (A : Arith D) (n : Nat) :
    ∀ (st : State D) (s : IStream) (r v : D) (s1 : IStream) (st1 : State D),
      evaluateExpressionLoop A n st s r = .ok (v, s1) st1 → s1.extract.1.length ≤ 1 := by
  induction n with
  | zero =>
    intro st s r v s1 st1 h
    rw [evaluateExpressionLoop] at h
    exact absurd h (by simp)
  | succ n ih =>
    intro st s r v s1 st1 h
    rw [evaluateExpressionLoop] at h
    try simp only at h
    split at h
    · split at h
      · obtain ⟨t, st2, -, h2⟩ := Res.bind_eq_ok h
        exact ih _ _ _ _ _ _ h2
      · split at h
        · obtain ⟨t, st2, -, h2⟩ := Res.bind_eq_ok h
          exact ih _ _ _ _ _ _ h2
        · split at h
          · obtain ⟨t, st2, -, h2⟩ := Res.bind_eq_ok h
            exact ih _ _ _ _ _ _ h2
          · split at h
            · obtain ⟨t, st2, -, h2⟩ := Res.bind_eq_ok h
              split at h2
              · exact absurd h2 (by simp)
              · exact ih _ _ _ _ _ _ h2
            · split at h
              · rename_i c hl
                obtain ⟨e1, -⟩ := Res.ok_inj h
                rw [← (Prod.mk.inj e1).2, putback_then_extract s c hl]
                simp
              · exact absurd h (by simp)
    · rename_i hb
      obtain ⟨e1, -⟩ := Res.ok_inj h
      rw [← (Prod.mk.inj e1).2, extract_of_not_toBool _ (by simpa using hb)]
      simp

theorem token_after_expression (A : Arith D) (n : Nat) (st : State D) (s : IStream) (v : D)
    (s1 : IStream) (st1 : State D) (h : evaluateExpression A n st s = .ok (v, s1) st1) :
    s1.extract.1.length ≤ 1 := by
  cases n with
  | zero => rw [evaluateExpression] at h; exact absurd h (by simp)
  | succ n =>
    rw [evaluateExpression] at h
    obtain ⟨t, st2, -, h2⟩ := Res.bind_eq_ok h
    exact token_after_expressionLoop A n _ _ _ _ _ _ h2

/-- An expression that is evaluated without error leaves the variable mapping
as it was: every call restores it. -/
theorem keeps_variables (A : Arith D) (n : Nat) :
    (∀ st s v s1 st1,
      evaluateExpression A n st s = .ok (v, s1) st1 → st1.variables_ = st.variables_) ∧
    (∀ st s r v s1 st1,
      evaluateExpressionLoop A n st s r = .ok (v, s1) st1 → st1.variables_ = st.variables_) ∧
    (∀ st s v s1 st1,
      evaluateTerm A n st s = .ok (v, s1) st1 → st1.variables_ = st.variables_) ∧
    (∀ st s r v s1 st1,
      evaluateTermLoop A n st s r = .ok (v, s1) st1 → st1.variables_ = st.variables_) ∧
    (∀ st s v s1 st1,
      evaluateFactor A n st s = .ok (v, s1) st1 → st1.variables_ = st.variables_) := by
  induction n with
  | zero =>
    refine ⟨?_, ?_, ?_, ?_, ?_⟩ <;> intros <;> rename_i h <;>
      first
        | (rw [evaluateExpression] at h; exact absurd h (by simp))
        | (rw [evaluateExpressionLoop] at h; exact absurd h (by simp))
        | (rw [evaluateTerm] at h; exact absurd h (by simp))
        | (rw [evaluateTermLoop] at h; exact absurd h (by simp))
        | (rw [evaluateFactor] at h; exact absurd h (by simp))
  | succ n ih =>
    obtain ⟨hE, hEL, hT, hTL, hF⟩ := ih
    refine ⟨?_, ?_, ?_, ?_, ?_⟩
    · intro st s v s1 st1 h
      rw [evaluateExpression] at h
      obtain ⟨r, st2, h1, h2⟩ := Res.bind_eq_ok h
      exact (hEL _ _ _ _ _ _ h2).trans (hT _ _ _ _ _ h1)
    · intro st s r v s1 st1 h
      rw [evaluateExpressionLoop] at h
      try simp only at h
      split at h
      · split at h
        · obtain ⟨t, st2, h1, h2⟩ := Res.bind_eq_ok h
          exact (hEL _ _ _ _ _ _ h2).trans (hT _ _ _ _ _ h1)
        · split at h
          · obtain ⟨t, st2, h1, h2⟩ := Res.bind_eq_ok h
            exact (hEL _ _ _ _ _ _ h2).trans (hT _ _ _ _ _ h1)
          · split at h
            · obtain ⟨t, st2, h1, h2⟩ := Res.bind_eq_ok h
              exact (hEL _ _ _ _ _ _ h2).trans (hT _ _ _ _ _ h1)
            · split at h
              · obtain ⟨t, st2, h1, h2⟩ := Res.bind_eq_ok h
                split at h2
                · exact absurd h2 (by simp)
                · exact (hEL _ _ _ _ _ _ h2).trans (hT _ _ _ _ _ h1)
              · split at h
                · rw [← (Res.ok_inj h).2]
                · exact absurd h (by simp)
      · rw [← (Res.ok_inj h).2]
    · intro st s v s1 st1 h
      rw [evaluateTerm] at h
      obtain ⟨r, st2, h1, h2⟩ := Res.bind_eq_ok h
      exact (hTL _ _ _ _ _ _ h2).trans (hF _ _ _ _ _ h1)
    · intro st s r v s1 st1 h
      rw [evaluateTermLoop] at h
      try simp only at h
      split at h
      · split at h
        · obtain ⟨t, st2, h1, h2⟩ := Res.bind_eq_ok h
          exact (hTL _ _ _ _ _ _ h2).trans (hF _ _ _ _ _ h1)
        · split at h
          · obtain ⟨t, st2, h1, h2⟩ := Res.bind_eq_ok h
            split at h2
            · exact absurd h2 (by simp)
            · exact (hTL _ _ _ _ _ _ h2).trans (hF _ _ _ _ _ h1)
          · split at h
            · rw [← (Res.ok_inj h).2]
            · exact absurd h (by simp)
      · rw [← (Res.ok_inj h).2]
    · intro st s v s1 st1 h
      rw [evaluateFactor] at h
      try simp only at h
      split at h
      · split at h
        · rw [← (Res.ok_inj h).2]
        · exact absurd h (by simp)
      · split at h
        · obtain ⟨t, st2, h1, h2⟩ := Res.bind_eq_ok h
          split at h2
          · exact absurd h2 (by simp)
          · rw [← (Res.ok_inj h2).2]; exact hE _ _ _ _ _ h1
        · split at h
          · rw [← (Res.ok_inj h).2]
          · split at h
            · split at h
              · exact absurd h (by simp)
              · obtain ⟨t, st2, h1, h2⟩ := Res.bind_eq_ok h
                split at h2
                · obtain ⟨u, st3, h3, h4⟩ := Res.bind_eq_ok h2
                  rw [← (Res.ok_inj h4).2]
                · obtain ⟨u, st3, h3, h4⟩ := Res.bind_eq_ok h2
                  rw [← (Res.ok_inj h4).2]
            · exact absurd h (by simp)

theorem peek_of_not_good (s : IStream) (h : s.good = false) : s.peek.1 = none := by
  simp [IStream.peek, IStream.sentry, h]

/-- The character after a token read by `iss >> token` is white space or the
end: `peek()` never returns `=` there. -/
theorem peek_after_extract (s : IStream) : s.extract.2.peek.1 ≠ some '=' := by
  rcases extract_cases_full s with h1 | ⟨ws, tok, r, hr, hne, hg, hws, htok, hend, he⟩
  · have hg : s.extract.2.good = false := by
      have := h1.2
      simp only [IStream.toBool, Bool.and_eq_false_iff, Bool.not_eq_false'] at this
      simp only [IStream.good, Bool.and_eq_false_iff, Bool.not_eq_false']
      rcases this with h | h
      · exact Or.inl (Or.inr h)
      · exact Or.inr h
    rw [peek_of_not_good _ hg]
    simp
  · rw [he]
    cases r with
    | nil => simp [IStream.peek, IStream.sentry, IStream.good]
    | cons a l =>
      have ha : isspace a = true := hend a (by simp)
      simp only [IStream.peek, IStream.sentry, IStream.good, List.isEmpty_cons, Bool.not_false,
        Bool.and_self, if_true]
      intro h
      simp at h
      subst h
      simp [isspace] at ha

theorem ne_of_length_le_one {tok kw : Str} (h : tok.length ≤ 1) (hk : 2 ≤ kw.length) :
    tok ≠ kw := by
  intro e
  rw [e] at h
  omega

/-! ## Errors in expressions without calls -/

theorem Res.stopsIn_bind {σ α β : Type} {r : Res σ α} {k : α → σ → Res σ β} {st : σ}
    (h : r.stopsIn st) (hk : ∀ a, r = .ok a st → (k a st).stopsIn st) :
    (r.bind k).stopsIn st := by
  cases r with
  | ok a st1 =>
    have e : st1 = st := h st1 rfl
    subst e
    exact hk a rfl
  | err msg st1 => exact h
  | undef st1 => exact h
  | timeout => exact h

theorem Res.stopsIn_ok {σ α : Type} (a : α) (st : σ) : (Res.ok a st : Res σ α).stopsIn st :=
  fun _ h => (Option.some.inj h).symm

theorem Res.stopsIn_err {σ α : Type} (msg : Str) (st : σ) :
    (Res.err msg st : Res σ α).stopsIn st :=
  fun _ h => (Option.some.inj h).symm

theorem Res.stopsIn_undef {σ α : Type} (st : σ) : (Res.undef st : Res σ α).stopsIn st :=
  fun _ h => (Option.some.inj h).symm

theorem Res.stopsIn_timeout {σ α : Type} (st : σ) : (Res.timeout : Res σ α).stopsIn st :=
  fun _ h => by simp [Res.state?] at h

/-- An expression in which no function name occurs stops, with a value or
with an error, in the state in which its evaluation began. -/
theorem no_call_frame (A : Arith D) (n : Nat) :
    (∀ st s, noCallIn st.functions_ s.rest → (evaluateExpression A n st s).stopsIn st) ∧
    (∀ st s r, noCallIn st.functions_ s.rest →
      (evaluateExpressionLoop A n st s r).stopsIn st) ∧
    (∀ st s, noCallIn st.functions_ s.rest → (evaluateTerm A n st s).stopsIn st) ∧
    (∀ st s r, noCallIn st.functions_ s.rest → (evaluateTermLoop A n st s r).stopsIn st) ∧
    (∀ st s, noCallIn st.functions_ s.rest → (evaluateFactor A n st s).stopsIn st) := by
  induction n with
  | zero =>
    refine ⟨?_, ?_, ?_, ?_, ?_⟩ <;> intros <;>
      first
        | (rw [evaluateExpression]; exact Res.stopsIn_timeout _)
        | (rw [evaluateExpressionLoop]; exact Res.stopsIn_timeout _)
        | (rw [evaluateTerm]; exact Res.stopsIn_timeout _)
        | (rw [evaluateTermLoop]; exact Res.stopsIn_timeout _)
        | (rw [evaluateFactor]; exact Res.stopsIn_timeout _)
  | succ n ih =>
    obtain ⟨hE, hEL, hT, hTL, hF⟩ := ih
    obtain ⟨gE, gEL, gT, gTL, gF⟩ := no_call_state A n
    -- a term followed by the loop of `evaluateExpression`
    have stepE : ∀ (st : State D) (s s0 : IStream) (f : D → D),
        noCallIn st.functions_ s.rest → s0.rest <:+ s.rest →
        ((evaluateTerm A n st s0).bind fun t st1 =>
          evaluateExpressionLoop A n st1 t.2 (f t.1)).stopsIn st := by
      intro st s s0 f hc hs
      refine Res.stopsIn_bind (hT st s0 (noCallIn_suffix hc hs)) ?_
      intro a ha
      obtain ⟨x, s2⟩ := a
      have := (gT st s0 x s2 st (noCallIn_suffix hc hs) ha).2
      exact hEL st s2 _ (noCallIn_suffix hc (this.trans hs))
    have stepT : ∀ (st : State D) (s s0 : IStream) (f : D → D),
        noCallIn st.functions_ s.rest → s0.rest <:+ s.rest →
        ((evaluateFactor A n st s0).bind fun t st1 =>
          evaluateTermLoop A n st1 t.2 (f t.1)).stopsIn st := by
      intro st s s0 f hc hs
      refine Res.stopsIn_bind (hF st s0 (noCallIn_suffix hc hs)) ?_
      intro a ha
      obtain ⟨x, s2⟩ := a
      have := (gF st s0 x s2 st (noCallIn_suffix hc hs) ha).2
      exact hTL st s2 _ (noCallIn_suffix hc (this.trans hs))
    refine ⟨?_, ?_, ?_, ?_, ?_⟩
    · intro st s hc
      rw [evaluateExpression]
      exact stepE st s s (fun x => x) hc (List.suffix_refl _)
    · intro st s r hc
      have hx := extract_rest_suffix s
      rw [evaluateExpressionLoop]
      try simp only
      split
      · split
        · exact stepE st s _ _ hc hx
        · split
          · exact stepE st s _ _ hc hx
          · split
            · exact stepE st s _ _ hc hx
            · split
              · refine Res.stopsIn_bind (hT st _ (noCallIn_suffix hc hx)) ?_
                intro a ha
                obtain ⟨x, s2⟩ := a
                have := (gT st _ x s2 st (noCallIn_suffix hc hx) ha).2
                split
                · exact Res.stopsIn_err _ _
                · exact hEL st s2 _ (noCallIn_suffix hc (this.trans hx))
              · split
                · exact Res.stopsIn_ok _ _
                · exact Res.stopsIn_undef _
      · exact Res.stopsIn_ok _ _
    · intro st s hc
      rw [evaluateTerm]
      exact stepT st s s (fun x => x) hc (List.suffix_refl _)
    · intro st s r hc
      have hx := extract_rest_suffix s
      rw [evaluateTermLoop]
      try simp only
      split
      · split
        · exact stepT st s _ _ hc hx
        · split
          · refine Res.stopsIn_bind (hF st _ (noCallIn_suffix hc hx)) ?_
            intro a ha
            obtain ⟨x, s2⟩ := a
            have := (gF st _ x s2 st (noCallIn_suffix hc hx) ha).2
            split
            · exact Res.stopsIn_err _ _
            · exact hTL st s2 _ (noCallIn_suffix hc (this.trans hx))
          · split
            · exact Res.stopsIn_ok _ _
            · exact Res.stopsIn_undef _
      · exact Res.stopsIn_ok _ _
    · intro st s hc
      have hx := extract_rest_suffix s
      rw [evaluateFactor]
      try simp only
      split
      · split
        · exact Res.stopsIn_ok _ _
        · exact Res.stopsIn_err _ _
      · split
        · refine Res.stopsIn_bind (hE st _ (noCallIn_suffix hc hx)) ?_
          intro a ha
          split
          · exact Res.stopsIn_err _ _
          · exact Res.stopsIn_ok _ _
        · split
          · exact Res.stopsIn_ok _ _
          · split
            · rename_i fn hfn
              exact absurd (extract_token_within s) (hc _ (findKey_mem hfn))
            · exact Res.stopsIn_err _ _

/-- The statement `return 1` where a function is active and `return` is no
variable. -/
theorem return_one_accepted (A : Arith D) (m : Nat) (st : State D) (one : D)
    (hcur : st.currentFunction_ ≠ []) (hnv : hasKey st.variables_ "return".toList = false)
    (hone : A.stod "1".toList = some one) (hm : 5 ≤ m) :
    evaluateStatement A m st "return 1".toList
      = .ok () { st with currentFunctionReturnValue_ := one } := by
  have hd := (return_dispatch A 4 st [] " 1".toList (by intro c hc; simp at hc)
    (by unfold tokenEnd; decide) hnv).2
  have e0 : (IStream.ofStr ([] ++ ("return".toList ++ " 1".toList))).extract.2
      = IStream.mk "nruter".toList " 1".toList false false false := by decide
  have e1 : (IStream.mk "nruter".toList " 1".toList false false false).extract
      = ("1".toList, IStream.mk "1 nruter".toList [] true false false) := by decide
  have e2 : (IStream.mk "1 nruter".toList [] true false false).extract
      = ([], IStream.mk "1 nruter".toList [] true true false) := by decide
  have e3 : (IStream.mk "1 nruter".toList [] true true false).extract
      = ([], IStream.mk "1 nruter".toList [] true true false) := by decide
  have hk : ∀ k, evaluateExpression A (k + 3) st
      (IStream.mk "nruter".toList " 1".toList false false false)
      = .ok (one, IStream.mk "1 nruter".toList [] true true false) st := by
    intro k
    rw [evaluateExpression, evaluateTerm, evaluateFactor]
    simp only [e1]
    rw [if_pos (by decide), hone]
    simp only [Res.bind]
    rw [evaluateTermLoop]
    simp only [e2]
    rw [if_neg (by decide)]
    simp only [Res.bind]
    rw [evaluateExpressionLoop]
    simp only [e3]
    rw [if_neg (by decide)]
  have hx : evaluateExpression A 3 st (IStream.mk "nruter".toList " 1".toList false false false)
      = .ok (one, IStream.mk "1 nruter".toList [] true true false) st := hk 0
  have h5 : evaluateStatement A 5 st "return 1".toList
      = .ok () { st with currentFunctionReturnValue_ := one } := by
    have : "return 1".toList = [] ++ ("return".toList ++ " 1".toList) := by decide
    rw [this, hd, handleFunctionReturn, e0, hx]
    simp [Res.bind, hcur]
  exact evaluateStatement_mono A h5 (by simp) hm

/-! ## Definitions and their bodies -/

theorem getline_fst_no_delim (s : IStream) (d : Char) : ∀ c ∈ (s.getline d).1, c ≠ d := by
  intro c hc
  by_cases hg : s.good = true
  · simp only [IStream.getline, IStream.sentry, hg, if_true] at hc
    have hm : c ∈ s.rest.takeWhile (fun c => c != d) := by
      split at hc <;> exact hc
    simpa using List.mem_takeWhile_imp hm
  · simp [IStream.getline, IStream.sentry, hg] at hc

theorem ofStr_getline_all (body : Str) (hne : body ≠ []) (hnl : ∀ c ∈ body, c ≠ '\n') :
    (IStream.ofStr body).getline '\n'
      = (body, IStream.mk body.reverse [] true false false) := by
  have h1 : body.takeWhile (fun c => c != '\n') = body :=
    List.takeWhile_eq_self_iff.2 (fun c hc => by simpa using hnl c hc)
  have h2 : body.dropWhile (fun c => c != '\n') = [] :=
    List.dropWhile_eq_nil_iff.2 (fun c hc => by simpa using hnl c hc)
  have h3 : body.isEmpty = false := by
    cases body with
    | nil => exact absurd rfl hne
    | cons a l => rfl
  simp [IStream.getline, IStream.sentry, IStream.good, IStream.ofStr, h1, h2, h3]

theorem Res.bind_congr_ok {σ α β : Type} {r : Res σ α} {k k1 : α → σ → Res σ β}
    (h : ∀ a st, r = .ok a st → k a st = k1 a st) : r.bind k = r.bind k1 := by
  cases r with
  | ok a st => exact h a st rfl
  | err msg st => rfl
  | undef st => rfl
  | timeout => rfl

theorem Res.bind_err_bind {σ α β γ : Type} (r : Res σ α) (msg : Str) (k : β → σ → Res σ γ) :
    ((r.bind fun _ st => (.err msg st : Res σ β)).bind k)
      = r.bind fun _ st => (.err msg st : Res σ γ) := by
  cases r <;> rfl

/-- A block of one line runs that line as a statement. -/
theorem evaluateBlock_one_line (A : Arith D) (n : Nat) (st : State D) (body : Str)
    (hne : body ≠ []) (hnl : ∀ c ∈ body, c ≠ '\n') :
    evaluateBlock A (n + 2) st body
      = (evaluateStatement A n st body).bind fun _ st1 =>
          evaluateBlockLoop A n st1 (IStream.mk body.reverse [] true false false) := by
  rw [evaluateBlock, evaluateBlockLoop]
  simp only [ofStr_getline_all body hne hnl]
  rw [if_pos (by simp [IStream.toBool])]

/-- A `return` statement while no function is active. -/
theorem return_outside (A : Arith D) (n : Nat) (st : State D) (iss : IStream)
    (hcur : st.currentFunction_ = []) :
    handleFunctionReturn A (n + 1) st iss
      = (evaluateExpression A n st iss).bind fun _ st1 =>
          .err "'return' statement outside of a function".toList st1 := by
  rw [handleFunctionReturn]
  apply Res.bind_congr_ok
  intro a st1 h
  obtain ⟨v, s1⟩ := a
  have := (no_active_after A n).1 st iss v s1 st1 hcur h
  simp [this]

/-! ## A call behind `return` -/

/-- An expression whose first token is no number, no `(` and no variable is a
call when it is evaluated without error, and the call leaves no function
active. -/
theorem call_first_clears (A : Arith D) (n : Nat) (st st1 : State D) (s s1 : IStream) (v : D)
    (hnum : isNumberToken s.extract.1 = false) (hparen : s.extract.1 ≠ "(".toList)
    (hvar : findKey st.variables_ s.extract.1 = none)
    (h : evaluateExpression A n st s = .ok (v, s1) st1) : st1.currentFunction_ = [] := by
  cases n with
  | zero => rw [evaluateExpression] at h; exact absurd h (by simp)
  | succ n =>
    rw [evaluateExpression] at h
    obtain ⟨r, st2, hT, hEL⟩ := Res.bind_eq_ok h
    refine (no_active_after A n).2.1 st2 r.2 r.1 v s1 st1 ?_ hEL
    cases n with
    | zero => rw [evaluateTerm] at hT; exact absurd hT (by simp)
    | succ n =>
      rw [evaluateTerm] at hT
      obtain ⟨r1, st3, hF, hTL⟩ := Res.bind_eq_ok hT
      obtain ⟨v2, s2⟩ := r
      refine (no_active_after A n).2.2.2.1 st3 r1.2 r1.1 v2 s2 st2 ?_ hTL
      cases n with
      | zero => rw [evaluateFactor] at hF; exact absurd hF (by simp)
      | succ n =>
        rw [evaluateFactor] at hF
        simp only [hnum, hparen, hvar, Bool.false_eq_true, if_false] at hF
        split at hF
        · split at hF
          · exact absurd hF (by simp)
          · obtain ⟨iss3, st4, -, hK⟩ := Res.bind_eq_ok hF
            split at hK
            · obtain ⟨u, st5, -, hK2⟩ := Res.bind_eq_ok hK
              rw [← (Res.ok_inj hK2).2]
            · obtain ⟨u, st5, -, hK2⟩ := Res.bind_eq_ok hK
              rw [← (Res.ok_inj hK2).2]
        · exact absurd hF (by simp)


/-- The line ` return g ( )` runs without error only where `g` is a variable:
were `g` a function, the `return` would find no function active after the
call. -/
theorem return_call_needs_variable (A : Arith D) (m : Nat) (st st1 : State D)
    (h : evaluateStatement A m st " return g ( )".toList = .ok () st1) :
    hasKey st.variables_ "g".toList = true := by
  have e0 : (IStream.ofStr " return g ( )".toList).extract
      = ("return".toList, IStream.mk "nruter ".toList " g ( )".toList false false false) := by
    decide
  have e1 : (IStream.mk "nruter ".toList " g ( )".toList false false false).extractChar.1
      = some 'g' := by decide
  have e2 : (IStream.mk "nruter ".toList " g ( )".toList false false false).extract.1
      = "g".toList := by decide
  cases m with
  | zero => rw [evaluateStatement] at h; exact absurd h (by simp)
  | succ m =>
    rw [evaluateStatement] at h
    simp only [e0] at h
    rw [if_neg (by decide)] at h
    split at h
    · cases m with
      | zero => rw [handleVariableAssignment] at h; exact absurd h (by simp)
      | succ m =>
        rw [handleVariableAssignment] at h
        simp only [e1] at h
        rw [if_pos (by decide)] at h
        exact absurd h (by simp)
    · rw [if_neg (by decide), if_neg (by decide), if_neg (by decide), if_pos trivial] at h
      cases m with
      | zero => rw [handleFunctionReturn] at h; exact absurd h (by simp)
      | succ m =>
        rw [handleFunctionReturn] at h
        obtain ⟨r, st2, hE, hK⟩ := Res.bind_eq_ok h
        obtain ⟨v, s1⟩ := r
        cases hv : findKey st.variables_ "g".toList with
        | some x => rw [hasKey, hv]; rfl
        | none =>
          have hc := call_first_clears A m st st2 _ s1 v (by rw [e2]; decide)
            (by rw [e2]; decide) (by rw [e2]; exact hv) hE
          rw [if_neg (by simp [hc])] at hK
          exact absurd hK (by simp)

/-- The line `func f { return g ( )` is accepted only where `g` is a variable,
and leaves the variable mapping as it was. -/
theorem definition_needs_variable (A : Arith D) (m : Nat) (st st1 : State D)
    (h : evaluateStatement A m st "func f \x7b return g ( )".toList = .ok () st1) :
    hasKey st.variables_ "g".toList = true := by
  have e0 : (IStream.ofStr "func f \x7b return g ( )".toList).extract
      = ("func".toList,
         IStream.mk "cnuf".toList " f \x7b return g ( )".toList false false false) := by
    decide
  have e1 : (IStream.mk "cnuf".toList " f \x7b return g ( )".toList false false
      false).extractChar.1 = some 'f' := by decide
  have e2 : (((IStream.mk "cnuf".toList " f \x7b return g ( )".toList false false
      false).extract.2.getline '\x7b').2.getline '\n').1 = " return g ( )".toList := by decide
  have e3 : (IStream.ofStr " return g ( )".toList).getline '\n'
      = (" return g ( )".toList,
         IStream.mk ") ( g nruter ".toList [] true false false) := by decide
  cases m with
  | zero => rw [evaluateStatement] at h; exact absurd h (by simp)
  | succ m =>
    rw [evaluateStatement] at h
    simp only [e0] at h
    rw [if_neg (by decide)] at h
    split at h
    · cases m with
      | zero => rw [handleVariableAssignment] at h; exact absurd h (by simp)
      | succ m =>
        rw [handleVariableAssignment] at h
        simp only [e1] at h
        rw [if_pos (by decide)] at h
        exact absurd h (by simp)
    · rw [if_neg (by decide), if_neg (by decide), if_pos trivial] at h
      cases m with
      | zero => rw [handleFunctionDefinition] at h; exact absurd h (by simp)
      | succ m =>
        rw [handleFunctionDefinition] at h
        split at h
        · exact absurd h (by simp)
        · simp only [e2] at h
          obtain ⟨u, st2, hB, -⟩ := Res.bind_eq_ok h
          cases m with
          | zero => rw [evaluateBlock] at hB; exact absurd hB (by simp)
          | succ m =>
            rw [evaluateBlock] at hB
            cases m with
            | zero => rw [evaluateBlockLoop] at hB; exact absurd hB (by simp)
            | succ m =>
              rw [evaluateBlockLoop] at hB
              simp only [e3] at hB
              rw [if_pos (by decide)] at hB
              obtain ⟨u1, st3, hS, -⟩ := Res.bind_eq_ok hB
              exact return_call_needs_variable A m st st3 hS


/-- The expression ` g ( )` behind `return`, where `g` is a variable: its
value is that of the variable, and the token `(` ends the expression. -/
theorem variable_then_paren (A : Arith D) (j : Nat) (st : State D) (v : D)
    (hg : findKey st.variables_ "g".toList = some v) :
    evaluateExpression A (j + 3) st
        (IStream.mk "nruter ".toList " g ( )".toList false false false)
      = .ok (v, IStream.mk " g nruter ".toList "( )".toList false false false) st := by
  have i1 : (IStream.mk "nruter ".toList " g ( )".toList false false false).extract
      = ("g".toList, IStream.mk "g nruter ".toList " ( )".toList false false false) := by
    decide
  have i2 : (IStream.mk "g nruter ".toList " ( )".toList false false false).extract
      = ("(".toList, IStream.mk "( g nruter ".toList " )".toList false false false) := by
    decide
  have i3 : (IStream.mk "( g nruter ".toList " )".toList false false false).putback '('
      = IStream.mk " g nruter ".toList "( )".toList false false false := by decide
  have i4 : (IStream.mk " g nruter ".toList "( )".toList false false false).extract
      = ("(".toList, IStream.mk "( g nruter ".toList " )".toList false false false) := by
    decide
  have i5 : "(".toList.getLast? = some '(' := by decide
  rw [evaluateExpression, evaluateTerm, evaluateFactor]
  simp only [i1]
  rw [if_neg (by decide), if_neg (by decide), hg]
  simp only [Res.bind]
  rw [evaluateTermLoop]
  simp only [i2]
  rw [if_pos (by decide), if_neg (by decide), if_neg (by decide)]
  simp only [i5, i3, Res.bind]
  rw [evaluateExpressionLoop]
  simp only [i4]
  rw [if_pos (by decide), if_neg (by decide), if_neg (by decide), if_neg (by decide),
    if_neg (by decide)]
  simp only [i5, i3]

/-- The call `f ( )` of a function without parameters whose body is
` return g ( )`, where `g` is a variable and no function is active. -/
theorem shadowed_call_value (A : Arith D) (k : Nat) (st : State D) (v : D)
    (hf : findKey st.functions_ "f".toList = some ([], " return g ( )".toList))
    (hfv : findKey st.variables_ "f".toList = none)
    (hg : findKey st.variables_ "g".toList = some v)
    (hret : hasKey st.variables_ "return".toList = false)
    (hcur : st.currentFunction_ = []) :
    evaluateExpression A (k + 10) st (IStream.ofStr "f ( )".toList)
      = .ok (v, IStream.mk " ( f".toList [')'] false false false)
          { st with currentFunctionReturnValue_ := v } := by
  have o1 : (IStream.ofStr "f ( )".toList).extract
      = ("f".toList, IStream.mk "f".toList " ( )".toList false false false) := by decide
  have o2 : (IStream.mk "f".toList " ( )".toList false false false).extract
      = ("(".toList, IStream.mk "( f".toList " )".toList false false false) := by decide
  have o3 : (IStream.mk "( f".toList " )".toList false false false).extract
      = (")".toList, IStream.mk ") ( f".toList [] true false false) := by decide
  have o4 : (IStream.mk ") ( f".toList [] true false false).putback ')'
      = IStream.mk " ( f".toList [')'] false false false := by decide
  have o5 : (IStream.mk " ( f".toList [')'] false false false).extract
      = (")".toList, IStream.mk ") ( f".toList [] true false false) := by decide
  have o6 : ")".toList.getLast? = some ')' := by decide
  have b1 : (IStream.ofStr ([' '] ++ ("return".toList ++ " g ( )".toList))).extract.2
      = IStream.mk "nruter ".toList " g ( )".toList false false false := by decide
  have b2 : ((IStream.mk ") ( g nruter ".toList [] true false false).getline '\n').2.toBool
      = false := by decide
  have hbody : ∀ st0 : State D, findKey st0.variables_ "g".toList = some v →
      hasKey st0.variables_ "return".toList = false → st0.currentFunction_ ≠ [] →
      evaluateBlock A (k + 7) st0 " return g ( )".toList
        = .ok () { st0 with currentFunctionReturnValue_ := v } := by
    intro st0 h0 hr hc
    have hd := (return_dispatch A (k + 4) st0 [' '] " g ( )".toList
      (by intro c hc; simp at hc; subst hc; decide) (by unfold tokenEnd; decide) hr).2
    have hs : evaluateStatement A (k + 5) st0 " return g ( )".toList
        = .ok () { st0 with currentFunctionReturnValue_ := v } := by
      have : " return g ( )".toList = [' '] ++ ("return".toList ++ " g ( )".toList) := by
        decide
      rw [this, hd, handleFunctionReturn, b1, variable_then_paren A k st0 v h0]
      simp [Res.bind, hc]
    rw [evaluateBlock_one_line A (k + 5) st0 _ (by decide) (by decide), hs]
    simp only [Res.bind]
    rw [evaluateBlockLoop]
    rw [if_neg (by rw [show " return g ( )".toList.reverse = ") ( g nruter ".toList from by decide, b2]; decide)]
  rw [evaluateExpression, evaluateTerm, evaluateFactor]
  simp only [o1]
  rw [if_neg (by decide), if_neg (by decide), hfv]
  simp only [hf, o2]
  rw [if_neg (by decide), bindArguments]
  simp only [Res.bind]
  rw [if_pos (by rw [hcur]; decide),
    hbody { st with currentFunction_ := "f".toList, currentFunctionReturnValue_ := A.zero }
      hg hret (by simp)]
  simp only [Res.bind]
  rw [evaluateTermLoop]
  simp only [o3]
  rw [if_pos (by decide), if_neg (by decide), if_neg (by decide)]
  simp only [o6, o4, Res.bind]
  rw [evaluateExpressionLoop]
  simp only [o5]
  rw [if_pos (by decide), if_neg (by decide), if_neg (by decide), if_neg (by decide),
    if_neg (by decide)]
  simp only [o6, o4, hcur]

/-! ## The claims -/

/-- C1. On the line `var x = 5` in the initial state the code declares `x`
and never reads the initializer: `x` is bound to `0.0`, and a later read of
`x` by `evaluateFactor` yields `0.0`, not the `5.0` of the literal. -/
theorem var_initializer_not_read (n : Nat) :
    evaluateStatement exactArith (n + 2) (initialState exactArith) "var x = 5".toList
      = .ok () stateAfterVarX ∧
    evaluateFactor exactArith (n + 1) stateAfterVarX (IStream.ofStr "x".toList)
      = .ok (0, { back := ['x'], rest := [], eof := true, fail := false, bad := false })
          stateAfterVarX ∧
    exactArith.stod "5".toList = some 5 ∧ (0 : ℚ) ≠ 5 := by
  refine ⟨evaluateStatement_mono exactArith (n := 2) (by decide!) (by simp) (by omega),
    evaluateFactor_mono exactArith (n := 1) (by decide!) (by simp) (by omega),
    by decide!, by decide⟩

/-- C2. Declaring a name that is already a variable throws "Variable already
declared: " followed by the name, in an unchanged state. -/
theorem duplicate_declaration (A : Arith D) (n : Nat) (st : State D)
    (ws1 ws2 name tail : Str) (hws1 : allSpace ws1) (hws2 : allSpace ws2)
    (hsep : ws2 ≠ []) (hne : name ≠ []) (hname : noSpace name) (htail : tokenEnd tail)
    (hin : hasKey st.variables_ name = true) :
    evaluateStatement A (n + 2) st (ws1 ++ ("var".toList ++ (ws2 ++ (name ++ tail))))
      = .err ("Variable already declared: ".toList ++ name) st := by
  have hend : tokenEnd (ws2 ++ (name ++ tail)) := by
    obtain ⟨a, ws, rfl⟩ := List.exists_cons_of_ne_nil hsep
    intro c hc
    simp at hc
    subst hc
    exact hws2 _ (by simp)
  have h1 := extract_token (IStream.ofStr (ws1 ++ ("var".toList ++ (ws2 ++ (name ++ tail)))))
    ws1 "var".toList (ws2 ++ (name ++ tail)) rfl rfl hws1 (by decide)
    (by unfold noSpace; decide) hend
  rw [evaluateStatement]
  simp only [h1, if_true]
  rw [handleVariableDeclaration]
  have h2 := extract_token
    { back := "var".toList.reverse ++ (ws1.reverse ++ (IStream.ofStr (ws1 ++ ("var".toList ++ (ws2 ++ (name ++ tail))))).back),
      rest := ws2 ++ (name ++ tail), eof := (ws2 ++ (name ++ tail)).isEmpty, fail := false, bad := false }
    ws2 name tail (by
      obtain ⟨a, ws, rfl⟩ := List.exists_cons_of_ne_nil hsep
      simp [IStream.good]) rfl hws2 hne hname htail
  simp only [h2, hin, if_true]

theorem duplicate_declaration_witness :
    evaluateStatement exactArith 2 (initialState exactArith) "var pi = 3".toList
      = .err "Variable already declared: pi".toList (initialState exactArith) :=
  duplicate_declaration exactArith 0 (initialState exactArith) [] " ".toList "pi".toList
    " = 3".toList (by unfold allSpace; decide) (by unfold allSpace; decide) (by decide)
    (by decide) (by unfold noSpace; decide) (by unfold tokenEnd; decide) (by decide)

/-- C3. On the line `if 1 then var y = 1` in the initial state the code
throws "Expected 'then' after condition" and `y` is not declared: the
evaluators put back only the last character of `then`, so the handler reads
the token `n`. -/
theorem if_then_not_recognised (n : Nat) :
    evaluateStatement exactArith (n + 6) (initialState exactArith)
        "if 1 then var y = 1".toList
      = .err "Expected 'then' after condition".toList (initialState exactArith) ∧
    hasKey (initialState exactArith).variables_ "y".toList = false := by
  refine ⟨evaluateStatement_mono exactArith (n := 6) (by decide!) (by simp) (by omega),
    by decide⟩

/-- C4. On the line `for var i = 0 { i - 3 do var i = i + 1 end` in the
initial state the code declares `i`, evaluates the guard once and throws
"Expected 'do' after condition": the body is not executed and `i` stays
`0.0`. -/
theorem for_do_not_recognised (n : Nat) :
    evaluateStatement exactArith (n + 7) (initialState exactArith)
        "for var i = 0 \x7b i - 3 do var i = i + 1 end".toList
      = .err "Expected 'do' after condition".toList stateAfterVarI := by
  exact evaluateStatement_mono exactArith (n := 7) (by decide!) (by simp) (by omega)

/-- C5, as stated, fails.  On the line `func add a b { return a + b` in the
initial state the code runs the body before it stores the function: the
body throws "Invalid expression: a" and nothing is stored.  And `add(2,3)`,
written without white space, is one token: "Invalid expression: add(2,3)". -/
theorem func_add_counterexample :
    evaluateStatement exactArith 9 (initialState exactArith)
        "func add a b \x7b return a + b".toList
      = .err "Invalid expression: a".toList (initialState exactArith) ∧
    findKey (initialState exactArith).functions_ "add".toList = none ∧
    evaluateExpression exactArith 3 (initialState exactArith)
        (IStream.ofStr "add(2,3)".toList)
      = .err "Invalid expression: add(2,3)".toList (initialState exactArith) ∧
    evaluateExpression exactArith 3 stateWithAdd (IStream.ofStr "add(2,3)".toList)
      = .err "Invalid expression: add(2,3)".toList stateWithAdd := by
  decide!

/-- C5, amended. With `add` in the function table of the initial state, with
parameters `a`, `b` and body ` return a + b`, the expression `add ( 2 , 3 )`,
written with white space between the tokens, evaluates to `5.0`; the call
leaves the variable mapping as it was, no function active and the pending
return value `5.0`. -/
theorem call_add_with_space (n : Nat) :
    evaluateExpression exactArith (n + 11) stateWithAdd
        (IStream.ofStr "add ( 2 , 3 )".toList)
      = .ok (5, { back := " 3 , 2 ( dda".toList, rest := [')'], eof := false, fail := false,
                  bad := false })
          { stateWithAdd with currentFunctionReturnValue_ := 5 } := by
  exact evaluateExpression_mono exactArith (n := 11) (by decide!) (by simp) (by omega)

/-- C6. `evaluateExpression` refines the grammar: on the text of a well-formed
expression over non-negative number literals, `+`, `-`, `*`, `/` and
parentheses, written with white space `sep` between the tokens, it returns
the reference value (with `*` and `/` binding tighter, equal precedence
grouped to the left, parentheses grouping) in an unchanged state, for every
fuel from some bound on, provided the reference value exists (no divisor is
zero). -/
theorem expression_refines_grammar (A : Arith D) (sep : Str) (e : Expr) (v : D)
    (st : State D) (hsep : allSpace sep) (hne : sep ≠ []) (hwf : e.wf = true)
    (hv : e.value A = some v) :
    ∃ N, ∀ n, N ≤ n → ∃ s1,
      evaluateExpression A n st (IStream.ofStr (e.text sep)) = .ok (v, s1) st := by
  obtain ⟨N, h⟩ := expr_full (expr_ok A sep hsep hne e hwf) hv
  refine ⟨N, fun n hn => ?_⟩
  obtain ⟨c, t, h1, h2⟩ := expr_text_head sep e hwf
  obtain ⟨s1, h3, -⟩ := h n hn st (IStream.ofStr (e.text sep)) (e.text sep) []
    ⟨rfl, rfl, rfl, by simp [IStream.ofStr]⟩
    (by rw [h1]; simp [List.dropWhile, h2]) (by intro c hc; simp at hc)
    (by intro c r hr; simp at hr)
  exact ⟨s1, h3⟩

theorem expression_refines_grammar_witness :
    (∃ N, ∀ n, N ≤ n → ∃ s1,
      evaluateExpression exactArith n (initialState exactArith)
        (IStream.ofStr "2 + 3 * 4".toList) = .ok (14, s1) (initialState exactArith)) ∧
    (∃ N, ∀ n, N ≤ n → ∃ s1,
      evaluateExpression exactArith n (initialState exactArith)
        (IStream.ofStr "10 - 2 - 3".toList) = .ok (5, s1) (initialState exactArith)) ∧
    (∃ N, ∀ n, N ≤ n → ∃ s1,
      evaluateExpression exactArith n (initialState exactArith)
        (IStream.ofStr "( 2 + 3 ) * 4".toList) = .ok (20, s1) (initialState exactArith)) :=
  ⟨expression_refines_grammar exactArith " ".toList exampleSum 14 (initialState exactArith)
      (by unfold allSpace; decide) (by decide) (by decide) (by decide!),
   expression_refines_grammar exactArith " ".toList exampleDifference 5
      (initialState exactArith) (by unfold allSpace; decide) (by decide) (by decide)
      (by decide!),
   expression_refines_grammar exactArith " ".toList exampleProduct 20
      (initialState exactArith) (by unfold allSpace; decide) (by decide) (by decide)
      (by decide!)⟩

/-- C7, as stated, fails: `(2 + 3) * 4` begins with the token `(2`, which is
no number, no `(`, no variable and no function. -/
theorem paren_without_space_counterexample :
    evaluateExpression exactArith 3 (initialState exactArith)
        (IStream.ofStr "(2 + 3) * 4".toList)
      = .err "Invalid expression: (2".toList (initialState exactArith) := by
  decide!

/-- C7, amended. With white space around the parentheses, `( 2 + 3 ) * 4`
evaluates to `20.0` in an unchanged state. -/
theorem paren_with_space (n : Nat) :
    evaluateExpression exactArith (n + 7) (initialState exactArith)
        (IStream.ofStr "( 2 + 3 ) * 4".toList)
      = .ok (20, { back := "4 * ) 3 + 2 (".toList, rest := [], eof := true, fail := true,
                   bad := false }) (initialState exactArith) := by
  exact evaluateExpression_mono exactArith (n := 7) (by decide!) (by simp) (by omega)

/-- C8. When a factor `A` has been evaluated without error, the next token is
`/` and the factor after it evaluates to exactly `0.0`, evaluation throws
"Division by zero" and returns no value: in the loop of `evaluateTerm`
whatever value `result` has been accumulated, and so in `evaluateExpression`
on `A / B`. -/
theorem division_by_zero (A : Arith D) (n m k : Nat) (st st1 st2 : State D)
    (iss iss1 iss2 : IStream) (a b result : D)
    (hA : evaluateFactor A n st iss = .ok (a, iss1) st1)
    (hop : iss1.extract.1 = "/".toList)
    (hB : evaluateFactor A n st1 iss1.extract.2 = .ok (b, iss2) st2)
    (hz : A.isZero b = true) (hm : n + 3 ≤ m) (hk : n + 1 ≤ k) :
    evaluateExpression A m st iss = .err "Division by zero".toList st2 ∧
    evaluateTermLoop A k st1 iss1 result = .err "Division by zero".toList st2 := by
  have hloop : ∀ result, evaluateTermLoop A (n + 1) st1 iss1 result
      = .err "Division by zero".toList st2 := by
    intro result
    have hb := extract_toBool_of_ne_nil iss1 (by rw [hop]; decide)
    rw [evaluateTermLoop]
    simp only [hb, hop, if_true]
    rw [if_neg (by decide), hB]
    simp [Res.bind, hz]
  refine ⟨?_, evaluateTermLoop_mono A (hloop result) (by simp) hk⟩
  have hA1 : evaluateFactor A (n + 1) st iss = .ok (a, iss1) st1 :=
    evaluateFactor_mono A hA (by simp) (by omega)
  have h3 : evaluateExpression A (n + 3) st iss = .err "Division by zero".toList st2 := by
    rw [evaluateExpression, evaluateTerm, hA1]
    simp [Res.bind, hloop]
  exact evaluateExpression_mono A h3 (by simp) hm

theorem division_by_zero_witness :
    evaluateExpression exactArith 4 (initialState exactArith) (IStream.ofStr "1 / 0".toList)
      = .err "Division by zero".toList (initialState exactArith) ∧
    evaluateTermLoop exactArith 2 (initialState exactArith)
      { back := ['1'], rest := " / 0".toList, eof := false, fail := false, bad := false } 6
      = .err "Division by zero".toList (initialState exactArith) :=
  division_by_zero exactArith 1 4 2 (initialState exactArith) (initialState exactArith)
    (initialState exactArith) (IStream.ofStr "1 / 0".toList)
    { back := ['1'], rest := " / 0".toList, eof := false, fail := false, bad := false }
    { back := "0 / 1".toList, rest := [], eof := true, fail := false, bad := false }
    1 0 6 (by decide!) (by decide) (by decide!) (by decide) (by decide) (by decide)

/-- C9. A line whose first token is not `var`, not a declared variable and
not `if`, `for`, `func` or `return` makes `evaluateStatement` throw
"Invalid statement: " followed by the whole line, in an unchanged state. -/
theorem invalid_statement (A : Arith D) (n : Nat) (st : State D) (line : Str)
    (hvar : firstWord line ≠ "var".toList)
    (hv : hasKey st.variables_ (firstWord line) = false)
    (hif : firstWord line ≠ "if".toList)
    (hfor : firstWord line ≠ "for".toList)
    (hfunc : firstWord line ≠ "func".toList)
    (hret : firstWord line ≠ "return".toList) :
    evaluateStatement A (n + 1) st line = .err ("Invalid statement: ".toList ++ line) st := by
  rw [evaluateStatement]
  simp only [extract_ofStr_fst, hvar, hv, hif, hfor, hfunc, hret, if_false]
  simp

theorem invalid_statement_witness :
    evaluateStatement exactArith 1 (initialState exactArith) "foo 1 2".toList
      = .err "Invalid statement: foo 1 2".toList (initialState exactArith) :=
  invalid_statement exactArith 0 (initialState exactArith) "foo 1 2".toList
    (by decide) (by decide) (by decide) (by decide) (by decide) (by decide)

/-- C10, as stated, fails twice.  After `var return` the line `return 1` is
an assignment to the variable `return` and throws "Invalid assignment
syntax".  And in a state with no function active and the pending return value
`7.0`, the line `return h (`, whose expression calls `h` and evaluates to
`0.0` without error, throws the return-outside-function error with the
pending return value reset to `0.0`. -/
theorem return_counterexample :
    (stateReturnDeclared.currentFunction_ = [] ∧
      (evaluateExpression exactArith 10 stateReturnDeclared
        (IStream.ofStr "return 1".toList).extract.2).value?.map Prod.fst = some 1 ∧
      evaluateStatement exactArith 10 stateReturnDeclared "return 1".toList
        = .err "Invalid assignment syntax".toList stateReturnDeclared) ∧
    (statePendingSeven.currentFunction_ = [] ∧
      statePendingSeven.currentFunctionReturnValue_ = 7 ∧
      (evaluateExpression exactArith 12 statePendingSeven
        (IStream.ofStr "return h (".toList).extract.2).value?.map Prod.fst = some 0 ∧
      (evaluateStatement exactArith 12 statePendingSeven "return h (".toList).error?
        = some "'return' statement outside of a function".toList ∧
      (evaluateStatement exactArith 12 statePendingSeven "return h (".toList).state?.map
        (fun st => st.currentFunctionReturnValue_) = some 0) := by
  decide!

/-- C10, amended. Let `return` be no declared variable and let the expression
`E` of the line `return E` evaluate without error to `v`, leaving the state
`st1`.  If no function is active, the statement throws "'return' statement
outside of a function" in the state `st1`, and `st1` is the state before the
statement, pending return value included, when no function name occurs in
`E`.  If a function is active and no function name occurs in `E`, the
statement returns and only sets the pending return value to `v`. -/
theorem return_statement (A : Arith D) (n m : Nat) (st st1 : State D) (ws E : Str) (v : D)
    (iss1 : IStream) (hws : allSpace ws) (hE : tokenEnd E)
    (hnv : hasKey st.variables_ "return".toList = false)
    (heval : evaluateExpression A n st (IStream.ofStr (ws ++ ("return".toList ++ E))).extract.2
      = .ok (v, iss1) st1) (hm : n + 2 ≤ m) :
    (st.currentFunction_ = [] →
      evaluateStatement A m st (ws ++ ("return".toList ++ E))
        = .err "'return' statement outside of a function".toList st1 ∧
      (noCallIn st.functions_ E → st1 = st)) ∧
    (st.currentFunction_ ≠ [] → noCallIn st.functions_ E →
      evaluateStatement A m st (ws ++ ("return".toList ++ E))
        = .ok () { st with currentFunctionReturnValue_ := v }) := by
  obtain ⟨hrest, hdisp⟩ := return_dispatch A (n + 1) st ws E hws hE hnv
  have hframe : noCallIn st.functions_ E → st1 = st := by
    intro hc
    exact ((no_call_state A n).1 st _ v iss1 st1 (by rw [hrest]; exact hc) heval).1
  constructor
  · intro hcur
    have h1 : st1.currentFunction_ = [] := (no_active_after A n).1 st _ v iss1 st1 hcur heval
    refine ⟨?_, hframe⟩
    have : evaluateStatement A (n + 2) st (ws ++ ("return".toList ++ E))
        = .err "'return' statement outside of a function".toList st1 := by
      rw [hdisp, handleFunctionReturn, heval]
      simp [Res.bind, h1]
    exact evaluateStatement_mono A this (by simp) hm
  · intro hcur hc
    have e := hframe hc
    subst e
    have : evaluateStatement A (n + 2) st1 (ws ++ ("return".toList ++ E))
        = .ok () { st1 with currentFunctionReturnValue_ := v } := by
      rw [hdisp, handleFunctionReturn, heval]
      simp [Res.bind, hcur]
    exact evaluateStatement_mono A this (by simp) hm

theorem return_statement_witness :
    (evaluateStatement exactArith 6 (initialState exactArith) "return 1 + 2".toList
      = .err "'return' statement outside of a function".toList (initialState exactArith)) ∧
    (evaluateStatement exactArith 6 stateActiveF "return 1 + 2".toList
      = .ok () { stateActiveF with currentFunctionReturnValue_ := 3 }) :=
  ⟨((return_statement exactArith 4 6 (initialState exactArith) (initialState exactArith) []
      " 1 + 2".toList 3
      { back := "2 + 1 nruter".toList, rest := [], eof := true, fail := true, bad := false }
      (by unfold allSpace; decide) (by unfold tokenEnd; decide) (by decide) (by decide!)
      (by decide)).1 (by decide)).1,
   (return_statement exactArith 4 6 stateActiveF stateActiveF []
      " 1 + 2".toList 3
      { back := "2 + 1 nruter".toList, rest := [], eof := true, fail := true, bad := false }
      (by unfold allSpace; decide) (by unfold tokenEnd; decide) (by decide) (by decide!)
      (by decide)).2 (by decide) (by unfold noCallIn; decide)⟩

/-- C11. A function call evaluated by `evaluateFactor` that returns a value
leaves the variable mapping exactly as it was before the call: the bindings of
the parameters and whatever the body declared or assigned are gone, and a
variable with the name of a parameter has its value from before again; no
function is active afterwards. -/
theorem call_restores_variables (A : Arith D) (n : Nat) (st st1 : State D)
    (iss s1 : IStream) (v : D) (fn : List Str × Str)
    (hnum : isNumberToken iss.extract.1 = false) (hparen : iss.extract.1 ≠ "(".toList)
    (hvar : findKey st.variables_ iss.extract.1 = none)
    (hfn : findKey st.functions_ iss.extract.1 = some fn)
    (h : evaluateFactor A n st iss = .ok (v, s1) st1) (param : Str) :
    st1.variables_ = st.variables_ ∧
    findKey st1.variables_ param = findKey st.variables_ param ∧
    st1.currentFunction_ = [] := by
  have hv := (keeps_variables A n).2.2.2.2 st iss v s1 st1 h
  refine ⟨hv, by rw [hv], ?_⟩
  cases n with
  | zero => rw [evaluateFactor] at h; exact absurd h (by simp)
  | succ n =>
    rw [evaluateFactor] at h
    simp only [hnum, hparen, hvar, hfn, Bool.false_eq_true, if_false] at h
    split at h
    · exact absurd h (by simp)
    · obtain ⟨t, st2, h1, h2⟩ := Res.bind_eq_ok h
      split at h2
      · obtain ⟨u, st3, h3, h4⟩ := Res.bind_eq_ok h2
        rw [← (Res.ok_inj h4).2]
      · obtain ⟨u, st3, h3, h4⟩ := Res.bind_eq_ok h2
        rw [← (Res.ok_inj h4).2]

theorem call_restores_variables_witness :
    ({ stateWithAddAndA with currentFunctionReturnValue_ := 5 } : State ℚ).variables_
      = stateWithAddAndA.variables_ ∧
    findKey ({ stateWithAddAndA with currentFunctionReturnValue_ := 5 } : State ℚ).variables_
      "a".toList = findKey stateWithAddAndA.variables_ "a".toList ∧
    ({ stateWithAddAndA with currentFunctionReturnValue_ := 5 } : State ℚ).currentFunction_
      = [] :=
  call_restores_variables exactArith 11 stateWithAddAndA
    { stateWithAddAndA with currentFunctionReturnValue_ := 5 }
    (IStream.ofStr "add ( 2 , 3 )".toList)
    { back := " 3 , 2 ( dda".toList, rest := [')'], eof := false, fail := false, bad := false }
    5 (["a".toList, "b".toList], " return a + b".toList)
    (by decide) (by decide) (by decide) (by decide) (by decide!) "a".toList

/-- C12, as stated, fails.  In a state, reached from the initial one, in which
`f` is defined and active and the pending return value is `0.0`, the call
`f ( 1 )` returns `0.0`, but afterwards no function is active and the pending
return value is `1.0`, written by the `return` of the body. -/
theorem active_call_counterexample :
    stateRecursion.currentFunction_ = "f".toList ∧
    findKey stateRecursion.functions_ "f".toList
      = some (["pi".toList], " return 1 / pi".toList) ∧
    stateRecursion.currentFunctionReturnValue_ = 0 ∧
    evaluateFactor exactArith 9 stateRecursion (IStream.ofStr "f ( 1 )".toList)
      = .ok (0, IStream.mk " 1 ( f".toList [')'] false false false)
          { stateRecursion with currentFunction_ := [], currentFunctionReturnValue_ := 1 } := by
  decide!

/-- C12, amended. When `f` is defined and is the active function once the
arguments of a call of it are bound, and the body evaluates without error, the
call returns `0.0` without raising an error, in the variable mapping of before
the call; the call does not write the pending return value, which is the one
the evaluation of the body left. -/
theorem active_call_returns_zero (A : Arith D) (n : Nat) (st st1 st2 : State D)
    (iss iss3 : IStream) (fn : List Str × Str)
    (hnum : isNumberToken iss.extract.1 = false) (hparen : iss.extract.1 ≠ "(".toList)
    (hvar : findKey st.variables_ iss.extract.1 = none)
    (hfn : findKey st.functions_ iss.extract.1 = some fn)
    (hargs : iss.extract.2.extract.1 = "(".toList)
    (hbind : bindArguments A n st iss.extract.2.extract.2 fn.1 = .ok iss3 st1)
    (hact : st1.currentFunction_ = iss.extract.1)
    (hbody : evaluateBlock A n st1 fn.2 = .ok () st2) :
    (evaluateFactor A (n + 1) st iss).value? = some (A.zero, iss3) ∧
    (evaluateFactor A (n + 1) st iss).error? = none ∧
    (evaluateFactor A (n + 1) st iss).state?.map (fun s => s.currentFunctionReturnValue_)
      = some st2.currentFunctionReturnValue_ ∧
    (evaluateFactor A (n + 1) st iss).state?.map (fun s => s.variables_)
      = some st.variables_ := by
  have h : evaluateFactor A (n + 1) st iss
      = .ok (A.zero, iss3) { st2 with variables_ := st.variables_, currentFunction_ := [] } := by
    rw [evaluateFactor]
    simp only [hnum, hparen, hvar, hfn, hargs, Bool.false_eq_true, if_false]
    simp [hbind, Res.bind, hact, hbody]
  rw [h]
  exact ⟨rfl, rfl, rfl, rfl⟩

theorem active_call_returns_zero_witness :
    (evaluateFactor exactArith 9 stateRecursion (IStream.ofStr "f ( 1 )".toList)).value?
      = some (0, IStream.mk " 1 ( f".toList [')'] false false false) ∧
    (evaluateFactor exactArith 9 stateRecursion (IStream.ofStr "f ( 1 )".toList)).error?
      = none ∧
    (evaluateFactor exactArith 9 stateRecursion (IStream.ofStr "f ( 1 )".toList)).state?.map
      (fun s => s.currentFunctionReturnValue_) = some 1 ∧
    (evaluateFactor exactArith 9 stateRecursion (IStream.ofStr "f ( 1 )".toList)).state?.map
      (fun s => s.variables_) = some stateRecursion.variables_ :=
  active_call_returns_zero exactArith 8 stateRecursion stateRecursionBound
    { stateRecursionBound with currentFunctionReturnValue_ := 1 }
    (IStream.ofStr "f ( 1 )".toList) (IStream.mk " 1 ( f".toList [')'] false false false)
    (["pi".toList], " return 1 / pi".toList)
    (by decide) (by decide) (by decide!) (by decide!) (by decide) (by decide!) (by decide!)
    (by decide!)

/-- C13, as stated, fails.  In a state, reached from the initial one, in which
`g` is a function with the body ` return 7`, `f` is a function with the body
` return g ( )` and no function is active, the call `f ( )` completes without
error and returns `3.0`, not `7.0`: `g` is also a variable, whose value is
`3.0`, and the `g` of the body reads the variable. -/
theorem nested_call_counterexample :
    findKey stateShadowedG.functions_ "g".toList = some ([], " return 7".toList) ∧
    findKey stateShadowedG.functions_ "f".toList = some ([], " return g ( )".toList) ∧
    stateShadowedG.currentFunction_ = [] ∧
    findKey stateShadowedG.variables_ "g".toList = some 3 ∧
    evaluateExpression exactArith 10 stateShadowedG (IStream.ofStr "f ( )".toList)
      = .ok (3, IStream.mk " ( f".toList [')'] false false false) stateShadowedG := by
  decide!

/-- C13, amended. Let `f` be a function without parameters whose body is
` return g ( )`, let `g` be a variable with the value `v`, `f` and `return` be
no variables, and no function be active.  Then the call `f ( )` completes
without error and returns `v`, the value of the variable `g`, whether or not
`g` is also a function; the state afterwards is the one before with `v` as
pending return value.  And the line `func f { return g ( )` is accepted only
in a state in which `g` is a variable. -/
theorem nested_call_reads_variable (A : Arith D) (n : Nat) (st : State D) (v : D)
    (hf : findKey st.functions_ "f".toList = some ([], " return g ( )".toList))
    (hfv : findKey st.variables_ "f".toList = none)
    (hg : findKey st.variables_ "g".toList = some v)
    (hret : hasKey st.variables_ "return".toList = false)
    (hcur : st.currentFunction_ = []) :
    evaluateExpression A (n + 10) st (IStream.ofStr "f ( )".toList)
      = .ok (v, IStream.mk " ( f".toList [')'] false false false)
          { st with currentFunctionReturnValue_ := v } ∧
    (∀ (m : Nat) (st0 st1 : State D),
      evaluateStatement A m st0 "func f \x7b return g ( )".toList = .ok () st1 →
      hasKey st0.variables_ "g".toList = true) :=
  ⟨shadowed_call_value A n st v hf hfv hg hret hcur,
   fun m st0 st1 h => definition_needs_variable A m st0 st1 h⟩

theorem nested_call_reads_variable_witness :
    evaluateExpression exactArith 10 stateShadowedG (IStream.ofStr "f ( )".toList)
      = .ok (3, IStream.mk " ( f".toList [')'] false false false)
          { stateShadowedG with currentFunctionReturnValue_ := 3 } ∧
    hasKey stateVariableG.variables_ "g".toList = true :=
  ⟨(nested_call_reads_variable exactArith 0 stateShadowedG 3 (by decide!) (by decide!)
      (by decide!) (by decide!) (by decide!)).1,
   (nested_call_reads_variable exactArith 0 stateShadowedG 3 (by decide!) (by decide!)
      (by decide!) (by decide!) (by decide!)).2 9 stateVariableG
      (runLine exactArith 9 stateVariableG "func f \x7b return g ( )".toList) (by decide!)⟩

/-- C14. On the line `func f { func f { var q` in the initial state the record
of `f` is written twice.  The body ` func f { var q`, run by line 170, stores
`f` with the body ` var q`; line 172 then stores `f` with the body
` func f { var q`.  No error is raised. -/
theorem nested_definition_overwrites (n : Nat) :
    evaluateBlock exactArith (n + 8) (initialState exactArith) " func f \x7b var q".toList
      = .ok () stateInnerF ∧
    findKey stateInnerF.functions_ "f".toList = some ([], " var q".toList) ∧
    evaluateStatement exactArith (n + 10) (initialState exactArith)
        "func f \x7b func f \x7b var q".toList = .ok () stateOuterF ∧
    findKey stateOuterF.functions_ "f".toList = some ([], " func f \x7b var q".toList) := by
  exact ⟨evaluateBlock_mono exactArith (n := 8) (by decide!) (by simp) (by omega), by decide,
    evaluateStatement_mono exactArith (n := 10) (by decide!) (by simp) (by omega), by decide⟩

/-- C15, as stated, fails: the token `1` followed by 400 zeros begins with a
digit, `std::stod` throws `std::out_of_range` on it, and the evaluation of the
literal alone throws "stod". -/
theorem literal_out_of_range_counterexample :
    isNumberToken hugeLiteral = true ∧
    evaluateExpression rangedArith 3 (initialState rangedArith) (IStream.ofStr hugeLiteral)
      = .err "stod".toList (initialState rangedArith) := by
  decide!

/-- C15, amended. A token that begins with a digit, or with `-` and a digit,
evaluated alone, returns the value `std::stod` gives it and leaves the
interpreter state unchanged; when `std::stod` throws, the evaluation throws
"stod" in the unchanged state. -/
theorem literal_alone (A : Arith D) (n : Nat) (st : State D) (token : Str)
    (hnum : isNumberToken token = true) (hns : noSpace token) :
    evaluateExpression A (n + 3) st (IStream.ofStr token)
      = match A.stod token with
        | some v => .ok (v, { back := token.reverse, rest := [], eof := true, fail := true,
                              bad := false }) st
        | none => .err "stod".toList st := by
  have hne : token ≠ [] := by
    intro h
    rw [h] at hnum
    simp [isNumberToken, charAt, isdigit] at hnum
  have h1 := extract_token (IStream.ofStr token) [] token [] rfl (by simp [IStream.ofStr])
    (by intro c hc; simp at hc) hne hns (by intro c hc; simp at hc)
  have h2 : (IStream.mk token.reverse [] true false false).extract
      = ([], IStream.mk token.reverse [] true true false) := by
    simp [IStream.extract, IStream.sentry, IStream.good]
  have h3 : (IStream.mk token.reverse [] true true false).extract
      = ([], IStream.mk token.reverse [] true true false) := by
    simp [IStream.extract, IStream.sentry, IStream.good]
  rw [evaluateExpression, evaluateTerm, evaluateFactor]
  simp only [h1, hnum, if_true]
  cases hv : A.stod token with
  | none => simp [Res.bind]
  | some v =>
    simp only [Res.bind, IStream.ofStr, List.reverse_nil, List.append_nil, List.isEmpty_nil]
    rw [evaluateTermLoop]
    simp only [h2, IStream.toBool]
    simp only [Bool.not_true, Bool.false_and, Bool.false_eq_true, if_false]
    rw [evaluateExpressionLoop]
    simp only [h3, IStream.toBool]
    simp

theorem literal_alone_witness :
    evaluateExpression exactArith 3 (initialState exactArith) (IStream.ofStr "-42".toList)
      = match exactArith.stod "-42".toList with
        | some v => .ok (v, { back := "-42".toList.reverse, rest := [], eof := true,
                              fail := true, bad := false }) (initialState exactArith)
        | none => .err "stod".toList (initialState exactArith) :=
  literal_alone exactArith 0 (initialState exactArith) "-42".toList (by decide)
    (by unfold noSpace; decide)

/-- C16. A declaration never reads an initializer.  On a line `var NAME REST`
whose `NAME` is not yet a variable the statement returns with `NAME` bound to
`0.0` and nothing else changed, whatever `REST` is; and on every stream the
test `iss.peek() == '='` of `handleVariableDeclaration` is false, so lines
74-77 are not reached. -/
theorem declaration_binds_zero (A : Arith D) (n : Nat) (st : State D)
    (ws1 ws2 name tail : Str) (iss : IStream) (hws1 : allSpace ws1) (hws2 : allSpace ws2)
    (hsep : ws2 ≠ []) (hne : name ≠ []) (hname : noSpace name) (htail : tokenEnd tail)
    (hnew : hasKey st.variables_ name = false) :
    evaluateStatement A (n + 2) st (ws1 ++ ("var".toList ++ (ws2 ++ (name ++ tail))))
      = .ok () { st with variables_ := setKey st.variables_ name A.zero } ∧
    iss.extract.2.peek.1 ≠ some '=' ∧
    handleVariableDeclaration A (n + 1) st iss
      = if hasKey st.variables_ iss.extract.1 then
          .err ("Variable already declared: ".toList ++ iss.extract.1) st
        else .ok () { st with variables_ := setKey st.variables_ iss.extract.1 A.zero } := by
  have hgen : ∀ s : IStream, handleVariableDeclaration A (n + 1) st s
      = if hasKey st.variables_ s.extract.1 then
          .err ("Variable already declared: ".toList ++ s.extract.1) st
        else .ok () { st with variables_ := setKey st.variables_ s.extract.1 A.zero } := by
    intro s
    rw [handleVariableDeclaration]
    simp only [peek_after_extract s, if_false]
  refine ⟨?_, peek_after_extract iss, hgen iss⟩
  have hend : tokenEnd (ws2 ++ (name ++ tail)) := tokenEnd_sep hws2 hsep _
  have h1 := extract_token (IStream.ofStr (ws1 ++ ("var".toList ++ (ws2 ++ (name ++ tail)))))
    ws1 "var".toList (ws2 ++ (name ++ tail)) rfl rfl hws1 (by decide)
    (by unfold noSpace; decide) hend
  have h2 := extract_token
    { back := "var".toList.reverse ++ (ws1.reverse ++
        (IStream.ofStr (ws1 ++ ("var".toList ++ (ws2 ++ (name ++ tail))))).back),
      rest := ws2 ++ (name ++ tail), eof := (ws2 ++ (name ++ tail)).isEmpty, fail := false,
      bad := false }
    ws2 name tail (by
      obtain ⟨a, ws, rfl⟩ := List.exists_cons_of_ne_nil hsep
      simp [IStream.good]) rfl hws2 hne hname htail
  rw [evaluateStatement]
  simp only [h1, if_true]
  rw [hgen]
  simp only [h2, hnew, Bool.false_eq_true, if_false]

theorem declaration_binds_zero_witness :
    evaluateStatement exactArith 2 (initialState exactArith) "var x = 1 / 0".toList
      = .ok () { initialState exactArith with
          variables_ := setKey (initialState exactArith).variables_ "x".toList 0 } ∧
    (IStream.ofStr "x=5".toList).extract.2.peek.1 ≠ some '=' ∧
    handleVariableDeclaration exactArith 1 (initialState exactArith)
        (IStream.ofStr "x=5".toList)
      = if hasKey (initialState exactArith).variables_ (IStream.ofStr "x=5".toList).extract.1
        then .err ("Variable already declared: ".toList
                ++ (IStream.ofStr "x=5".toList).extract.1) (initialState exactArith)
        else .ok () { initialState exactArith with
          variables_ := setKey (initialState exactArith).variables_
            (IStream.ofStr "x=5".toList).extract.1 0 } :=
  declaration_binds_zero exactArith 0 (initialState exactArith) [] " ".toList "x".toList
    " = 1 / 0".toList (IStream.ofStr "x=5".toList) (by unfold allSpace; decide)
    (by unfold allSpace; decide) (by decide) (by decide) (by unfold noSpace; decide)
    (by unfold tokenEnd; decide) (by decide)

/-- C17. `handleConditionalStatement` never runs a branch.  When the guard of
a line beginning with `if` evaluates without error, the token read after it
has at most one character, so it is not `then`: the handler throws "Expected
'then' after condition" in the state the guard left, whatever the guard's
value; in general the outcome of the handler is that of the guard followed by
this throw, and so is the outcome of the statement when `if` is not the name
of a variable. -/
theorem conditional_never_runs (A : Arith D) (n : Nat) (st st1 : State D) (line : Str)
    (v : D) (s1 : IStream) (hfirst : firstWord line = "if".toList)
    (heval : evaluateExpression A n st (IStream.ofStr line).extract.2 = .ok (v, s1) st1) :
    s1.extract.1.length ≤ 1 ∧
    handleConditionalStatement A (n + 1) st (IStream.ofStr line).extract.2
      = .err "Expected 'then' after condition".toList st1 ∧
    (∀ iss : IStream, handleConditionalStatement A (n + 1) st iss
      = (evaluateExpression A n st iss).bind fun _ st2 =>
          .err "Expected 'then' after condition".toList st2) ∧
    (hasKey st.variables_ "if".toList = false →
      evaluateStatement A (n + 2) st line
        = .err "Expected 'then' after condition".toList st1) := by
  have hgen : ∀ iss : IStream, handleConditionalStatement A (n + 1) st iss
      = (evaluateExpression A n st iss).bind fun _ st2 =>
          .err "Expected 'then' after condition".toList st2 := by
    intro iss
    rw [handleConditionalStatement]
    cases h : evaluateExpression A n st iss with
    | ok r st2 =>
      obtain ⟨x, s2⟩ := r
      have hl := token_after_expression A n st iss x s2 st2 h
      simp only [Res.bind]
      rw [if_pos (ne_of_length_le_one hl (by decide))]
    | err msg st2 => rfl
    | undef st2 => rfl
    | timeout => rfl
  have hh : handleConditionalStatement A (n + 1) st (IStream.ofStr line).extract.2
      = .err "Expected 'then' after condition".toList st1 := by
    rw [hgen, heval]; rfl
  refine ⟨token_after_expression A n st _ v s1 st1 heval, hh, hgen, ?_⟩
  intro hnv
  rw [evaluateStatement]
  simp only [extract_ofStr_fst, hfirst, hnv]
  repeat (first | rw [if_pos trivial] | rw [if_neg (by decide)])
  exact hh

theorem conditional_never_runs_witness :
    ({ back := "eht 1 fi".toList, rest := "n var y = 1".toList, eof := false, fail := false,
       bad := false } : IStream).extract.1.length ≤ 1 ∧
    evaluateStatement exactArith 6 (initialState exactArith) "if 1 then var y = 1".toList
      = .err "Expected 'then' after condition".toList (initialState exactArith) :=
  ⟨(conditional_never_runs exactArith 4 (initialState exactArith) (initialState exactArith)
      "if 1 then var y = 1".toList 1
      { back := "eht 1 fi".toList, rest := "n var y = 1".toList, eof := false, fail := false,
        bad := false } (by decide) (by decide!)).1,
   (conditional_never_runs exactArith 4 (initialState exactArith) (initialState exactArith)
      "if 1 then var y = 1".toList 1
      { back := "eht 1 fi".toList, rest := "n var y = 1".toList, eof := false, fail := false,
        bad := false } (by decide) (by decide!)).2.2.2 (by decide)⟩

/-- C18. `handleForLoop` never runs the loop body.  When the initializer of a
line beginning with `for` and the guard after it evaluate without error, the
token read after the guard has at most one character, so it is not `do`: the
handler throws "Expected 'do' after condition" in the state the guard left.
The variable mapping of that state is the one the initializer left, so what
the initializer declared or assigned stays after the failure.  The statement
has this outcome when `for` is not the name of a variable. -/
theorem for_never_runs (A : Arith D) (n : Nat) (st st1 st2 : State D) (line : Str)
    (v : D) (s2 : IStream) (hfirst : firstWord line = "for".toList)
    (hinit : evaluateStatement A n st
      (((IStream.ofStr line).extract.2.getline '\x7b').1 ++ "\x7b".toList) = .ok () st1)
    (hguard : evaluateExpression A n st1 ((IStream.ofStr line).extract.2.getline '\x7b').2
      = .ok (v, s2) st2) :
    s2.extract.1.length ≤ 1 ∧
    handleForLoop A (n + 1) st (IStream.ofStr line).extract.2
      = .err "Expected 'do' after condition".toList st2 ∧
    st2.variables_ = st1.variables_ ∧
    (hasKey st.variables_ "for".toList = false →
      evaluateStatement A (n + 2) st line
        = .err "Expected 'do' after condition".toList st2) := by
  have hl := token_after_expression A n st1 _ v s2 st2 hguard
  have hh : handleForLoop A (n + 1) st (IStream.ofStr line).extract.2
      = .err "Expected 'do' after condition".toList st2 := by
    rw [handleForLoop]
    simp only [hinit, Res.bind, hguard]
    rw [if_pos (ne_of_length_le_one hl (by decide))]
  refine ⟨hl, hh, (keeps_variables A n).1 st1 _ v s2 st2 hguard, ?_⟩
  intro hnv
  rw [evaluateStatement]
  simp only [extract_ofStr_fst, hfirst, hnv]
  repeat (first | rw [if_pos trivial] | rw [if_neg (by decide)])
  exact hh

theorem for_never_runs_witness :
    ({ back := "d 3 - i \x7b 0 = i rav rof".toList, rest := "o var i = i + 1 end".toList,
       eof := false, fail := false, bad := false } : IStream).extract.1.length ≤ 1 ∧
    stateAfterVarI.variables_ = stateAfterVarI.variables_ ∧
    evaluateStatement exactArith 7 (initialState exactArith)
        "for var i = 0 \x7b i - 3 do var i = i + 1 end".toList
      = .err "Expected 'do' after condition".toList stateAfterVarI :=
  ⟨(for_never_runs exactArith 5 (initialState exactArith) stateAfterVarI stateAfterVarI
      "for var i = 0 \x7b i - 3 do var i = i + 1 end".toList (-3)
      { back := "d 3 - i \x7b 0 = i rav rof".toList, rest := "o var i = i + 1 end".toList,
        eof := false, fail := false, bad := false } (by decide) (by decide!) (by decide!)).1,
   (for_never_runs exactArith 5 (initialState exactArith) stateAfterVarI stateAfterVarI
      "for var i = 0 \x7b i - 3 do var i = i + 1 end".toList (-3)
      { back := "d 3 - i \x7b 0 = i rav rof".toList, rest := "o var i = i + 1 end".toList,
        eof := false, fail := false, bad := false } (by decide) (by decide!)
      (by decide!)).2.2.1,
   (for_never_runs exactArith 5 (initialState exactArith) stateAfterVarI stateAfterVarI
      "for var i = 0 \x7b i - 3 do var i = i + 1 end".toList (-3)
      { back := "d 3 - i \x7b 0 = i rav rof".toList, rest := "o var i = i + 1 end".toList,
        eof := false, fail := false, bad := false } (by decide) (by decide!)
      (by decide!)).2.2.2 (by decide)⟩

/-- C19, as stated, fails.  When the name is already defined the definition
`func h { return 1` throws "Function already defined: h", not the
return-outside-function error.  And after `var return` the body of
`func f { return = 1` is an assignment: the definition returns and stores `f`,
although ` = 1` is no expression. -/
theorem definition_counterexample :
    (stateWithH.currentFunction_ = [] ∧
      evaluateStatement exactArith 9 stateWithH "func h \x7b return 1".toList
        = .err "Function already defined: h".toList stateWithH) ∧
    (stateReturnDeclared.currentFunction_ = [] ∧
      evaluateExpression exactArith 9 stateReturnDeclared (IStream.ofStr " = 1".toList)
        = .err "Invalid expression: =".toList stateReturnDeclared ∧
      evaluateStatement exactArith 9 stateReturnDeclared "func f \x7b return = 1".toList
        = .ok () { stateReturnDeclared with
            variables_ := setKey stateReturnDeclared.variables_ "return".toList 1,
            functions_ := [("f".toList, ([], " return = 1".toList))] }) := by
  decide!

/-- C19, amended. `handleFunctionDefinition` runs the body before it stores
the function.  Let no function be active, `return` be no variable, the name of
a line `func NAME PARAMS { return E` be not yet defined.  Then the outcome of
the definition is that of the evaluation of `E` followed by the throw of
"'return' statement outside of a function": the definition fails, with that
error when `E` evaluates and with the error of `E` otherwise, and stores
nothing; when no function name occurs in `E` the whole state, function table
included, is as before.  It is also the outcome of the statement when `func`
is no variable.  And whenever the body of a definition of a new name
evaluates, the definition returns in the state the body left, with the
function stored: what the body did to the variables is done at definition
time. -/
theorem definition_runs_body (A : Arith D) (n : Nat) (st : State D) (line ws E : Str)
    (hnew : hasKey st.functions_ (definitionName line) = false)
    (hbody : definitionBody line = ws ++ ("return".toList ++ E))
    (hws : allSpace ws) (hE : tokenEnd E)
    (hnr : hasKey st.variables_ "return".toList = false)
    (hcur : st.currentFunction_ = []) :
    handleFunctionDefinition A (n + 5) st (IStream.ofStr line).extract.2
      = ((evaluateExpression A n st (IStream.ofStr (definitionBody line)).extract.2).bind
          fun _ st1 => .err "'return' statement outside of a function".toList st1) ∧
    (noCallIn st.functions_ E →
      (handleFunctionDefinition A (n + 5) st (IStream.ofStr line).extract.2).stopsIn st) ∧
    (firstWord line = "func".toList → hasKey st.variables_ "func".toList = false →
      evaluateStatement A (n + 6) st line
        = ((evaluateExpression A n st (IStream.ofStr (definitionBody line)).extract.2).bind
            fun _ st1 => .err "'return' statement outside of a function".toList st1)) ∧
    (∀ (iss : IStream) (st1 : State D), hasKey st.functions_ iss.extract.1 = false →
      evaluateBlock A n st ((iss.extract.2.getline '\x7b').2.getline '\n').1 = .ok () st1 →
      handleFunctionDefinition A (n + 1) st iss
        = .ok () { st1 with
            functions_ := setKey st1.functions_ iss.extract.1
              (paramListOf (iss.extract.2.getline '\x7b').1,
               ((iss.extract.2.getline '\x7b').2.getline '\n').1) }) := by
  have hne : definitionBody line ≠ [] := by
    rw [hbody]; simp
  have hnl : ∀ c ∈ definitionBody line, c ≠ '\n' := getline_fst_no_delim _ _
  obtain ⟨hrest, hdisp⟩ := return_dispatch A (n + 1) st ws E hws hE hnr
  have hstmt : evaluateStatement A (n + 2) st (definitionBody line)
      = ((evaluateExpression A n st (IStream.ofStr (definitionBody line)).extract.2).bind
          fun _ st1 => .err "'return' statement outside of a function".toList st1) := by
    rw [hbody, hdisp, return_outside A n st _ hcur]
  have hblock : evaluateBlock A (n + 4) st (definitionBody line)
      = ((evaluateExpression A n st (IStream.ofStr (definitionBody line)).extract.2).bind
          fun _ st1 => .err "'return' statement outside of a function".toList st1) := by
    rw [evaluateBlock_one_line A (n + 2) st _ hne hnl, hstmt, Res.bind_err_bind]
  have hdef : handleFunctionDefinition A (n + 5) st (IStream.ofStr line).extract.2
      = ((evaluateExpression A n st (IStream.ofStr (definitionBody line)).extract.2).bind
          fun _ st1 => .err "'return' statement outside of a function".toList st1) := by
    rw [handleFunctionDefinition]
    have hnew1 : hasKey st.functions_ (IStream.ofStr line).extract.2.extract.1 = false := hnew
    simp only [hnew1, Bool.false_eq_true, if_false]
    have hb : evaluateBlock A (n + 4) st
        (((IStream.ofStr line).extract.2.extract.2.getline '\x7b').2.getline '\n').1
        = ((evaluateExpression A n st (IStream.ofStr (definitionBody line)).extract.2).bind
          fun _ st1 => .err "'return' statement outside of a function".toList st1) := hblock
    rw [hb, Res.bind_err_bind]
  refine ⟨hdef, ?_, ?_, ?_⟩
  · intro hc
    rw [hdef]
    refine Res.stopsIn_bind ((no_call_frame A n).1 st _ ?_) (fun _ _ => Res.stopsIn_err _ _)
    rw [hbody, hrest]
    exact hc
  · intro hfirst hnf
    rw [evaluateStatement]
    simp only [extract_ofStr_fst, hfirst, hnf]
    repeat (first | rw [if_pos trivial] | rw [if_neg (by decide)])
    exact hdef
  · intro iss st1 hn hb
    rw [handleFunctionDefinition]
    simp only [hn, Bool.false_eq_true, if_false, hb, Res.bind]

theorem definition_runs_body_witness :
    evaluateStatement exactArith 9 (initialState exactArith) "func f \x7b return 1".toList
      = .err "'return' statement outside of a function".toList (initialState exactArith) :=
  ((definition_runs_body exactArith 3 (initialState exactArith) "func f \x7b return 1".toList
      " ".toList " 1".toList (by decide) (by decide) (by unfold allSpace; decide)
      (by unfold tokenEnd; decide) (by decide) (by decide)).2.2.1 (by decide)
      (by decide)).trans (by decide!)

/-- C20, as stated, fails.  In a state, reached from the initial one, with no
function active, the body of `f` calls `g` and then divides by zero: the call
`f ( 0 )` throws "Division by zero", and after it no function is active, since
the call of `g` has cleared the active function; a following `return 1` throws
the return-outside-function error. -/
theorem failed_call_counterexample :
    stateTwoFunctions.currentFunction_ = [] ∧
    findKey stateTwoFunctions.functions_ "f".toList
      = some (["pi".toList], " e = g ( / pi".toList) ∧
    evaluateFactor exactArith 10 stateTwoFunctions (IStream.ofStr "f ( 0 )".toList)
      = .err "Division by zero".toList
          { stateTwoFunctions with
            variables_ := setKey stateTwoFunctions.variables_ "pi".toList 0 } ∧
    evaluateStatement exactArith 5
        { stateTwoFunctions with
          variables_ := setKey stateTwoFunctions.variables_ "pi".toList 0 } "return 1".toList
      = .err "'return' statement outside of a function".toList
          { stateTwoFunctions with
            variables_ := setKey stateTwoFunctions.variables_ "pi".toList 0 } := by
  decide!

/-- C20, amended. A call whose body throws is not rolled back: when the
arguments of a call of `f` are bound in the state `st1`, `f` is not the active
function there, and the body throws in the state `st2`, `evaluateFactor`
throws the same exception in `st2`, without restoring the variable mapping or
clearing the active function.  When `f` is still the active function in `st2`
and `return` is not the name of a variable there, a following statement
`return 1` returns and sets the pending return value. -/
theorem failed_call_not_rolled_back (A : Arith D) (n m : Nat) (st st1 st2 : State D)
    (iss iss3 : IStream) (fn : List Str × Str) (msg : Str) (one : D)
    (hnum : isNumberToken iss.extract.1 = false) (hparen : iss.extract.1 ≠ "(".toList)
    (hvar : findKey st.variables_ iss.extract.1 = none)
    (hfn : findKey st.functions_ iss.extract.1 = some fn)
    (hargs : iss.extract.2.extract.1 = "(".toList)
    (hbind : bindArguments A n st iss.extract.2.extract.2 fn.1 = .ok iss3 st1)
    (hna : st1.currentFunction_ ≠ iss.extract.1)
    (hbody : evaluateBlock A n
      { st1 with currentFunction_ := iss.extract.1, currentFunctionReturnValue_ := A.zero }
      fn.2 = .err msg st2)
    (hone : A.stod "1".toList = some one) (hm : 5 ≤ m) :
    evaluateFactor A (n + 1) st iss = .err msg st2 ∧
    (st2.currentFunction_ = iss.extract.1 →
      hasKey st2.variables_ "return".toList = false →
      evaluateStatement A m st2 "return 1".toList
        = .ok () { st2 with currentFunctionReturnValue_ := one }) := by
  have hne : iss.extract.1 ≠ [] := by
    intro h0
    rcases extract_cases iss with h1 | ⟨ws, tok, r, -, hne, -, he⟩
    · rw [extract_of_not_toBool _ h1.2] at hargs
      exact absurd hargs (by decide)
    · rw [he] at h0
      exact hne h0
  refine ⟨?_, fun hcur hnv =>
    return_one_accepted A m st2 one (by rw [hcur]; exact hne) hnv hone hm⟩
  rw [evaluateFactor]
  simp only [hnum, hparen, hvar, hfn, hargs, Bool.false_eq_true, if_false]
  simp [hbind, Res.bind, hna, hbody]

theorem failed_call_not_rolled_back_witness :
    evaluateFactor exactArith 5 stateWithVarZ (IStream.ofStr "f (".toList)
      = .err "Variable already declared: z".toList
          { stateWithVarZ with currentFunction_ := "f".toList } ∧
    evaluateStatement exactArith 5 { stateWithVarZ with currentFunction_ := "f".toList }
        "return 1".toList
      = .ok () { stateWithVarZ with currentFunction_ := "f".toList,
                                    currentFunctionReturnValue_ := 1 } :=
  ⟨(failed_call_not_rolled_back exactArith 4 5 stateWithVarZ stateWithVarZ
      { stateWithVarZ with currentFunction_ := "f".toList }
      (IStream.ofStr "f (".toList) (IStream.mk "( f".toList [] true false false)
      ([], " var z".toList) "Variable already declared: z".toList 1
      (by decide) (by decide) (by decide!) (by decide!) (by decide) (by decide!) (by decide!)
      (by decide!) (by decide!) (by decide)).1,
   (failed_call_not_rolled_back exactArith 4 5 stateWithVarZ stateWithVarZ
      { stateWithVarZ with currentFunction_ := "f".toList }
      (IStream.ofStr "f (".toList) (IStream.mk "( f".toList [] true false false)
      ([], " var z".toList) "Variable already declared: z".toList 1
      (by decide) (by decide) (by decide!) (by decide!) (by decide) (by decide!) (by decide!)
      (by decide!) (by decide!) (by decide)).2 (by decide!) (by decide!)⟩

end Quill
